import Mathlib

/-!
# The KS0713 LCD driver of the ar-t6 firmware (`firmware/lcd.c`)

A shallow embedding of the frame buffer, the text cursor and the drawing
primitives of `lcd.c`, and theorems about them.

Conventions of the embedding.

* `uint8_t` values are natural numbers; every place where C narrows a value to
  eight bits is written `% 256`.
* `LCD_WIDTH` and `LCD_HEIGHT` are constants of `lcd.h`, a header that is not
  embedded here; they are parameters of every definition that uses them.  The
  same holds for `RECT_FILL` and `RECT_ROUNDED` and for the two font tables of
  `lcd_font_medium.h` and `lcd_font_large.h`.  The theorems ask of them what
  the `uint8_t` coordinates of the driver need: `LCD_WIDTH ≤ 255`,
  `LCD_HEIGHT ≤ 255`, and `LCD_HEIGHT` a multiple of 8 (whole pages).
* `lcd_buffer` is the list of its bytes.  A store outside the array is
  undefined behaviour in C; the embedding returns `none` there.  `none` is also
  the result of a division by zero and of a loop that never exits.
* The loops over a `uint8_t` counter take a fuel of 257 iterations: the loop
  bodies never change what the loop condition reads, so a counter that has not
  left the loop after 256 steps has repeated a value and never leaves it.
-/

namespace Lcd

/-! ## Pixel primitive -/

/-- The type of a pixel-setting routine over a frame representation `σ`:
`lcd_set_pixel` itself over the frame buffer, or a recorder of the calls. -/
abbrev SetPixel (σ : Type) := σ → Nat → Nat → Nat → Option σ

/-- Embedding of `lcd_set_pixel(x, y, colour)` on the frame buffer `buf`:
```
if (colour) lcd_buffer[x+(y/8)*LCD_WIDTH] |= (1 << (y%8));
else lcd_buffer[x+ (y/8)*LCD_WIDTH] &= ~(1 << (y%8));
```
`~(1 << k)` and-ed into a byte is the and with the 8-bit complement
`0xFF ^ (1 << k)`. -/
def lcd_set_pixel (LCD_WIDTH : Nat) : SetPixel (List Nat) :=
  fun buf x y colour =>
    let i := x + (y / 8) * LCD_WIDTH
    if i < buf.length then
      if colour ≠ 0 then some (buf.set i (buf.getD i 0 ||| (1 <<< (y % 8))))
      else some (buf.set i (buf.getD i 0 &&& (0xFF ^^^ (1 <<< (y % 8)))))
    else none

/-- The recorder of `lcd_set_pixel` calls: appends the arguments of the call
to the log. -/
def log_pixel : SetPixel (List (Nat × Nat × Nat)) :=
  fun tr x y colour => some (tr ++ [(x, y, colour)])

/-- Reading of a pixel under the packing of the frame buffer: bit `y % 8` of
byte `x + (y/8)*LCD_WIDTH`. -/
def pixel_on (LCD_WIDTH : Nat) (buf : List Nat) (x y : Nat) : Bool :=
  (buf.getD (x + (y / 8) * LCD_WIDTH) 0).testBit (y % 8)

/-- The pixel as a number: 1 when on, 0 when off. -/
def pixel (LCD_WIDTH : Nat) (buf : List Nat) (x y : Nat) : Nat :=
  if pixel_on LCD_WIDTH buf x y then 1 else 0

/-- Runs a pixel-setting routine over a sequence of calls `(x, y, colour)`. -/
def plotAll {σ : Type} (sp : SetPixel σ) : σ → List (Nat × Nat × Nat) → Option σ
  | s, [] => some s
  | s, (x, y, c) :: ps => (sp s x y c).bind (fun s' => plotAll sp s' ps)

/-! ## Driver state -/

/-- The two font tables `font` can point to; `font == font_large` in the source
compares the pointers. -/
inductive Font where
  | font_medium
  | font_large
deriving DecidableEq, Repr

/-- The file-scope variables of `lcd.c`. -/
structure State where
  contrast : Nat
  lcd_buffer : List Nat
  char_height : Nat
  char_width : Nat
  cursor_x : Nat
  cursor_y : Nat
  font : Font
  font_width : Nat
deriving DecidableEq, Repr

/-- The initial values of the file-scope variables, over a given content of
`lcd_buffer`. -/
def State.initial (buf : List Nat) : State :=
  { contrast := 0x28, lcd_buffer := buf, char_height := 7, char_width := 5,
    cursor_x := 0, cursor_y := 0, font := Font.font_medium, font_width := 255 * 5 }

/-- The selector of `lcd_set_char_size`. -/
inductive LCD_CHAR_SIZE where
  | LCD_CHAR_SIZE_SMALL
  | LCD_CHAR_SIZE_MEDIUM
deriving DecidableEq, Repr

/-! ## Cursor and font selection -/

/-- Embedding of `lcd_set_cursor(x, y)`:
```
if ((y+char_height) >= LCD_HEIGHT) return;
if ((x+char_width) >= LCD_WIDTH) return;
cursor_x = x;
cursor_y = y;
```
-/
def lcd_set_cursor (LCD_WIDTH LCD_HEIGHT : Nat) (st : State) (x y : Nat) : State :=
  if y + st.char_height ≥ LCD_HEIGHT then st
  else if x + st.char_width ≥ LCD_WIDTH then st
  else { st with cursor_x := x, cursor_y := y }

/-- Embedding of `lcd_set_char_size(s)`; `font_width` is a `uint16_t`. -/
def lcd_set_char_size (st : State) (s : LCD_CHAR_SIZE) : State :=
  match s with
  | LCD_CHAR_SIZE.LCD_CHAR_SIZE_SMALL =>
      { st with char_height := 7, char_width := 5, font_width := (255 * 5) % 65536,
                font := Font.font_medium }
  | LCD_CHAR_SIZE.LCD_CHAR_SIZE_MEDIUM =>
      { st with char_height := 15, char_width := 11, font := Font.font_large,
                font_width := (14 * 11) % 65536 }

/-! ## Glyph rendering -/

/-- The inner loop of `lcd_write_char` over the rows of column `x`:
```
for (y=0; y<char_height + 1; y++) {
    uint8_t state;
    uint8_t d = font[(c*char_width)+x+row*font_width];
    if (d & (1 << y%8)) state = colour; else state = 1 - colour;
    lcd_set_pixel(cursor_x+x, cursor_y+y, state);
    if (y%8 == 7) row++;
}
```
`table` is the table `font` points to, `c` the glyph index. -/
def lcd_write_char_rows {σ : Type} (sp : SetPixel σ) (table : Nat → Nat) (st : State)
    (c colour x : Nat) : Nat → Nat → Nat → σ → Option σ
  | 0, _, _, _ => none
  | fuel + 1, y, row, s =>
    if y < st.char_height + 1 then
      let d := table (c * st.char_width + x + row * st.font_width) % 256
      let state := if d &&& (1 <<< (y % 8)) ≠ 0 then colour else (256 + 1 - colour) % 256
      (sp s ((st.cursor_x + x) % 256) ((st.cursor_y + y) % 256) state).bind fun s' =>
        lcd_write_char_rows sp table st c colour x fuel ((y + 1) % 256)
          (if y % 8 = 7 then (row + 1) % 256 else row) s'
    else some s

/-- The outer loop of `lcd_write_char` over the columns of the glyph:
```
for (x=0; x<char_width; x++ ) { row = 0; for (y=0; ...) ... }
```
-/
def lcd_write_char_cols {σ : Type} (sp : SetPixel σ) (table : Nat → Nat) (st : State)
    (c colour : Nat) : Nat → Nat → σ → Option σ
  | 0, _, _ => none
  | fuel + 1, x, s =>
    if x < st.char_width then
      (lcd_write_char_rows sp table st c colour x 257 0 0 s).bind fun s' =>
        lcd_write_char_cols sp table st c colour fuel ((x + 1) % 256) s'
    else some s

/-- The loop of `lcd_write_char` that draws the spacing column:
```
for (y=0; y<char_height+1; y++) lcd_set_pixel(cursor_x+char_width, cursor_y+y, 1-colour);
```
-/
def lcd_write_char_gap {σ : Type} (sp : SetPixel σ) (st : State) (colour : Nat) :
    Nat → Nat → σ → Option σ
  | 0, _, _ => none
  | fuel + 1, y, s =>
    if y < st.char_height + 1 then
      (sp s ((st.cursor_x + st.char_width) % 256) ((st.cursor_y + y) % 256)
          ((256 + 1 - colour) % 256)).bind fun s' =>
        lcd_write_char_gap sp st colour fuel ((y + 1) % 256) s'
    else some s

/-- The remapping of `c` that `lcd_write_char` does for the large font;
`none` is the `else return`:
```
if (c <= '9' && c >= '0') c -= '0';
else if (c == ' ') c = 13;
else if (c == '-') c = 12;
else if (c == '+') c = 11;
else return;
```
-/
def large_index (c : Nat) : Option Nat :=
  if c ≤ 57 ∧ c ≥ 48 then some (c - 48)
  else if c = 32 then some 13
  else if c = 45 then some 12
  else if c = 43 then some 11
  else none

/-- The pixel writes of `lcd_write_char` for glyph index `c` (both loops),
over any frame representation. -/
def lcd_write_char_pixels {σ : Type} (sp : SetPixel σ) (fonts : Font → Nat → Nat)
    (st : State) (c colour : Nat) (s : σ) : Option σ :=
  (lcd_write_char_cols sp (fonts st.font) st c colour 257 0 s).bind fun s' =>
    lcd_write_char_gap sp st colour 257 0 s'

/-- Embedding of `lcd_write_char(c, colour)`.  `fonts` gives the content of
the table each font pointer refers to. -/
def lcd_write_char (LCD_WIDTH LCD_HEIGHT : Nat) (fonts : Font → Nat → Nat)
    (st : State) (c colour : Nat) : Option State :=
  if st.cursor_y + st.char_height ≥ LCD_HEIGHT then some st
  else if st.cursor_x + st.char_width ≥ LCD_WIDTH then some st
  else
    let g := if st.font = Font.font_large then large_index c else some c
    match g with
    | none => some st
    | some c =>
      (lcd_write_char_pixels (lcd_set_pixel LCD_WIDTH) fonts st c colour st.lcd_buffer).bind
        fun buf =>
          let cursor_x := (st.cursor_x + (st.char_width + 1)) % 256
          some { st with
            lcd_buffer := buf
            cursor_x := cursor_x
            cursor_y := if cursor_x ≥ LCD_WIDTH then (st.cursor_y + (st.char_height + 1)) % 256
                        else st.cursor_y }

/-- The loop of `lcd_write_string` over `n` characters starting at `ptr`:
```
for (ptr = s; n > 0; ptr++, n--) lcd_write_char(*ptr, colour);
```
`ptr` is the list of the characters before the terminator; reading past the
terminator has no result. -/
def lcd_write_string_loop (write_char : State → Nat → Nat → Option State) (colour : Nat) :
    Nat → List Nat → State → Option State
  | 0, _, st => some st
  | _ + 1, [], _ => none
  | n + 1, c :: ptr, st =>
    (write_char st c colour).bind fun st' => lcd_write_string_loop write_char colour n ptr st'

/-- Embedding of `lcd_write_string(s, colour)`; `s` is the list of the
characters before the terminator, so `strlen(s)` is its length:
```
uint8_t n = strlen(s);
```
-/
def lcd_write_string (LCD_WIDTH LCD_HEIGHT : Nat) (fonts : Font → Nat → Nat)
    (st : State) (s : List Nat) (colour : Nat) : Option State :=
  let n := s.length % 256
  lcd_write_string_loop (lcd_write_char LCD_WIDTH LCD_HEIGHT fonts) colour n s st

/-- Calling `lcd_write_char` on each character of `s` in turn. -/
def write_chars (LCD_WIDTH LCD_HEIGHT : Nat) (fonts : Font → Nat → Nat) (colour : Nat) :
    State → List Nat → Option State
  | st, [] => some st
  | st, c :: cs =>
    (lcd_write_char LCD_WIDTH LCD_HEIGHT fonts st c colour).bind fun st' =>
      write_chars LCD_WIDTH LCD_HEIGHT fonts colour st' cs

/-! ## Numbers -/

/-- Conversion of an `int` value to `int16_t` (two's complement). -/
def toInt16 (z : Int) : Int := (z + 32768) % 65536 - 32768

/-- Conversion of an `int` value to `uint8_t`. -/
def toUInt8 (z : Int) : Nat := (z % 256).toNat

/-- Embedding of `lcd_write_int(val, colour, show_sign)` over the routine
`write_char` it calls, which is `lcd_write_char` on the driver state or a
recorder of the characters.  `tth`, `th`, `h`, `t` are `uint8_t`, `u` is
`int16_t`; the arithmetic is done in `int` (division truncates) and narrowed on
assignment.  `-val` has no result for the least `int32_t`. -/
def lcd_write_int_with {σ : Type} (write_char : σ → Nat → Nat → Option σ) (s : σ)
    (val : Int) (colour : Nat) (show_sign : Bool) : Option σ :=
  if val = -2147483648 then none else
  let u := toInt16 (if val < 0 then -val else val)
  let tth := toUInt8 (u.tdiv 10000)
  let u := toInt16 (u - tth * 10000)
  let th := toUInt8 (u.tdiv 1000)
  let u := toInt16 (u - th * 1000)
  let h := toUInt8 (u.tdiv 100)
  let u := toInt16 (u - h * 100)
  let t := toUInt8 (u.tdiv 10)
  let u := toInt16 (u - t * 10)
  (if val < 0 then write_char s 45 colour else some s).bind fun s =>
  (if show_sign then (if val ≥ 0 then write_char s 43 colour else some s) else some s).bind fun s =>
  (if tth > 0 then write_char s ((tth + 48) % 256) colour else some s).bind fun s =>
  (if tth > 0 ∨ th > 0 then write_char s ((th + 48) % 256) colour else some s).bind fun s =>
  (if tth > 0 ∨ th > 0 ∨ h > 0 then write_char s ((h + 48) % 256) colour
   else if !show_sign then write_char s 32 colour else some s).bind fun s =>
  (if tth > 0 ∨ th > 0 ∨ h > 0 ∨ t > 0 ∨ !show_sign then write_char s ((t + 48) % 256) colour
   else some s).bind fun s =>
  write_char s (toUInt8 (u + 48)) colour

/-- Embedding of `lcd_write_int(val, colour, show_sign)` on the driver state. -/
def lcd_write_int (LCD_WIDTH LCD_HEIGHT : Nat) (fonts : Font → Nat → Nat)
    (st : State) (val : Int) (colour : Nat) (show_sign : Bool) : Option State :=
  lcd_write_int_with (lcd_write_char LCD_WIDTH LCD_HEIGHT fonts) st val colour show_sign

/-- The recorder of `lcd_write_char` calls: appends the character to the log. -/
def log_char : List Nat → Nat → Nat → Option (List Nat) :=
  fun tr c _ => some (tr ++ [c])

/-- The sequence of characters `lcd_write_int(val, colour, show_sign)` passes
to `lcd_write_char`, in the order of the calls. -/
def lcd_write_int_chars (val : Int) (show_sign : Bool) : Option (List Nat) :=
  lcd_write_int_with log_char [] val 0 show_sign

/-! ## Rectangles -/

/-- The inner loop of `lcd_draw_rect` over the columns of row `y`:
```
for (x = x1; x <= x2; ++x)
{
    if ((flags & RECT_FILL) || y == y1 || y == y2 || x == x1 || x == x2)
    {
        if (flags & RECT_ROUNDED)
        {
            if (!( (x == x1 && y == y1) || (x == x2 && y == y1) ||
                   (x == x1 && y == y2) || (x == x2 && y == y2) ))
                lcd_set_pixel(x, y, colour);
        }
        else
            lcd_set_pixel(x, y, colour);
    }
}
```
-/
def lcd_draw_rect_cols {σ : Type} (sp : SetPixel σ) (RECT_FILL RECT_ROUNDED : Nat)
    (x1 y1 x2 y2 colour flags y : Nat) : Nat → Nat → σ → Option σ
  | 0, _, _ => none
  | fuel + 1, x, s =>
    if x ≤ x2 then
      (if flags &&& RECT_FILL ≠ 0 ∨ y = y1 ∨ y = y2 ∨ x = x1 ∨ x = x2 then
        if flags &&& RECT_ROUNDED ≠ 0 then
          if ¬ ((x = x1 ∧ y = y1) ∨ (x = x2 ∧ y = y1) ∨ (x = x1 ∧ y = y2) ∨ (x = x2 ∧ y = y2))
          then sp s x y colour
          else some s
        else sp s x y colour
      else some s).bind fun s' =>
        lcd_draw_rect_cols sp RECT_FILL RECT_ROUNDED x1 y1 x2 y2 colour flags y fuel
          ((x + 1) % 256) s'
    else some s

/-- The outer loop of `lcd_draw_rect` over the rows:
```
for (y = y1; y <= y2; ++y) { for (x = x1; x <= x2; ++x) ... }
```
-/
def lcd_draw_rect_rows {σ : Type} (sp : SetPixel σ) (RECT_FILL RECT_ROUNDED : Nat)
    (x1 y1 x2 y2 colour flags : Nat) : Nat → Nat → σ → Option σ
  | 0, _, _ => none
  | fuel + 1, y, s =>
    if y ≤ y2 then
      (lcd_draw_rect_cols sp RECT_FILL RECT_ROUNDED x1 y1 x2 y2 colour flags y 257 x1 s).bind
        fun s' =>
          lcd_draw_rect_rows sp RECT_FILL RECT_ROUNDED x1 y1 x2 y2 colour flags fuel
            ((y + 1) % 256) s'
    else some s

/-- Embedding of `lcd_draw_rect(x1, y1, x2, y2, colour, flags)` over a
pixel-setting routine:
```
if (x1 > x2 || y1 > y2) return;
```
and then the two loops. -/
def lcd_draw_rect_with {σ : Type} (sp : SetPixel σ) (RECT_FILL RECT_ROUNDED : Nat)
    (s : σ) (x1 y1 x2 y2 colour flags : Nat) : Option σ :=
  if x1 > x2 ∨ y1 > y2 then some s
  else lcd_draw_rect_rows sp RECT_FILL RECT_ROUNDED x1 y1 x2 y2 colour flags 257 y1 s

/-- Embedding of `lcd_draw_rect` on the driver state. -/
def lcd_draw_rect (LCD_WIDTH RECT_FILL RECT_ROUNDED : Nat) (st : State)
    (x1 y1 x2 y2 colour flags : Nat) : Option State :=
  (lcd_draw_rect_with (lcd_set_pixel LCD_WIDTH) RECT_FILL RECT_ROUNDED st.lcd_buffer
      x1 y1 x2 y2 colour flags).map fun buf => { st with lcd_buffer := buf }

/-- The `lcd_set_pixel` calls of `lcd_draw_rect(x1, y1, x2, y2, colour, flags)`,
in the order they are made. -/
def lcd_draw_rect_calls (RECT_FILL RECT_ROUNDED : Nat) (x1 y1 x2 y2 colour flags : Nat) :
    Option (List (Nat × Nat × Nat)) :=
  lcd_draw_rect_with log_pixel RECT_FILL RECT_ROUNDED [] x1 y1 x2 y2 colour flags


/-- The call `lcd_draw_rect` makes for the pixel `(x, y)` of its scan: none or
one, as the tests of the loop body decide. -/
def rect_cell (RECT_FILL RECT_ROUNDED x1 y1 x2 y2 colour flags y x : Nat) :
    List (Nat × Nat × Nat) :=
  if flags &&& RECT_FILL ≠ 0 ∨ y = y1 ∨ y = y2 ∨ x = x1 ∨ x = x2 then
    if flags &&& RECT_ROUNDED ≠ 0 then
      if ¬ ((x = x1 ∧ y = y1) ∨ (x = x2 ∧ y = y1) ∨ (x = x1 ∧ y = y2) ∨ (x = x2 ∧ y = y2))
      then [(x, y, colour)]
      else []
    else [(x, y, colour)]
  else []

/-- The calls of a rectangle scan in closed form: rows `y1 .. y2`, and in
each row the columns `x1 .. x2`. -/
def rect_scan (RECT_FILL RECT_ROUNDED x1 y1 x2 y2 colour flags : Nat) :
    List (Nat × Nat × Nat) :=
  (List.range' y1 (y2 + 1 - y1)).flatMap fun y =>
    (List.range' x1 (x2 + 1 - x1)).flatMap fun x =>
      rect_cell RECT_FILL RECT_ROUNDED x1 y1 x2 y2 colour flags y x

/-- The colour `lcd_write_char` plots at column `x`, row `y` of the glyph with
index `c`: `colour` where the font bit is set, `1 - colour` (as a `uint8_t`)
elsewhere. -/
def glyph_state (table : Nat → Nat) (st : State) (c colour x y : Nat) : Nat :=
  if (table (c * st.char_width + x + (y / 8) * st.font_width) % 256) &&& (1 <<< (y % 8)) ≠ 0
  then colour else (256 + 1 - colour) % 256

/-- The calls of the glyph loops of `lcd_write_char` in closed form: columns
`0 .. char_width - 1`, and in each column the rows `0 .. char_height`. -/
def glyph_scan (table : Nat → Nat) (st : State) (c colour : Nat) : List (Nat × Nat × Nat) :=
  (List.range' 0 st.char_width).flatMap fun x =>
    (List.range' 0 (st.char_height + 1)).map fun y =>
      ((st.cursor_x + x) % 256, (st.cursor_y + y) % 256, glyph_state table st c colour x y)

/-- The calls of the spacing loop of `lcd_write_char` in closed form. -/
def gap_scan (st : State) (colour : Nat) : List (Nat × Nat × Nat) :=
  (List.range' 0 (st.char_height + 1)).map fun y =>
    ((st.cursor_x + st.char_width) % 256, (st.cursor_y + y) % 256, (256 + 1 - colour) % 256)

/-- The number a sequence of digit characters reads as in base 10. -/
def decimal_value (ds : List Nat) : Nat :=
  ds.foldl (fun acc d => 10 * acc + (d - 48)) 0

/-! ## Lines -/

/-- The loop of `lcd_draw_line`:
```
for (step = 0; step <= max_steps; step++) {
    if (step > 0) {
        if (xsteps > 0 && step % xsteps == 0) x++;
        if (ysteps > 0 && step % ysteps == 0) y++;
    }
    lcd_set_pixel(x, y, colour);
}
```
`step`, `x` and `y` are `uint8_t`. -/
def lcd_draw_line_loop {σ : Type} (sp : SetPixel σ) (max_steps xsteps ysteps colour : Nat) :
    Nat → Nat → Nat → Nat → σ → Option σ
  | 0, _, _, _, _ => none
  | fuel + 1, step, x, y, s =>
    if step ≤ max_steps then
      let x := if step > 0 ∧ xsteps > 0 ∧ step % xsteps = 0 then (x + 1) % 256 else x
      let y := if step > 0 ∧ ysteps > 0 ∧ step % ysteps = 0 then (y + 1) % 256 else y
      (sp s x y colour).bind fun s' =>
        lcd_draw_line_loop sp max_steps xsteps ysteps colour fuel ((step + 1) % 256) x y s'
    else some s

/-- Embedding of `lcd_draw_line(x1, y1, x2, y2, colour)` over a pixel-setting
routine:
```
if (x1 > x2 || y1 > y2) return;
xsteps = x2 - x1;
ysteps = y2 - y1;
max_steps = ysteps;
if (xsteps > max_steps) max_steps = xsteps;
xsteps = max_steps / xsteps;
ysteps = max_steps / ysteps;
```
A division by zero is undefined in C, so there is no result when `x1 = x2` or
when `y1 = y2`. -/
def lcd_draw_line_with {σ : Type} (sp : SetPixel σ) (s : σ) (x1 y1 x2 y2 colour : Nat) :
    Option σ :=
  if x1 > x2 ∨ y1 > y2 then some s
  else
    let xsteps := x2 - x1
    let ysteps := y2 - y1
    let max_steps := if xsteps > ysteps then xsteps else ysteps
    if xsteps = 0 then none
    else
      let xsteps := max_steps / xsteps
      if ysteps = 0 then none
      else
        let ysteps := max_steps / ysteps
        lcd_draw_line_loop sp max_steps xsteps ysteps colour 257 0 x1 y1 s

/-- Embedding of `lcd_draw_line` on the driver state. -/
def lcd_draw_line (LCD_WIDTH : Nat) (st : State) (x1 y1 x2 y2 colour : Nat) : Option State :=
  (lcd_draw_line_with (lcd_set_pixel LCD_WIDTH) st.lcd_buffer x1 y1 x2 y2 colour).map
    fun buf => { st with lcd_buffer := buf }

/-- The `lcd_set_pixel` calls of `lcd_draw_line(x1, y1, x2, y2, colour)`, in the
order they are made. -/
def lcd_draw_line_calls (x1 y1 x2 y2 colour : Nat) : Option (List (Nat × Nat × Nat)) :=
  lcd_draw_line_with log_pixel [] x1 y1 x2 y2 colour

/-- The `lcd_set_pixel` calls of `lcd_write_char(c, colour)`, in the order they
are made: none when the character is rejected, else those of the two loops. -/
def lcd_write_char_calls (LCD_WIDTH LCD_HEIGHT : Nat) (fonts : Font → Nat → Nat)
    (st : State) (c colour : Nat) : Option (List (Nat × Nat × Nat)) :=
  if st.cursor_y + st.char_height ≥ LCD_HEIGHT then some []
  else if st.cursor_x + st.char_width ≥ LCD_WIDTH then some []
  else
    let g := if st.font = Font.font_large then large_index c else some c
    match g with
    | none => some []
    | some c => lcd_write_char_pixels log_pixel fonts st c colour []

/-! ## Display bus -/

/-- `LCD_DATA`: the data lines D0-D7 on port C. -/
def LCD_DATA : Nat := 0xFF
/-- `LCD_RD`: the RD / E line. -/
def LCD_RD : Nat := 1 <<< 8
/-- `LCD_WR`: the R/W line. -/
def LCD_WR : Nat := 1 <<< 9
/-- `LCD_A0`: the data / command line. -/
def LCD_A0 : Nat := 1 <<< 10
/-- `LCD_CS1`: chip select 1. -/
def LCD_CS1 : Nat := 1 <<< 12

/-- `KS0713_SET_REF_VOLTAGE`, the first byte of the two-byte command. -/
def KS0713_SET_REF_VOLTAGE : Nat := 0x81
/-- `KS0713_SET_PAGE_ADDR`. -/
def KS0713_SET_PAGE_ADDR : Nat := 0xB0
/-- `KS0713_SET_COL_ADDR_MSB`. -/
def KS0713_SET_COL_ADDR_MSB : Nat := 0x10
/-- `KS0713_SET_COL_ADDR_LSB`. -/
def KS0713_SET_COL_ADDR_LSB : Nat := 0x00

/-- Port C as the driver sees it: the 16-bit output data register, and the
values written to it so far, oldest first. -/
structure Port where
  odr : Nat
  writes : List Nat
deriving DecidableEq, Repr

/-- The library call `GPIO_Write(GPIOC, v)`, by its effect: the 16-bit value
becomes the output data register. -/
def GPIO_Write (p : Port) (v : Nat) : Port :=
  { odr := v % 65536, writes := p.writes ++ [v % 65536] }

/-- The library call `GPIO_ReadOutputData(GPIOC)`: the output data register. -/
def GPIO_ReadOutputData (p : Port) : Nat := p.odr

/-- Embedding of `lcd_send_command(cmd)`; `gpio` is a `uint16_t`, so `~m` and-ed
into it is the and with `0xFFFF ^ m`:
```
uint16_t gpio = GPIO_ReadOutputData(GPIOC);
gpio &= ~(LCD_WR | LCD_DATA | LCD_A0);
gpio |= cmd;
GPIO_Write(GPIOC, gpio);
gpio &= ~LCD_CS1;
gpio |= LCD_RD;
GPIO_Write(GPIOC, gpio);
gpio |= LCD_CS1;
gpio &= ~LCD_RD;
GPIO_Write(GPIOC, gpio);
```
-/
def lcd_send_command (p : Port) (cmd : Nat) : Port :=
  let gpio := GPIO_ReadOutputData p
  let gpio := gpio &&& (0xFFFF ^^^ (LCD_WR ||| LCD_DATA ||| LCD_A0))
  let gpio := gpio ||| cmd
  let p := GPIO_Write p gpio
  let gpio := gpio &&& (0xFFFF ^^^ LCD_CS1)
  let gpio := gpio ||| LCD_RD
  let p := GPIO_Write p gpio
  let gpio := gpio ||| LCD_CS1
  let gpio := gpio &&& (0xFFFF ^^^ LCD_RD)
  GPIO_Write p gpio

/-- The loop of `lcd_send_data` over the bytes of `mem` at `data .. data+len-1`,
walked from the last one (`data += (len-1)` before the loop, `*data--` in it);
`i` is a `uint16_t`.  A read outside `mem` has no result.
```
for (i=0; i<len; ++i)
{
    gpio &= ~LCD_DATA;
    gpio |= *data--;
    GPIO_Write(GPIOC, gpio);
    gpio &= ~LCD_CS1;
    gpio |= LCD_RD;
    GPIO_Write(GPIOC, gpio);
    gpio |= LCD_CS1;
    gpio &= ~LCD_RD;
    GPIO_Write(GPIOC, gpio);
}
```
-/
def lcd_send_data_loop (mem : List Nat) (data len : Nat) :
    Nat → Nat → Nat → Port → Option Port
  | 0, _, _, _ => none
  | fuel + 1, i, gpio, p =>
    if i < len then
      match mem[data + (len - 1) - i]? with
      | none => none
      | some b =>
        let gpio := gpio &&& (0xFFFF ^^^ LCD_DATA)
        let gpio := gpio ||| b
        let p := GPIO_Write p gpio
        let gpio := gpio &&& (0xFFFF ^^^ LCD_CS1)
        let gpio := gpio ||| LCD_RD
        let p := GPIO_Write p gpio
        let gpio := gpio ||| LCD_CS1
        let gpio := gpio &&& (0xFFFF ^^^ LCD_RD)
        let p := GPIO_Write p gpio
        lcd_send_data_loop mem data len fuel ((i + 1) % 65536) gpio p
    else some p

/-- Embedding of `lcd_send_data(data, len)`, `data` an offset into `mem`:
```
uint16_t gpio = GPIO_ReadOutputData(GPIOC);
gpio &= ~(LCD_WR | LCD_DATA);
gpio |= LCD_A0;
data += (len-1);
```
-/
def lcd_send_data (mem : List Nat) (data len : Nat) (p : Port) : Option Port :=
  let gpio := GPIO_ReadOutputData p
  let gpio := gpio &&& (0xFFFF ^^^ (LCD_WR ||| LCD_DATA))
  let gpio := gpio ||| LCD_A0
  lcd_send_data_loop mem data len 65537 0 gpio p

/-- The loop of `lcd_update` over the pages; `row` is an `int`:
```
for (row = 0; row < LCD_HEIGHT / 8; ++row)
{
    lcd_send_command(KS0713_SET_PAGE_ADDR | row);
    lcd_send_command(KS0713_SET_COL_ADDR_LSB | 0x04);
    lcd_send_command(KS0713_SET_COL_ADDR_MSB | 0x00);
    lcd_send_data(lcd_buffer + (LCD_WIDTH * row), LCD_WIDTH);
}
```
-/
def lcd_update_rows (LCD_WIDTH LCD_HEIGHT : Nat) (st : State) :
    Nat → Nat → Port → Option Port
  | 0, _, _ => none
  | fuel + 1, row, p =>
    if row < LCD_HEIGHT / 8 then
      let p := lcd_send_command p ((KS0713_SET_PAGE_ADDR ||| row) % 256)
      let p := lcd_send_command p (KS0713_SET_COL_ADDR_LSB ||| 0x04)
      let p := lcd_send_command p (KS0713_SET_COL_ADDR_MSB ||| 0x00)
      (lcd_send_data st.lcd_buffer (LCD_WIDTH * row) (LCD_WIDTH % 65536) p).bind fun p =>
        lcd_update_rows LCD_WIDTH LCD_HEIGHT st fuel (row + 1) p
    else some p

/-- Embedding of `lcd_update()`: the driver state, which it only reads, and the
port after the transfer. -/
def lcd_update (LCD_WIDTH LCD_HEIGHT : Nat) (st : State) (p : Port) : Option (State × Port) :=
  (lcd_update_rows LCD_WIDTH LCD_HEIGHT st (LCD_HEIGHT / 8 + 1) 0 p).map fun p => (st, p)

/-- Embedding of `lcd_adj_contrast(val)`, `val` an `int8_t`; `contrast` is a
`uint8_t`, the comparisons are done in `int`:
```
contrast += val;
if ((contrast + val) > 0xff) contrast = 0xff;
else if (contrast + val < 0) contrast = 0;
lcd_send_command(KS0713_SET_REF_VOLTAGE);
lcd_send_command(contrast);
```
-/
def lcd_adj_contrast (st : State) (val : Int) (p : Port) : State × Port :=
  let contrast := toUInt8 ((st.contrast : Int) + val)
  let contrast :=
    if (contrast : Int) + val > 0xff then 0xff
    else if (contrast : Int) + val < 0 then 0
    else contrast
  let p := lcd_send_command p KS0713_SET_REF_VOLTAGE
  let p := lcd_send_command p contrast
  ({ st with contrast := contrast }, p)

/-- The bytes the controller takes from the port, decoded from the values
written to it: a value with E (`LCD_RD`) high and `LCD_CS1` low strobes in the
byte on D0-D7, as display data when `LCD_A0` is high and as a command when it
is low.  Each byte comes with its A0 level. -/
def bus_bytes (writes : List Nat) : List (Bool × Nat) :=
  writes.filterMap fun w =>
    if w.testBit 8 = true ∧ w.testBit 12 = false then some (w.testBit 10, w % 256) else none

/-! ## Messages -/

/-- The library call `strchr(s, c)` for a character `c` other than the
terminator: the offset of the first `c` in the string `s`, `none` for the null
pointer. -/
def strchr : List Nat → Nat → Option Nat
  | [], _ => none
  | a :: s, c => if a = c then some 0 else (strchr s c).map (· + 1)

/-- The inner loop of `lcd_draw_message`, which looks for the end `needle1` of
the line that starts at `ptr`; pointers are offsets into `msg`:
```
for (needle1 = ptr; needle2 != 0; )
{
    needle2 = strchr(needle1, ' ');
    if (needle2)
    {
        if (needle2 - ptr < width) needle1 = needle2 + 1;
        else break;
    }
    else
    {
        if (msg + strlen(msg) - ptr < width) needle1 = msg + strlen(msg);
        break;
    }
}
```
-/
def lcd_draw_message_scan (msg : List Nat) (width : Int) (ptr : Nat) : Nat → Nat → Option Nat
  | 0, _ => none
  | fuel + 1, needle1 =>
    match (strchr (msg.drop needle1) 32).map (needle1 + ·) with
    | some needle2 =>
      if (needle2 : Int) - ptr < width then
        lcd_draw_message_scan msg width ptr fuel (needle2 + 1)
      else some needle1
    | none =>
      if (msg.length : Int) - ptr < width then some msg.length
      else some needle1

/-- The length of the line of `lcd_draw_message` that goes from `ptr` to
`needle1`; `*(needle1-1)` with `needle1` at the start of `msg` reads before the
string and has no result:
```
nchars = needle1 - ptr;
if (*(needle1-1) == ' ') nchars--;
```
-/
def lcd_draw_message_nchars (msg : List Nat) (ptr needle1 : Nat) : Option Int :=
  if needle1 = 0 then none
  else
    match msg[needle1 - 1]? with
    | none => none
    | some c => some ((needle1 : Int) - ptr - (if c = 32 then 1 else 0))

/-- One turn of the `while` loop of `lcd_draw_message`, from the scan pointer
`ptr`: the new scan pointer and the new state.  `width` and `x` are the locals
set at entry.  `memcpy` with a negative `nchars` and `line_buffer[nchars]`
outside `char line_buffer[LCD_WIDTH / 6]` have no result:
```
memcpy(line_buffer, ptr, nchars);
line_buffer[nchars] = 0;
cursor_x = x + (width - nchars) * (char_width+1) / 2;
lcd_write_string(line_buffer, colour);
cursor_y += (char_height + 1);
ptr = needle1;
```
-/
def lcd_draw_message_line (LCD_WIDTH LCD_HEIGHT : Nat) (fonts : Font → Nat → Nat)
    (msg : List Nat) (colour : Nat) (width : Int) (x : Nat) (ptr : Nat) (st : State) :
    Option (Nat × State) :=
  (lcd_draw_message_scan msg width ptr (msg.length + 1) ptr).bind fun needle1 =>
  (lcd_draw_message_nchars msg ptr needle1).bind fun nchars =>
  if nchars < 0 then none
  else if nchars ≥ ((LCD_WIDTH / 6 : Nat) : Int) then none
  else
    let line_buffer := (msg.drop ptr).take nchars.toNat
    let st := { st with
      cursor_x := toUInt8 ((x : Int) + ((width - nchars) * ((st.char_width : Int) + 1)).tdiv 2) }
    (lcd_write_string LCD_WIDTH LCD_HEIGHT fonts st line_buffer colour).bind fun st =>
      some (needle1, { st with cursor_y := (st.cursor_y + (st.char_height + 1)) % 256 })

/-- The `while` loop of `lcd_draw_message`:
```
while (ptr < msg + strlen(msg)) { ... }
```
The result is the scan pointer and the state at the exit. -/
def lcd_draw_message_loop (LCD_WIDTH LCD_HEIGHT : Nat) (fonts : Font → Nat → Nat)
    (msg : List Nat) (colour : Nat) (width : Int) (x : Nat) :
    Nat → Nat → State → Option (Nat × State)
  | 0, _, _ => none
  | fuel + 1, ptr, st =>
    if ptr < msg.length then
      (lcd_draw_message_line LCD_WIDTH LCD_HEIGHT fonts msg colour width x ptr st).bind
        fun r => lcd_draw_message_loop LCD_WIDTH LCD_HEIGHT fonts msg colour width x fuel r.1 r.2
    else some (ptr, st)

/-- Embedding of `lcd_draw_message(msg, colour)`; `msg` is the list of the
characters before the terminator.  The result is the scan pointer at the exit
of the loop and the state:
```
int width = (LCD_WIDTH - 2*cursor_x) / (char_width + 1);
const char *ptr = msg;
int x = cursor_x;
```
A turn of the loop that has a result and leaves `ptr` where it was is followed
by the same turn again, so the loop is run for `strlen(msg) + 1` turns at
most. -/
def lcd_draw_message (LCD_WIDTH LCD_HEIGHT : Nat) (fonts : Font → Nat → Nat)
    (st : State) (msg : List Nat) (colour : Nat) : Option (Nat × State) :=
  let width := ((LCD_WIDTH : Int) - 2 * (st.cursor_x : Int)).tdiv ((st.char_width : Int) + 1)
  let x := st.cursor_x
  lcd_draw_message_loop LCD_WIDTH LCD_HEIGHT fonts msg colour width x (msg.length + 1) 0 st

/-! # Theorems -/

/-! ## Bytes and indices -/

theorem getD_set_eq (l : List Nat) (i a d : Nat) (h : i < l.length) :
    (l.set i a).getD i d = a := by
  simp [List.getD_eq_getElem?_getD, List.getElem?_set, h]

theorem getD_set_ne (l : List Nat) (i j a d : Nat) (h : i ≠ j) :
    (l.set i a).getD j d = l.getD j d := by
  simp [List.getD_eq_getElem?_getD, List.getElem?_set, h]

theorem testBit_set_bit (b k j : Nat) :
    (b ||| (1 <<< k)).testBit j = (b.testBit j || decide (k = j)) := by
  simp [Nat.testBit_or, Nat.one_shiftLeft, Nat.testBit_two_pow]

theorem testBit_clear_bit (b k j : Nat) (hj : j < 8) :
    (b &&& (0xFF ^^^ (1 <<< k))).testBit j = (b.testBit j && !decide (k = j)) := by
  have h255 : (0xFF : Nat) = 2 ^ 8 - 1 := by norm_num
  rw [Nat.testBit_and, Nat.testBit_xor, h255, Nat.testBit_two_pow_sub_one, Nat.one_shiftLeft,
    Nat.testBit_two_pow]
  simp [hj]

theorem and_bit_ne_zero (d k : Nat) : d &&& (1 <<< k) ≠ 0 ↔ d.testBit k = true := by
  rw [Nat.one_shiftLeft]
  constructor
  · intro h
    by_contra hb
    apply h
    apply Nat.eq_of_testBit_eq
    intro i
    rw [Nat.testBit_and, Nat.testBit_two_pow, Nat.zero_testBit]
    by_cases hik : k = i
    · subst hik; simp [hb]
    · simp [hik]
  · intro hb h
    have := congrArg (fun n => n.testBit k) h
    simp [Nat.testBit_and, Nat.testBit_two_pow, hb] at this

theorem index_lt (W H x y : Nat) (h8 : 8 ∣ H) (hx : x < W) (hy : y < H) :
    x + (y / 8) * W < W * H / 8 := by
  obtain ⟨k, rfl⟩ := h8
  have hk : y / 8 < k := by omega
  have e : W * (8 * k) / 8 = W * k := by
    rw [show W * (8 * k) = 8 * (W * k) by ring]; exact Nat.mul_div_cancel_left _ (by norm_num)
  rw [e]
  calc x + y / 8 * W < W + y / 8 * W := by omega
    _ = (y / 8 + 1) * W := by ring
    _ ≤ k * W := Nat.mul_le_mul_right _ hk
    _ = W * k := by ring

theorem index_inj (W x y x' y' : Nat) (hx : x < W) (hx' : x' < W)
    (h : x + (y / 8) * W = x' + (y' / 8) * W) : x = x' ∧ y / 8 = y' / 8 := by
  have h1 : (x + (y / 8) * W) % W = x := by
    rw [Nat.add_mul_mod_self_right]; exact Nat.mod_eq_of_lt hx
  have h2 : (x' + (y' / 8) * W) % W = x' := by
    rw [Nat.add_mul_mod_self_right]; exact Nat.mod_eq_of_lt hx'
  have hxx : x = x' := by rw [← h1, ← h2, h]
  subst hxx
  refine ⟨rfl, ?_⟩
  have hW : 0 < W := by omega
  have : (y / 8) * W = (y' / 8) * W := by omega
  exact Nat.eq_of_mul_eq_mul_right hW this

/-! ## The pixel primitive -/

theorem set_pixel_effect (W : Nat) (buf : List Nat) (x y colour : Nat)
    (hi : x + (y / 8) * W < buf.length) :
    ∃ buf', lcd_set_pixel W buf x y colour = some buf' ∧ buf'.length = buf.length ∧
      pixel_on W buf' x y = decide (colour ≠ 0) ∧
      ∀ x' y', x < W → x' < W → (x', y') ≠ (x, y) →
        pixel_on W buf' x' y' = pixel_on W buf x' y' := by
  have hk : y % 8 < 8 := Nat.mod_lt _ (by norm_num)
  by_cases hc : colour = 0
  · refine ⟨buf.set (x + (y / 8) * W)
        (buf.getD (x + (y / 8) * W) 0 &&& (0xFF ^^^ (1 <<< (y % 8)))),
      by simp [lcd_set_pixel, hi, hc], by simp, ?_, ?_⟩
    · unfold pixel_on
      rw [getD_set_eq _ _ _ _ hi, testBit_clear_bit _ _ _ hk]
      simp [hc]
    · intro x' y' hx hx' hne
      unfold pixel_on
      by_cases hidx : x + (y / 8) * W = x' + (y' / 8) * W
      · obtain ⟨hxx, hyy⟩ := index_inj W x y x' y' hx hx' hidx
        have hk' : y' % 8 < 8 := Nat.mod_lt _ (by norm_num)
        have hbit : y % 8 ≠ y' % 8 := by
          intro hb
          apply hne
          have : y' = y := by omega
          rw [this, hxx]
        rw [← hidx, getD_set_eq _ _ _ _ hi, testBit_clear_bit _ _ _ hk']
        simp [hbit]
      · rw [getD_set_ne _ _ _ _ _ hidx]
  · refine ⟨buf.set (x + (y / 8) * W) (buf.getD (x + (y / 8) * W) 0 ||| (1 <<< (y % 8))),
      by simp [lcd_set_pixel, hi, hc], by simp, ?_, ?_⟩
    · unfold pixel_on
      rw [getD_set_eq _ _ _ _ hi, testBit_set_bit]
      simp [hc]
    · intro x' y' hx hx' hne
      unfold pixel_on
      by_cases hidx : x + (y / 8) * W = x' + (y' / 8) * W
      · obtain ⟨hxx, hyy⟩ := index_inj W x y x' y' hx hx' hidx
        have hbit : y % 8 ≠ y' % 8 := by
          intro hb
          apply hne
          have : y' = y := by omega
          rw [this, hxx]
        rw [← hidx, getD_set_eq _ _ _ _ hi, testBit_set_bit]
        simp [hbit]
      · rw [getD_set_ne _ _ _ _ _ hidx]

/-- C1. For every frame buffer and every in-bounds `(x, y)`, after
`lcd_set_pixel(x, y, colour)` the pixel at `(x, y)` (bit `y % 8` of byte
`x + (y/8)*LCD_WIDTH`) reads on iff `colour != 0`, every other in-bounds pixel
reads as before, and a second set of the same pixel leaves the value of the
second one. -/
theorem lcd_set_pixel_spec (W H : Nat) (buf : List Nat) (x y colour : Nat)
    (h8 : 8 ∣ H) (hlen : buf.length = W * H / 8) (hx : x < W) (hy : y < H) :
    ∃ buf', lcd_set_pixel W buf x y colour = some buf' ∧
      buf'.length = buf.length ∧
      (pixel_on W buf' x y = true ↔ colour ≠ 0) ∧
      (∀ x' y', x' < W → y' < H → (x', y') ≠ (x, y) →
        pixel_on W buf' x' y' = pixel_on W buf x' y') ∧
      (∀ colour2, ∃ buf'', lcd_set_pixel W buf' x y colour2 = some buf'' ∧
        (pixel_on W buf'' x y = true ↔ colour2 ≠ 0) ∧
        (∀ x' y', x' < W → y' < H → (x', y') ≠ (x, y) →
          pixel_on W buf'' x' y' = pixel_on W buf x' y')) := by
  have hi : x + (y / 8) * W < buf.length := hlen ▸ index_lt W H x y h8 hx hy
  obtain ⟨buf', h1, h2, h3, h4⟩ := set_pixel_effect W buf x y colour hi
  refine ⟨buf', h1, h2, by simp [h3], fun x' y' hx' _ hne => h4 x' y' hx hx' hne, ?_⟩
  intro colour2
  obtain ⟨buf'', k1, _, k3, k4⟩ := set_pixel_effect W buf' x y colour2 (h2 ▸ hi)
  refine ⟨buf'', k1, by simp [k3], fun x' y' hx' _ hne => ?_⟩
  rw [k4 x' y' hx hx' hne, h4 x' y' hx hx' hne]

/-- Witness of C1: pixel `(3, 10)` of a blank 128x64 frame buffer, set on. -/
theorem lcd_set_pixel_spec_witness :
    ∃ buf', lcd_set_pixel 128 (List.replicate 1024 0) 3 10 1 = some buf' ∧
      (pixel_on 128 buf' 3 10 = true ↔ 1 ≠ 0) := by
  obtain ⟨buf', h, _, hon, _⟩ :=
    lcd_set_pixel_spec 128 64 (List.replicate 1024 0) 3 10 1 (by decide)
      (List.length_replicate 1024 0) (by decide) (by decide)
  exact ⟨buf', h, hon⟩

/-! ## Sequences of pixel writes -/

theorem plotAll_append {σ : Type} (sp : SetPixel σ) (s : σ) (ps qs : List (Nat × Nat × Nat)) :
    plotAll sp s (ps ++ qs) = (plotAll sp s ps).bind fun s' => plotAll sp s' qs := by
  induction ps generalizing s with
  | nil => simp [plotAll]
  | cons p ps ih =>
    obtain ⟨x, y, c⟩ := p
    simp only [List.cons_append, plotAll]
    cases sp s x y c with
    | none => simp
    | some s1 => simpa using ih s1

theorem plotAll_log (tr ps : List (Nat × Nat × Nat)) :
    plotAll log_pixel tr ps = some (tr ++ ps) := by
  induction ps generalizing tr with
  | nil => simp [plotAll]
  | cons p ps ih =>
    obtain ⟨x, y, c⟩ := p
    simp [plotAll, log_pixel, ih]

theorem plotAll_effect (W H : Nat) (h8 : 8 ∣ H) (ps : List (Nat × Nat × Nat)) :
    ∀ buf : List Nat, buf.length = W * H / 8 →
    (∀ p ∈ ps, p.1 < W ∧ p.2.1 < H) →
    ∃ buf', plotAll (lcd_set_pixel W) buf ps = some buf' ∧ buf'.length = buf.length ∧
      (∀ x y c, (x, y, c) ∈ ps → (∀ c', (x, y, c') ∈ ps → (c' = 0 ↔ c = 0)) →
        pixel_on W buf' x y = decide (c ≠ 0)) ∧
      (∀ x y, x < W → (∀ c, (x, y, c) ∉ ps) → pixel_on W buf' x y = pixel_on W buf x y) := by
  induction ps with
  | nil =>
    intro buf _ _
    exact ⟨buf, rfl, rfl, by simp, by simp⟩
  | cons p ps ih =>
    intro buf hlen hin
    obtain ⟨px, py, pc⟩ := p
    have hp := hin (px, py, pc) (List.mem_cons_self _ _)
    simp only at hp
    have hi : px + (py / 8) * W < buf.length := hlen ▸ index_lt W H px py h8 hp.1 hp.2
    obtain ⟨b1, e1, l1, on1, off1⟩ := set_pixel_effect W buf px py pc hi
    obtain ⟨b2, e2, l2, on2, off2⟩ := ih b1 (l1.trans hlen)
      (fun p hp => hin p (List.mem_cons_of_mem _ hp))
    refine ⟨b2, by simp [plotAll, e1, e2], l2.trans l1, ?_, ?_⟩
    · intro x y c hmem hfun
      by_cases hex : ∃ c', (x, y, c') ∈ ps
      · obtain ⟨c', hc'⟩ := hex
        have h1 := on2 x y c' hc' (fun c'' hc'' => by
          rw [hfun c'' (List.mem_cons_of_mem _ hc''), hfun c' (List.mem_cons_of_mem _ hc')])
        rw [h1]
        have := hfun c' (List.mem_cons_of_mem _ hc')
        simp [this]
      · have hnot : ∀ c', (x, y, c') ∉ ps := fun c' h => hex ⟨c', h⟩
        have hhead : (x, y, c) = (px, py, pc) := by
          rcases List.mem_cons.1 hmem with h | h
          · exact h
          · exact absurd h (hnot c)
        simp only [Prod.mk.injEq] at hhead
        obtain ⟨rfl, rfl, rfl⟩ := hhead
        rw [off2 x y hp.1 hnot, on1]
    · intro x y hx hnot
      have hnot' : ∀ c, (x, y, c) ∉ ps := fun c h => hnot c (List.mem_cons_of_mem _ h)
      rw [off2 x y hx hnot']
      apply off1 x y hp.1 hx
      intro h
      simp only [Prod.mk.injEq] at h
      exact hnot pc (by rw [h.1, h.2]; exact List.mem_cons_self _ _)

theorem rect_cols_eq {σ : Type} (sp : SetPixel σ) (F R x1 y1 x2 y2 colour flags y : Nat)
    (hx2 : x2 < 255) :
    ∀ (n fuel x : Nat) (s : σ), x + n = x2 + 1 → n < fuel →
      lcd_draw_rect_cols sp F R x1 y1 x2 y2 colour flags y fuel x s =
        plotAll sp s ((List.range' x n).flatMap (rect_cell F R x1 y1 x2 y2 colour flags y)) := by
  intro n
  induction n with
  | zero =>
    intro fuel x s hx hf
    obtain ⟨f, rfl⟩ : ∃ f, fuel = f + 1 := ⟨fuel - 1, by omega⟩
    have : ¬ x ≤ x2 := by omega
    simp [lcd_draw_rect_cols, this, plotAll]
  | succ n ih =>
    intro fuel x s hx hf
    obtain ⟨f, rfl⟩ : ∃ f, fuel = f + 1 := ⟨fuel - 1, by omega⟩
    have hle : x ≤ x2 := by omega
    have hmod : (x + 1) % 256 = x + 1 := Nat.mod_eq_of_lt (by omega)
    rw [List.range'_succ, List.flatMap_cons, plotAll_append]
    simp only [lcd_draw_rect_cols, if_pos hle, hmod]
    have ih' := fun a => ih f (x + 1) a (by omega) (by omega)
    simp only [ih']
    congr 1
    unfold rect_cell
    split_ifs <;> simp [plotAll]

theorem rect_rows_eq {σ : Type} (sp : SetPixel σ) (F R x1 y1 x2 y2 colour flags : Nat)
    (hx : x1 ≤ x2) (hx2 : x2 < 255) (hy2 : y2 < 255) :
    ∀ (n fuel y : Nat) (s : σ), y + n = y2 + 1 → n < fuel →
      lcd_draw_rect_rows sp F R x1 y1 x2 y2 colour flags fuel y s =
        plotAll sp s ((List.range' y n).flatMap fun y =>
          (List.range' x1 (x2 + 1 - x1)).flatMap
            (rect_cell F R x1 y1 x2 y2 colour flags y)) := by
  intro n
  induction n with
  | zero =>
    intro fuel y s hy hf
    obtain ⟨f, rfl⟩ : ∃ f, fuel = f + 1 := ⟨fuel - 1, by omega⟩
    have : ¬ y ≤ y2 := by omega
    simp [lcd_draw_rect_rows, this, plotAll]
  | succ n ih =>
    intro fuel y s hy hf
    obtain ⟨f, rfl⟩ : ∃ f, fuel = f + 1 := ⟨fuel - 1, by omega⟩
    have hle : y ≤ y2 := by omega
    have hmod : (y + 1) % 256 = y + 1 := Nat.mod_eq_of_lt (by omega)
    rw [List.range'_succ, List.flatMap_cons, plotAll_append]
    simp only [lcd_draw_rect_rows, if_pos hle, hmod]
    have ih' := fun a => ih f (y + 1) a (by omega) (by omega)
    simp only [ih']
    rw [rect_cols_eq sp F R x1 y1 x2 y2 colour flags y hx2 (x2 + 1 - x1) 257 x1 s
      (by omega) (by omega)]

theorem lcd_draw_rect_with_eq {σ : Type} (sp : SetPixel σ) (F R : Nat) (s : σ)
    (x1 y1 x2 y2 colour flags : Nat)
    (hx : x1 ≤ x2) (hy : y1 ≤ y2) (hx2 : x2 < 255) (hy2 : y2 < 255) :
    lcd_draw_rect_with sp F R s x1 y1 x2 y2 colour flags =
      plotAll sp s (rect_scan F R x1 y1 x2 y2 colour flags) := by
  have hg : ¬ (x1 > x2 ∨ y1 > y2) := by omega
  unfold lcd_draw_rect_with rect_scan
  rw [if_neg hg]
  exact rect_rows_eq sp F R x1 y1 x2 y2 colour flags hx hx2 hy2 (y2 + 1 - y1) 257 y1 s
    (by omega) (by omega)

theorem mem_rect_scan (F R x1 y1 x2 y2 colour flags : Nat) (hx : x1 ≤ x2) (hy : y1 ≤ y2)
    (p : Nat × Nat × Nat) :
    p ∈ rect_scan F R x1 y1 x2 y2 colour flags ↔
      ∃ x y, x1 ≤ x ∧ x ≤ x2 ∧ y1 ≤ y ∧ y ≤ y2 ∧
        p ∈ rect_cell F R x1 y1 x2 y2 colour flags y x := by
  unfold rect_scan
  simp only [List.mem_flatMap, List.mem_range'_1]
  constructor
  · rintro ⟨y, hy', x, hx', hp⟩
    exact ⟨x, y, by omega, by omega, by omega, by omega, hp⟩
  · rintro ⟨x, y, h1, h2, h3, h4, hp⟩
    exact ⟨y, by omega, x, by omega, hp⟩

theorem mem_rect_cell (F R x1 y1 x2 y2 colour flags y x : Nat) (p : Nat × Nat × Nat) :
    p ∈ rect_cell F R x1 y1 x2 y2 colour flags y x ↔
      p = (x, y, colour) ∧ (flags &&& F ≠ 0 ∨ y = y1 ∨ y = y2 ∨ x = x1 ∨ x = x2) ∧
        (flags &&& R ≠ 0 →
          ¬ ((x = x1 ∧ y = y1) ∨ (x = x2 ∧ y = y1) ∨ (x = x1 ∧ y = y2) ∨ (x = x2 ∧ y = y2))) := by
  unfold rect_cell
  split_ifs with h1 h2 h3 <;> simp_all

theorem mem_rect_scan_iff (F R x1 y1 x2 y2 colour flags : Nat) (hx : x1 ≤ x2) (hy : y1 ≤ y2)
    (x y c : Nat) :
    (x, y, c) ∈ rect_scan F R x1 y1 x2 y2 colour flags ↔
      (x1 ≤ x ∧ x ≤ x2 ∧ y1 ≤ y ∧ y ≤ y2) ∧ c = colour ∧
      (flags &&& F ≠ 0 ∨ y = y1 ∨ y = y2 ∨ x = x1 ∨ x = x2) ∧
        (flags &&& R ≠ 0 →
          ¬ ((x = x1 ∧ y = y1) ∨ (x = x2 ∧ y = y1) ∨ (x = x1 ∧ y = y2) ∨ (x = x2 ∧ y = y2))) := by
  rw [mem_rect_scan F R x1 y1 x2 y2 colour flags hx hy]
  constructor
  · rintro ⟨a, b, h1, h2, h3, h4, hp⟩
    rw [mem_rect_cell] at hp
    obtain ⟨he, hc, hr⟩ := hp
    simp only [Prod.mk.injEq] at he
    obtain ⟨rfl, rfl, rfl⟩ := he
    exact ⟨⟨h1, h2, h3, h4⟩, rfl, hc, hr⟩
  · rintro ⟨⟨h1, h2, h3, h4⟩, rfl, hc, hr⟩
    exact ⟨x, y, h1, h2, h3, h4, (mem_rect_cell ..).2 ⟨rfl, hc, hr⟩⟩

/-- The effect of `lcd_draw_rect` on the frame buffer, for any flags. -/
theorem lcd_draw_rect_effect (W H F R : Nat) (st : State) (x1 y1 x2 y2 colour flags : Nat)
    (hW : W ≤ 255) (hH : H ≤ 255) (h8 : 8 ∣ H) (hlen : st.lcd_buffer.length = W * H / 8)
    (hx : x1 ≤ x2) (hy : y1 ≤ y2) (hx2 : x2 < W) (hy2 : y2 < H) :
    ∃ buf', lcd_draw_rect W F R st x1 y1 x2 y2 colour flags =
        some { st with lcd_buffer := buf' } ∧
      buf'.length = st.lcd_buffer.length ∧
      ∀ x y, x < W → y < H →
        pixel_on W buf' x y =
          if (x1 ≤ x ∧ x ≤ x2 ∧ y1 ≤ y ∧ y ≤ y2) ∧
              (flags &&& F ≠ 0 ∨ y = y1 ∨ y = y2 ∨ x = x1 ∨ x = x2) ∧
              (flags &&& R ≠ 0 →
                ¬ ((x = x1 ∧ y = y1) ∨ (x = x2 ∧ y = y1) ∨ (x = x1 ∧ y = y2) ∨
                  (x = x2 ∧ y = y2)))
          then decide (colour ≠ 0) else pixel_on W st.lcd_buffer x y := by
  have hin : ∀ p ∈ rect_scan F R x1 y1 x2 y2 colour flags, p.1 < W ∧ p.2.1 < H := by
    rintro ⟨a, b, c⟩ hp
    rw [mem_rect_scan_iff F R x1 y1 x2 y2 colour flags hx hy] at hp
    obtain ⟨⟨_, h2, _, h4⟩, _⟩ := hp
    exact ⟨by simp only; omega, by simp only; omega⟩
  obtain ⟨buf', e, l, hon, hoff⟩ := plotAll_effect W H h8 _ st.lcd_buffer hlen hin
  refine ⟨buf', ?_, l, ?_⟩
  · unfold lcd_draw_rect
    rw [lcd_draw_rect_with_eq _ F R _ x1 y1 x2 y2 colour flags hx hy (by omega) (by omega), e]
    rfl
  · intro x y hxW _
    split_ifs with hc
    · apply hon x y colour
      · exact (mem_rect_scan_iff F R x1 y1 x2 y2 colour flags hx hy x y colour).2
          ⟨hc.1, rfl, hc.2⟩
      · intro c' hc'
        rw [mem_rect_scan_iff F R x1 y1 x2 y2 colour flags hx hy] at hc'
        rw [hc'.2.1]
    · apply hoff x y hxW
      intro c hmem
      rw [mem_rect_scan_iff F R x1 y1 x2 y2 colour flags hx hy] at hmem
      exact hc ⟨hmem.1, hmem.2.2⟩

theorem length_flatMap_const {α β : Type} (f : α → List β) (k : Nat) (l : List α)
    (h : ∀ a ∈ l, (f a).length = k) : (l.flatMap f).length = l.length * k := by
  induction l with
  | nil => simp
  | cons a l ih =>
    rw [List.flatMap_cons, List.length_append, h a (List.mem_cons_self _ _),
      ih (fun b hb => h b (List.mem_cons_of_mem _ hb)), List.length_cons]
    ring

theorem length_flatMap_ends {β : Type} (f : Nat → List β) (a b k m : Nat) (hab : a < b)
    (ha : (f a).length = k) (hb : (f b).length = k)
    (hmid : ∀ i, a < i → i < b → (f i).length = m) :
    ((List.range' a (b + 1 - a)).flatMap f).length = 2 * k + (b - a - 1) * m := by
  have e : b + 1 - a = (b - a - 1) + 1 + 1 := by omega
  have eb : a + 1 + (b - a - 1) = b := by omega
  rw [e, List.range'_succ, List.range'_1_concat, eb, List.flatMap_cons, List.flatMap_append,
    List.length_append, List.length_append,
    length_flatMap_const f m (List.range' (a + 1) (b - a - 1))
      (fun i hi => by
        rw [List.mem_range'_1] at hi
        exact hmid i (by omega) (by omega))]
  simp [ha, hb]
  ring

theorem length_rect_scan_outline (F R x1 y1 x2 y2 colour : Nat) (hx : x1 ≤ x2) (hy : y1 ≤ y2) :
    (rect_scan F R x1 y1 x2 y2 colour 0).length =
      if x1 < x2 ∧ y1 < y2 then 2 * ((x2 - x1 + 1) + (y2 - y1 + 1)) - 4
      else (x2 - x1 + 1) * (y2 - y1 + 1) := by
  have cell_border : ∀ x y, (y = y1 ∨ y = y2 ∨ x = x1 ∨ x = x2) →
      (rect_cell F R x1 y1 x2 y2 colour 0 y x).length = 1 := by
    intro x y h
    simp [rect_cell, h]
  have cell_inner : ∀ x y, ¬ (y = y1 ∨ y = y2 ∨ x = x1 ∨ x = x2) →
      (rect_cell F R x1 y1 x2 y2 colour 0 y x).length = 0 := by
    intro x y h
    simp [rect_cell, h]
  have row_edge : ∀ y, (y = y1 ∨ y = y2) →
      ((List.range' x1 (x2 + 1 - x1)).flatMap
        (rect_cell F R x1 y1 x2 y2 colour 0 y)).length = x2 - x1 + 1 := by
    intro y h
    rw [length_flatMap_const _ 1 _ (fun x _ => cell_border x y (by tauto))]
    simp
    omega
  unfold rect_scan
  by_cases hxx : x1 < x2
  · have row_mid : ∀ y, y1 < y → y < y2 →
        ((List.range' x1 (x2 + 1 - x1)).flatMap
          (rect_cell F R x1 y1 x2 y2 colour 0 y)).length = 2 := by
      intro y h1 h2
      rw [length_flatMap_ends _ x1 x2 1 0 hxx (cell_border x1 y (by tauto))
        (cell_border x2 y (by tauto))
        (fun i hi1 hi2 => cell_inner i y (by omega))]
      simp
    by_cases hyy : y1 < y2
    · rw [length_flatMap_ends _ y1 y2 (x2 - x1 + 1) 2 hyy (row_edge y1 (Or.inl rfl))
        (row_edge y2 (Or.inr rfl)) row_mid, if_pos ⟨hxx, hyy⟩]
      omega
    · have : y2 = y1 := by omega
      subst this
      rw [if_neg (by omega)]
      simp [List.range'_succ, row_edge]
  · have hx' : x2 = x1 := by omega
    subst hx'
    rw [if_neg (by omega),
      length_flatMap_const _ 1 _ (fun y _ => by
        rw [length_flatMap_const _ 1 _ (fun x hx => by
          rw [List.mem_range'_1] at hx
          exact cell_border x y (by omega))]
        simp)]
    simp
    omega

theorem nodup_flatMap_range' {β : Type} (f : Nat → List β) (s n : Nat)
    (h1 : ∀ i, (f i).Nodup) (h2 : ∀ i j, i < j → List.Disjoint (f i) (f j)) :
    ((List.range' s n).flatMap f).Nodup :=
  List.nodup_flatMap.2 ⟨fun i _ => h1 i, (List.pairwise_lt_range' s n).imp (h2 _ _)⟩

theorem rect_scan_coords_nodup (F R x1 y1 x2 y2 colour flags : Nat) :
    ((rect_scan F R x1 y1 x2 y2 colour flags).map fun p => (p.1, p.2.1)).Nodup := by
  have hcell : ∀ y x (q : Nat × Nat),
      q ∈ (rect_cell F R x1 y1 x2 y2 colour flags y x).map (fun p => (p.1, p.2.1)) →
        q = (x, y) := by
    intro y x q hq
    rw [List.mem_map] at hq
    obtain ⟨p, hp, rfl⟩ := hq
    rw [mem_rect_cell] at hp
    rw [hp.1]
  unfold rect_scan
  simp only [List.map_flatMap]
  apply nodup_flatMap_range'
  · intro y
    apply nodup_flatMap_range'
    · intro x
      unfold rect_cell
      split_ifs <;> simp
    · intro i j hij
      rw [List.disjoint_left]
      intro q hq hq'
      have e := (hcell y i q hq).symm.trans (hcell y j q hq')
      simp only [Prod.mk.injEq] at e
      omega
  · intro i j hij
    rw [List.disjoint_left]
    intro q hq hq'
    rw [List.mem_flatMap] at hq hq'
    obtain ⟨a, _, ha⟩ := hq
    obtain ⟨b, _, hb⟩ := hq'
    have e := (hcell i a q ha).symm.trans (hcell j b q hb)
    simp only [Prod.mk.injEq] at e
    omega

/-- C8. `lcd_set_cursor(x, y)` moves the cursor to `(x, y)` exactly when
`x + char_width < LCD_WIDTH` and `y + char_height < LCD_HEIGHT`, and otherwise
leaves the whole state as it was; the frame buffer and the font selection are
never touched, and after a move the cursor satisfies both bounds. -/
theorem lcd_set_cursor_spec (LCD_WIDTH LCD_HEIGHT : Nat) (st : State) (x y : Nat) :
    (x + st.char_width < LCD_WIDTH ∧ y + st.char_height < LCD_HEIGHT →
      (lcd_set_cursor LCD_WIDTH LCD_HEIGHT st x y).cursor_x = x ∧
      (lcd_set_cursor LCD_WIDTH LCD_HEIGHT st x y).cursor_y = y ∧
      (lcd_set_cursor LCD_WIDTH LCD_HEIGHT st x y).cursor_x
        + (lcd_set_cursor LCD_WIDTH LCD_HEIGHT st x y).char_width < LCD_WIDTH ∧
      (lcd_set_cursor LCD_WIDTH LCD_HEIGHT st x y).cursor_y
        + (lcd_set_cursor LCD_WIDTH LCD_HEIGHT st x y).char_height < LCD_HEIGHT) ∧
    (¬ (x + st.char_width < LCD_WIDTH ∧ y + st.char_height < LCD_HEIGHT) →
      lcd_set_cursor LCD_WIDTH LCD_HEIGHT st x y = st) ∧
    (lcd_set_cursor LCD_WIDTH LCD_HEIGHT st x y).lcd_buffer = st.lcd_buffer ∧
    (lcd_set_cursor LCD_WIDTH LCD_HEIGHT st x y).font = st.font ∧
    (lcd_set_cursor LCD_WIDTH LCD_HEIGHT st x y).font_width = st.font_width ∧
    (lcd_set_cursor LCD_WIDTH LCD_HEIGHT st x y).char_width = st.char_width ∧
    (lcd_set_cursor LCD_WIDTH LCD_HEIGHT st x y).char_height = st.char_height ∧
    (lcd_set_cursor LCD_WIDTH LCD_HEIGHT st x y).contrast = st.contrast := by
  unfold lcd_set_cursor
  refine ⟨?_, ?_, ?_⟩
  · rintro ⟨hx, hy⟩
    rw [if_neg (by omega), if_neg (by omega)]
    exact ⟨rfl, rfl, hx, hy⟩
  · intro h
    split_ifs with h1 h2
    · rfl
    · rfl
    · exact absurd ⟨by omega, by omega⟩ h
  · split_ifs <;> simp

/-- Witness of C8: `lcd_set_cursor(0, 48)` in the power-on state of a 128x64
panel, the call of the main loop, moves the cursor to `(0, 48)`. -/
theorem lcd_set_cursor_spec_witness :
    (lcd_set_cursor 128 64 (State.initial []) 0 48).cursor_x = 0 ∧
    (lcd_set_cursor 128 64 (State.initial []) 0 48).cursor_y = 48 := by
  obtain ⟨hx, hy, _⟩ :=
    (lcd_set_cursor_spec 128 64 (State.initial []) 0 48).1 (by decide)
  exact ⟨hx, hy⟩

/-- C9. With `flags = RECT_FILL` alone, `lcd_draw_rect` on an in-panel
rectangle `x1 ≤ x2`, `y1 ≤ y2` gives every pixel of the box the value
`colour != 0` and leaves every pixel outside the box as it was. -/
theorem lcd_draw_rect_fill (LCD_WIDTH LCD_HEIGHT RECT_FILL RECT_ROUNDED : Nat) (st : State)
    (x1 y1 x2 y2 colour : Nat)
    (hW : LCD_WIDTH ≤ 255) (hH : LCD_HEIGHT ≤ 255) (h8 : 8 ∣ LCD_HEIGHT)
    (hlen : st.lcd_buffer.length = LCD_WIDTH * LCD_HEIGHT / 8)
    (hF : RECT_FILL ≠ 0) (hFR : RECT_FILL &&& RECT_ROUNDED = 0)
    (hx : x1 ≤ x2) (hy : y1 ≤ y2) (hx2 : x2 < LCD_WIDTH) (hy2 : y2 < LCD_HEIGHT) :
    ∃ st', lcd_draw_rect LCD_WIDTH RECT_FILL RECT_ROUNDED st x1 y1 x2 y2 colour RECT_FILL
        = some st' ∧
      (∀ x y, x1 ≤ x → x ≤ x2 → y1 ≤ y → y ≤ y2 →
        (pixel_on LCD_WIDTH st'.lcd_buffer x y = true ↔ colour ≠ 0)) ∧
      (∀ x y, x < LCD_WIDTH → y < LCD_HEIGHT → ¬ (x1 ≤ x ∧ x ≤ x2 ∧ y1 ≤ y ∧ y ≤ y2) →
        pixel_on LCD_WIDTH st'.lcd_buffer x y = pixel_on LCD_WIDTH st.lcd_buffer x y) := by
  obtain ⟨buf', e, _, hpix⟩ := lcd_draw_rect_effect LCD_WIDTH LCD_HEIGHT RECT_FILL RECT_ROUNDED
    st x1 y1 x2 y2 colour RECT_FILL hW hH h8 hlen hx hy hx2 hy2
  refine ⟨_, e, ?_, ?_⟩
  · intro x y h1 h2 h3 h4
    have := hpix x y (by omega) (by omega)
    rw [if_pos ⟨⟨h1, h2, h3, h4⟩, Or.inl (by simpa using hF), by simp [hFR]⟩] at this
    simp [this]
  · intro x y hxW hyH hout
    have := hpix x y hxW hyH
    rw [if_neg (fun h => hout h.1)] at this
    exact this

/-- Witness of C9: `lcd_draw_rect(2,2,10,10,1,FILL)` on a blank 128x64 panel
sets all the pixels of the 9x9 box. -/
theorem lcd_draw_rect_fill_witness :
    ∃ st', lcd_draw_rect 128 2 1 (State.initial (List.replicate 1024 0)) 2 2 10 10 1 2
        = some st' ∧
      (∀ x y, 2 ≤ x → x ≤ 10 → 2 ≤ y → y ≤ 10 →
        (pixel_on 128 st'.lcd_buffer x y = true ↔ 1 ≠ 0)) ∧
      (∀ x y, x < 128 → y < 64 → ¬ (2 ≤ x ∧ x ≤ 10 ∧ 2 ≤ y ∧ y ≤ 10) →
        pixel_on 128 st'.lcd_buffer x y
          = pixel_on 128 (State.initial (List.replicate 1024 0)).lcd_buffer x y) :=
  lcd_draw_rect_fill 128 64 2 1 (State.initial (List.replicate 1024 0)) 2 2 10 10 1
    (by decide) (by decide) (by decide) (List.length_replicate 1024 0) (by decide) (by decide)
    (by decide) (by decide) (by decide) (by decide)

/-- The calls `lcd_draw_rect` makes are those of the closed-form scan. -/
theorem lcd_draw_rect_calls_eq (F R x1 y1 x2 y2 colour flags : Nat)
    (hx : x1 ≤ x2) (hy : y1 ≤ y2) (hx2 : x2 < 255) (hy2 : y2 < 255) :
    lcd_draw_rect_calls F R x1 y1 x2 y2 colour flags =
      some (rect_scan F R x1 y1 x2 y2 colour flags) := by
  unfold lcd_draw_rect_calls
  rw [lcd_draw_rect_with_eq _ F R _ x1 y1 x2 y2 colour flags hx hy hx2 hy2, plotAll_log]
  simp

/-- C10, with the count for one-pixel-wide rectangles. With `flags = 0`, `lcd_draw_rect` on an in-panel
rectangle `x1 ≤ x2`, `y1 ≤ y2` calls `lcd_set_pixel` only on border pixels of
the box, with the given colour; every border pixel gets the value
`colour != 0`; interior and outside pixels are unchanged; and the number of
distinct pixels plotted is `2*(w+h) - 4` when `w ≥ 2` and `h ≥ 2`, and `w*h`
(the whole box) when `w = 1` or `h = 1`. -/
theorem lcd_draw_rect_outline (LCD_WIDTH LCD_HEIGHT RECT_FILL RECT_ROUNDED : Nat) (st : State)
    (x1 y1 x2 y2 colour : Nat)
    (hW : LCD_WIDTH ≤ 255) (hH : LCD_HEIGHT ≤ 255) (h8 : 8 ∣ LCD_HEIGHT)
    (hlen : st.lcd_buffer.length = LCD_WIDTH * LCD_HEIGHT / 8)
    (hx : x1 ≤ x2) (hy : y1 ≤ y2) (hx2 : x2 < LCD_WIDTH) (hy2 : y2 < LCD_HEIGHT) :
    ∃ st' calls,
      lcd_draw_rect LCD_WIDTH RECT_FILL RECT_ROUNDED st x1 y1 x2 y2 colour 0 = some st' ∧
      lcd_draw_rect_calls RECT_FILL RECT_ROUNDED x1 y1 x2 y2 colour 0 = some calls ∧
      (∀ p ∈ calls, (x1 ≤ p.1 ∧ p.1 ≤ x2 ∧ y1 ≤ p.2.1 ∧ p.2.1 ≤ y2) ∧
        (p.1 = x1 ∨ p.1 = x2 ∨ p.2.1 = y1 ∨ p.2.1 = y2) ∧ p.2.2 = colour) ∧
      (∀ x y, x1 ≤ x → x ≤ x2 → y1 ≤ y → y ≤ y2 → (x = x1 ∨ x = x2 ∨ y = y1 ∨ y = y2) →
        (pixel_on LCD_WIDTH st'.lcd_buffer x y = true ↔ colour ≠ 0)) ∧
      (∀ x y, x < LCD_WIDTH → y < LCD_HEIGHT →
        ¬ ((x1 ≤ x ∧ x ≤ x2 ∧ y1 ≤ y ∧ y ≤ y2) ∧ (x = x1 ∨ x = x2 ∨ y = y1 ∨ y = y2)) →
        pixel_on LCD_WIDTH st'.lcd_buffer x y = pixel_on LCD_WIDTH st.lcd_buffer x y) ∧
      ((calls.map fun p => (p.1, p.2.1)).dedup.length =
        if x1 < x2 ∧ y1 < y2 then 2 * ((x2 - x1 + 1) + (y2 - y1 + 1)) - 4
        else (x2 - x1 + 1) * (y2 - y1 + 1)) := by
  obtain ⟨buf', e, _, hpix⟩ := lcd_draw_rect_effect LCD_WIDTH LCD_HEIGHT RECT_FILL RECT_ROUNDED
    st x1 y1 x2 y2 colour 0 hW hH h8 hlen hx hy hx2 hy2
  refine ⟨_, _, e, lcd_draw_rect_calls_eq RECT_FILL RECT_ROUNDED x1 y1 x2 y2 colour 0 hx hy
    (by omega) (by omega), ?_, ?_, ?_, ?_⟩
  · rintro ⟨a, b, c⟩ hp
    rw [mem_rect_scan_iff RECT_FILL RECT_ROUNDED x1 y1 x2 y2 colour 0 hx hy] at hp
    obtain ⟨hbox, hc, hb, _⟩ := hp
    have hz : ¬ ((0 : Nat) &&& RECT_FILL ≠ 0) := by simp
    refine ⟨hbox, ?_, hc⟩
    rcases hb with hb | hb | hb | hb | hb
    · exact absurd hb hz
    · exact Or.inr (Or.inr (Or.inl hb))
    · exact Or.inr (Or.inr (Or.inr hb))
    · exact Or.inl hb
    · exact Or.inr (Or.inl hb)
  · intro x y h1 h2 h3 h4 hb
    have := hpix x y (by omega) (by omega)
    rw [if_pos ⟨⟨h1, h2, h3, h4⟩, by
      rcases hb with hb | hb | hb | hb
      · exact Or.inr (Or.inr (Or.inr (Or.inl hb)))
      · exact Or.inr (Or.inr (Or.inr (Or.inr hb)))
      · exact Or.inr (Or.inl hb)
      · exact Or.inr (Or.inr (Or.inl hb)), by simp⟩] at this
    simp [this]
  · intro x y hxW hyH hout
    have hp := hpix x y hxW hyH
    have hz : ¬ ((0 : Nat) &&& RECT_FILL ≠ 0) := by simp
    rw [if_neg] at hp
    · exact hp
    · rintro ⟨hbox, hb, _⟩
      apply hout
      refine ⟨hbox, ?_⟩
      rcases hb with hb | hb | hb | hb | hb
      · exact absurd hb hz
      · exact Or.inr (Or.inr (Or.inl hb))
      · exact Or.inr (Or.inr (Or.inr hb))
      · exact Or.inl hb
      · exact Or.inr (Or.inl hb)
  · rw [(rect_scan_coords_nodup RECT_FILL RECT_ROUNDED x1 y1 x2 y2 colour 0).dedup,
      List.length_map]
    exact length_rect_scan_outline RECT_FILL RECT_ROUNDED x1 y1 x2 y2 colour hx hy

/-- Witness of C10: the outline of `(2,2,10,10)` on a blank 128x64 panel
plots 32 distinct pixels. -/
theorem lcd_draw_rect_outline_witness :
    ∃ st' calls,
      lcd_draw_rect 128 2 1 (State.initial (List.replicate 1024 0)) 2 2 10 10 1 0 = some st' ∧
      lcd_draw_rect_calls 2 1 2 2 10 10 1 0 = some calls ∧
      (calls.map fun p => (p.1, p.2.1)).dedup.length = 32 := by
  obtain ⟨st', calls, h1, h2, _, _, _, h6⟩ :=
    lcd_draw_rect_outline 128 64 2 1 (State.initial (List.replicate 1024 0)) 2 2 10 10 1
      (by decide) (by decide) (by decide) (List.length_replicate 1024 0)
      (by decide) (by decide) (by decide) (by decide)
  exact ⟨st', calls, h1, h2, by simpa using h6⟩

/-- Counterexample to C10 as stated: the outline of the one-pixel rectangle
`(2,2,2,2)` plots one pixel, where `2*(w+h) - 4` with `w = h = 1` is 0. -/
theorem lcd_draw_rect_outline_count_counterexample :
    ¬ ∃ calls, lcd_draw_rect_calls 2 1 2 2 2 2 1 0 = some calls ∧
      (calls.map fun p => (p.1, p.2.1)).dedup.length
        = 2 * ((2 - 2 + 1) + (2 - 2 + 1)) - 4 := by
  rintro ⟨calls, h, hc⟩
  have e : lcd_draw_rect_calls 2 1 2 2 2 2 1 0 = some [(2, 2, 1)] := by decide
  rw [e] at h
  cases h
  revert hc
  decide

/-! ## Glyph rendering -/

theorem plotAll_cons {σ : Type} (sp : SetPixel σ) (s : σ) (p : Nat × Nat × Nat)
    (ps : List (Nat × Nat × Nat)) :
    plotAll sp s (p :: ps) = (sp s p.1 p.2.1 p.2.2).bind fun s' => plotAll sp s' ps := by
  obtain ⟨x, y, c⟩ := p
  rfl

theorem write_char_rows_eq {σ : Type} (sp : SetPixel σ) (table : Nat → Nat) (st : State)
    (c colour x : Nat) (hch : st.char_height < 255) :
    ∀ (n fuel y row : Nat) (s : σ), y + n = st.char_height + 1 → n < fuel → row = y / 8 →
      lcd_write_char_rows sp table st c colour x fuel y row s =
        plotAll sp s ((List.range' y n).map fun y =>
          ((st.cursor_x + x) % 256, (st.cursor_y + y) % 256,
            glyph_state table st c colour x y)) := by
  intro n
  induction n with
  | zero =>
    intro fuel y row s hy hf _
    obtain ⟨f, rfl⟩ : ∃ f, fuel = f + 1 := ⟨fuel - 1, by omega⟩
    have : ¬ y < st.char_height + 1 := by omega
    simp [lcd_write_char_rows, this, plotAll]
  | succ n ih =>
    intro fuel y row s hy hf hrow
    obtain ⟨f, rfl⟩ : ∃ f, fuel = f + 1 := ⟨fuel - 1, by omega⟩
    have hlt : y < st.char_height + 1 := by omega
    have hmod : (y + 1) % 256 = y + 1 := Nat.mod_eq_of_lt (by omega)
    have hrow' : (if y % 8 = 7 then (row + 1) % 256 else row) = (y + 1) / 8 := by
      subst hrow
      split_ifs <;> omega
    rw [List.range'_succ, List.map_cons, plotAll_cons]
    simp only [lcd_write_char_rows, if_pos hlt, hmod, hrow']
    have ih' := fun a => ih f (y + 1) ((y + 1) / 8) a (by omega) (by omega) rfl
    simp only [ih']
    subst hrow
    rfl

theorem write_char_cols_eq {σ : Type} (sp : SetPixel σ) (table : Nat → Nat) (st : State)
    (c colour : Nat) (hch : st.char_height < 255) (hcw : st.char_width ≤ 255) :
    ∀ (n fuel x : Nat) (s : σ), x + n = st.char_width → n < fuel →
      lcd_write_char_cols sp table st c colour fuel x s =
        plotAll sp s ((List.range' x n).flatMap fun x =>
          (List.range' 0 (st.char_height + 1)).map fun y =>
            ((st.cursor_x + x) % 256, (st.cursor_y + y) % 256,
              glyph_state table st c colour x y)) := by
  intro n
  induction n with
  | zero =>
    intro fuel x s hx hf
    obtain ⟨f, rfl⟩ : ∃ f, fuel = f + 1 := ⟨fuel - 1, by omega⟩
    have : ¬ x < st.char_width := by omega
    simp [lcd_write_char_cols, this, plotAll]
  | succ n ih =>
    intro fuel x s hx hf
    obtain ⟨f, rfl⟩ : ∃ f, fuel = f + 1 := ⟨fuel - 1, by omega⟩
    have hlt : x < st.char_width := by omega
    have hmod : (x + 1) % 256 = x + 1 := Nat.mod_eq_of_lt (by omega)
    rw [List.range'_succ, List.flatMap_cons, plotAll_append]
    simp only [lcd_write_char_cols, if_pos hlt, hmod]
    have ih' := fun a => ih f (x + 1) a (by omega) (by omega)
    simp only [ih']
    rw [write_char_rows_eq sp table st c colour x hch (st.char_height + 1) 257 0 0 s
      (by omega) (by omega) (by simp)]

theorem write_char_gap_eq {σ : Type} (sp : SetPixel σ) (st : State) (colour : Nat)
    (hch : st.char_height < 255) :
    ∀ (n fuel y : Nat) (s : σ), y + n = st.char_height + 1 → n < fuel →
      lcd_write_char_gap sp st colour fuel y s =
        plotAll sp s ((List.range' y n).map fun y =>
          ((st.cursor_x + st.char_width) % 256, (st.cursor_y + y) % 256,
            (256 + 1 - colour) % 256)) := by
  intro n
  induction n with
  | zero =>
    intro fuel y s hy hf
    obtain ⟨f, rfl⟩ : ∃ f, fuel = f + 1 := ⟨fuel - 1, by omega⟩
    have : ¬ y < st.char_height + 1 := by omega
    simp [lcd_write_char_gap, this, plotAll]
  | succ n ih =>
    intro fuel y s hy hf
    obtain ⟨f, rfl⟩ : ∃ f, fuel = f + 1 := ⟨fuel - 1, by omega⟩
    have hlt : y < st.char_height + 1 := by omega
    have hmod : (y + 1) % 256 = y + 1 := Nat.mod_eq_of_lt (by omega)
    rw [List.range'_succ, List.map_cons, plotAll_cons]
    simp only [lcd_write_char_gap, if_pos hlt, hmod]
    have ih' := fun a => ih f (y + 1) a (by omega) (by omega)
    simp only [ih']

/-- The pixel writes of `lcd_write_char` are those of the two closed-form scans. -/
theorem lcd_write_char_pixels_eq {σ : Type} (sp : SetPixel σ) (fonts : Font → Nat → Nat)
    (st : State) (c colour : Nat) (s : σ)
    (hch : st.char_height < 255) (hcw : st.char_width ≤ 255) :
    lcd_write_char_pixels sp fonts st c colour s =
      plotAll sp s (glyph_scan (fonts st.font) st c colour ++ gap_scan st colour) := by
  unfold lcd_write_char_pixels glyph_scan gap_scan
  rw [plotAll_append,
    write_char_cols_eq sp (fonts st.font) st c colour hch hcw st.char_width 257 0 s
      (by omega) (by omega)]
  congr 1
  funext s'
  exact write_char_gap_eq sp st colour hch (st.char_height + 1) 257 0 s' (by omega) (by omega)

theorem mem_glyph_scan (table : Nat → Nat) (st : State) (c colour : Nat)
    (p : Nat × Nat × Nat) :
    p ∈ glyph_scan table st c colour ↔
      ∃ x y, x < st.char_width ∧ y ≤ st.char_height ∧
        p = ((st.cursor_x + x) % 256, (st.cursor_y + y) % 256,
          glyph_state table st c colour x y) := by
  unfold glyph_scan
  simp only [List.mem_flatMap, List.mem_map, List.mem_range'_1]
  constructor
  · rintro ⟨x, hx, y, hy, rfl⟩
    exact ⟨x, y, by omega, by omega, rfl⟩
  · rintro ⟨x, y, hx, hy, rfl⟩
    exact ⟨x, by omega, y, by omega, rfl⟩

theorem mem_gap_scan (st : State) (colour : Nat) (p : Nat × Nat × Nat) :
    p ∈ gap_scan st colour ↔
      ∃ y, y ≤ st.char_height ∧
        p = ((st.cursor_x + st.char_width) % 256, (st.cursor_y + y) % 256,
          (256 + 1 - colour) % 256) := by
  unfold gap_scan
  simp only [List.mem_map, List.mem_range'_1]
  constructor
  · rintro ⟨y, hy, rfl⟩
    exact ⟨y, by omega, rfl⟩
  · rintro ⟨y, hy, rfl⟩
    exact ⟨y, by omega, rfl⟩

/-- What an accepted `lcd_write_char` does: the new state and the value of
every pixel of the panel. -/
theorem lcd_write_char_accept (W H : Nat) (fonts : Font → Nat → Nat) (st : State)
    (c colour g : Nat)
    (hW : W ≤ 255) (hH : H ≤ 255) (h8 : 8 ∣ H) (hlen : st.lcd_buffer.length = W * H / 8)
    (hgx : st.cursor_x + st.char_width < W) (hgy : st.cursor_y + st.char_height < H)
    (hg : (if st.font = Font.font_large then large_index c else some c) = some g) :
    ∃ buf', lcd_write_char W H fonts st c colour =
        some { st with
          lcd_buffer := buf'
          cursor_x := st.cursor_x + st.char_width + 1
          cursor_y := if st.cursor_x + st.char_width + 1 ≥ W
                      then st.cursor_y + st.char_height + 1 else st.cursor_y } ∧
      buf'.length = st.lcd_buffer.length ∧
      (∀ x y, x < st.char_width → y ≤ st.char_height →
        pixel_on W buf' (st.cursor_x + x) (st.cursor_y + y) =
          decide (glyph_state (fonts st.font) st g colour x y ≠ 0)) ∧
      (∀ y, y ≤ st.char_height →
        pixel_on W buf' (st.cursor_x + st.char_width) (st.cursor_y + y) =
          decide ((256 + 1 - colour) % 256 ≠ 0)) ∧
      (∀ x y, x < W → y < H →
        ¬ (st.cursor_x ≤ x ∧ x ≤ st.cursor_x + st.char_width ∧
           st.cursor_y ≤ y ∧ y ≤ st.cursor_y + st.char_height) →
        pixel_on W buf' x y = pixel_on W st.lcd_buffer x y) := by
  have mx : ∀ x, x ≤ st.char_width → (st.cursor_x + x) % 256 = st.cursor_x + x :=
    fun x hx => Nat.mod_eq_of_lt (by omega)
  have my : ∀ y, y ≤ st.char_height → (st.cursor_y + y) % 256 = st.cursor_y + y :=
    fun y hy => Nat.mod_eq_of_lt (by omega)
  have hin : ∀ p ∈ glyph_scan (fonts st.font) st g colour ++ gap_scan st colour,
      p.1 < W ∧ p.2.1 < H := by
    intro p hp
    rcases List.mem_append.1 hp with h | h
    · obtain ⟨x, y, hx, hy, rfl⟩ := (mem_glyph_scan ..).1 h
      simp only [mx x (by omega), my y hy]
      omega
    · obtain ⟨y, hy, rfl⟩ := (mem_gap_scan ..).1 h
      simp only [mx _ (le_refl _), my y hy]
      omega
  obtain ⟨buf', e, l, hon, hoff⟩ := plotAll_effect W H h8 _ st.lcd_buffer hlen hin
  refine ⟨buf', ?_, l, ?_, ?_, ?_⟩
  · unfold lcd_write_char
    rw [if_neg (by omega), if_neg (by omega)]
    simp only [hg]
    rw [lcd_write_char_pixels_eq _ fonts st g colour _ (by omega) (by omega), e]
    have mcx : (st.cursor_x + (st.char_width + 1)) % 256 = st.cursor_x + st.char_width + 1 :=
      Nat.mod_eq_of_lt (by omega)
    have mcy : (st.cursor_y + (st.char_height + 1)) % 256 = st.cursor_y + st.char_height + 1 :=
      Nat.mod_eq_of_lt (by omega)
    simp only [Option.some_bind, mcx, mcy]
  · intro x y hx hy
    apply hon
    · exact List.mem_append_left _ ((mem_glyph_scan ..).2
        ⟨x, y, hx, hy, by rw [mx x (by omega), my y hy]⟩)
    · intro c' hc'
      rcases List.mem_append.1 hc' with h | h
      · obtain ⟨x', y', hx', hy', heq⟩ := (mem_glyph_scan ..).1 h
        simp only [Prod.mk.injEq, mx x' (by omega), my y' hy'] at heq
        obtain ⟨h1, h2, h3⟩ := heq
        have : x' = x := by omega
        subst this
        have : y' = y := by omega
        subst this
        rw [h3]
      · obtain ⟨y', hy', heq⟩ := (mem_gap_scan ..).1 h
        simp only [Prod.mk.injEq, mx _ (le_refl _)] at heq
        omega
  · intro y hy
    apply hon
    · exact List.mem_append_right _ ((mem_gap_scan ..).2
        ⟨y, hy, by rw [mx _ (le_refl _), my y hy]⟩)
    · intro c' hc'
      rcases List.mem_append.1 hc' with h | h
      · obtain ⟨x', y', hx', hy', heq⟩ := (mem_glyph_scan ..).1 h
        simp only [Prod.mk.injEq, mx x' (by omega)] at heq
        omega
      · obtain ⟨y', hy', heq⟩ := (mem_gap_scan ..).1 h
        simp only [Prod.mk.injEq] at heq
        rw [heq.2.2]
  · intro x y hx hy hout
    apply hoff x y hx
    intro c' hc'
    apply hout
    rcases List.mem_append.1 hc' with h | h
    · obtain ⟨x', y', hx', hy', heq⟩ := (mem_glyph_scan ..).1 h
      simp only [Prod.mk.injEq, mx x' (by omega), my y' hy'] at heq
      omega
    · obtain ⟨y', hy', heq⟩ := (mem_gap_scan ..).1 h
      simp only [Prod.mk.injEq, mx _ (le_refl _), my y' hy'] at heq
      omega

theorem large_index_of_supported (c g : Nat)
    (h : (48 ≤ c ∧ c ≤ 57 ∧ g = c - 48) ∨ (c = 43 ∧ g = 11) ∨ (c = 45 ∧ g = 12) ∨
      (c = 32 ∧ g = 13)) : large_index c = some g := by
  unfold large_index
  rcases h with ⟨h1, h2, rfl⟩ | ⟨rfl, rfl⟩ | ⟨rfl, rfl⟩ | ⟨rfl, rfl⟩
  · rw [if_pos ⟨h2, h1⟩]
  · decide
  · decide
  · decide

theorem large_index_of_unsupported (c : Nat)
    (h : ¬ (48 ≤ c ∧ c ≤ 57) ∧ c ≠ 32 ∧ c ≠ 45 ∧ c ≠ 43) : large_index c = none := by
  unfold large_index
  obtain ⟨h1, h2, h3, h4⟩ := h
  rw [if_neg (fun h => h1 ⟨h.2, h.1⟩), if_neg h2, if_neg h3, if_neg h4]

theorem large_index_isSome (c : Nat)
    (h : ¬ (¬ (48 ≤ c ∧ c ≤ 57) ∧ c ≠ 32 ∧ c ≠ 45 ∧ c ≠ 43)) :
    ∃ g, large_index c = some g := by
  unfold large_index
  split_ifs with h1 h2 h3 h4
  · exact ⟨_, rfl⟩
  · exact ⟨_, rfl⟩
  · exact ⟨_, rfl⟩
  · exact ⟨_, rfl⟩
  · exact absurd ⟨fun h => h1 ⟨h.2, h.1⟩, h2, h3, h4⟩ h

theorem glyph_state_eq (table : Nat → Nat) (st : State) (g colour x y : Nat)
    (hcol : colour = 0 ∨ colour = 1) :
    (if glyph_state table st g colour x y ≠ 0 then 1 else 0) =
      if (table (g * st.char_width + x + (y / 8) * st.font_width)).testBit (y % 8)
      then colour else 1 - colour := by
  have hk : y % 8 < 8 := Nat.mod_lt _ (by norm_num)
  have hbit : ((table (g * st.char_width + x + (y / 8) * st.font_width) % 256) &&&
      (1 <<< (y % 8)) ≠ 0) ↔
      (table (g * st.char_width + x + (y / 8) * st.font_width)).testBit (y % 8) = true := by
    rw [and_bit_ne_zero, show (256 : Nat) = 2 ^ 8 by norm_num, Nat.testBit_mod_two_pow]
    simp [hk]
  unfold glyph_state
  by_cases hb : (table (g * st.char_width + x + (y / 8) * st.font_width)).testBit (y % 8) = true
  · rw [if_pos (hbit.2 hb), if_pos hb]
    rcases hcol with rfl | rfl <;> simp
  · rw [if_neg (fun h => hb (hbit.1 h)), if_neg hb]
    rcases hcol with rfl | rfl <;> simp

/-- C2. When `lcd_write_char(c, colour)` passes its guard (and `c` is a
supported character for the large font) and `colour` is 0 or 1: every pixel
`(cursor_x + x, cursor_y + y)` with `x < char_width`, `y ≤ char_height` ends up
equal to `colour` where bit `y % 8` of
`font[g*char_width + x + (y/8)*font_width]` is set and to `1 - colour`
elsewhere, `g` being `c` for the medium font and the remapped index for the
large one; the spacing column `x = cursor_x + char_width` is `1 - colour` on
rows `cursor_y .. cursor_y + char_height`; all pixels outside that cell are
unchanged. -/
theorem lcd_write_char_glyph (LCD_WIDTH LCD_HEIGHT : Nat) (fonts : Font → Nat → Nat)
    (st : State) (c colour g : Nat)
    (hW : LCD_WIDTH ≤ 255) (hH : LCD_HEIGHT ≤ 255) (h8 : 8 ∣ LCD_HEIGHT)
    (hlen : st.lcd_buffer.length = LCD_WIDTH * LCD_HEIGHT / 8)
    (hcol : colour = 0 ∨ colour = 1)
    (hgx : st.cursor_x + st.char_width < LCD_WIDTH)
    (hgy : st.cursor_y + st.char_height < LCD_HEIGHT)
    (hg : (st.font = Font.font_medium ∧ g = c) ∨
      (st.font = Font.font_large ∧
        ((48 ≤ c ∧ c ≤ 57 ∧ g = c - 48) ∨ (c = 43 ∧ g = 11) ∨ (c = 45 ∧ g = 12) ∨
          (c = 32 ∧ g = 13)))) :
    ∃ st', lcd_write_char LCD_WIDTH LCD_HEIGHT fonts st c colour = some st' ∧
      (∀ x y, x < st.char_width → y ≤ st.char_height →
        pixel LCD_WIDTH st'.lcd_buffer (st.cursor_x + x) (st.cursor_y + y) =
          if (fonts st.font (g * st.char_width + x + (y / 8) * st.font_width)).testBit (y % 8)
          then colour else 1 - colour) ∧
      (∀ y, y ≤ st.char_height →
        pixel LCD_WIDTH st'.lcd_buffer (st.cursor_x + st.char_width) (st.cursor_y + y) =
          1 - colour) ∧
      (∀ x y, x < LCD_WIDTH → y < LCD_HEIGHT →
        ¬ (st.cursor_x ≤ x ∧ x ≤ st.cursor_x + st.char_width ∧
           st.cursor_y ≤ y ∧ y ≤ st.cursor_y + st.char_height) →
        pixel LCD_WIDTH st'.lcd_buffer x y = pixel LCD_WIDTH st.lcd_buffer x y) := by
  have hg' : (if st.font = Font.font_large then large_index c else some c) = some g := by
    rcases hg with ⟨hf, rfl⟩ | ⟨hf, hs⟩
    · rw [if_neg (by rw [hf]; decide)]
    · rw [if_pos hf, large_index_of_supported c g hs]
  obtain ⟨buf', e, _, hglyph, hgap, hout⟩ :=
    lcd_write_char_accept LCD_WIDTH LCD_HEIGHT fonts st c colour g hW hH h8 hlen hgx hgy hg'
  refine ⟨_, e, ?_, ?_, ?_⟩
  · intro x y hx hy
    simp only [pixel, hglyph x y hx hy, decide_eq_true_eq]
    exact glyph_state_eq (fonts st.font) st g colour x y hcol
  · intro y hy
    simp only [pixel, hgap y hy, decide_eq_true_eq]
    rcases hcol with rfl | rfl <;> simp
  · intro x y hx hy hc
    simp only [pixel, hout x y hx hy hc]

/-- C3. `lcd_write_char(c, colour)` returns the state it was given when
`cursor_y + char_height >= LCD_HEIGHT`, when `cursor_x + char_width >=
LCD_WIDTH`, and when the font is the large one and `c` is none of `'0'..'9'`,
`' '`, `'-'`, `'+'`; in every other case it moves `cursor_x` forward. -/
theorem lcd_write_char_reject (LCD_WIDTH LCD_HEIGHT : Nat) (fonts : Font → Nat → Nat)
    (st : State) (c colour : Nat)
    (hW : LCD_WIDTH ≤ 255) (hH : LCD_HEIGHT ≤ 255) (h8 : 8 ∣ LCD_HEIGHT)
    (hlen : st.lcd_buffer.length = LCD_WIDTH * LCD_HEIGHT / 8) :
    ((st.cursor_y + st.char_height ≥ LCD_HEIGHT ∨ st.cursor_x + st.char_width ≥ LCD_WIDTH ∨
        (st.font = Font.font_large ∧ ¬ (48 ≤ c ∧ c ≤ 57) ∧ c ≠ 32 ∧ c ≠ 45 ∧ c ≠ 43)) →
      lcd_write_char LCD_WIDTH LCD_HEIGHT fonts st c colour = some st) ∧
    (¬ (st.cursor_y + st.char_height ≥ LCD_HEIGHT ∨ st.cursor_x + st.char_width ≥ LCD_WIDTH ∨
        (st.font = Font.font_large ∧ ¬ (48 ≤ c ∧ c ≤ 57) ∧ c ≠ 32 ∧ c ≠ 45 ∧ c ≠ 43)) →
      ∃ st', lcd_write_char LCD_WIDTH LCD_HEIGHT fonts st c colour = some st' ∧
        st'.cursor_x = st.cursor_x + st.char_width + 1 ∧ st.cursor_x < st'.cursor_x) := by
  constructor
  · intro h
    unfold lcd_write_char
    by_cases h1 : st.cursor_y + st.char_height ≥ LCD_HEIGHT
    · rw [if_pos h1]
    · rw [if_neg h1]
      by_cases h2 : st.cursor_x + st.char_width ≥ LCD_WIDTH
      · rw [if_pos h2]
      · rw [if_neg h2]
        rcases h with h | h | ⟨hf, hu⟩
        · exact absurd h h1
        · exact absurd h h2
        · simp only [if_pos hf, large_index_of_unsupported c hu]
  · intro h
    have h1 : st.cursor_y + st.char_height < LCD_HEIGHT := by omega
    have h2 : st.cursor_x + st.char_width < LCD_WIDTH := by omega
    have hg : ∃ g, (if st.font = Font.font_large then large_index c else some c) = some g := by
      by_cases hf : st.font = Font.font_large
      · rw [if_pos hf]
        exact large_index_isSome c (fun hu => h (Or.inr (Or.inr ⟨hf, hu⟩)))
      · rw [if_neg hf]
        exact ⟨c, rfl⟩
    obtain ⟨g, hg⟩ := hg
    obtain ⟨buf', e, _⟩ :=
      lcd_write_char_accept LCD_WIDTH LCD_HEIGHT fonts st c colour g hW hH h8 hlen h2 h1 hg
    exact ⟨_, e, rfl, by simp only; omega⟩

/-- C4. When `lcd_write_char` is not rejected, the new `cursor_x` is the old
one plus `char_width + 1` (as a number, so without 8-bit wrap-around), the new
`cursor_y` is the old one plus `char_height + 1` if the new `cursor_x` is
`>= LCD_WIDTH` and the old one otherwise. -/
theorem lcd_write_char_cursor (LCD_WIDTH LCD_HEIGHT : Nat) (fonts : Font → Nat → Nat)
    (st : State) (c colour : Nat)
    (hW : LCD_WIDTH ≤ 255) (hH : LCD_HEIGHT ≤ 255) (h8 : 8 ∣ LCD_HEIGHT)
    (hlen : st.lcd_buffer.length = LCD_WIDTH * LCD_HEIGHT / 8)
    (hgx : st.cursor_x + st.char_width < LCD_WIDTH)
    (hgy : st.cursor_y + st.char_height < LCD_HEIGHT)
    (hc : st.font = Font.font_large → (48 ≤ c ∧ c ≤ 57) ∨ c = 32 ∨ c = 45 ∨ c = 43) :
    ∃ st', lcd_write_char LCD_WIDTH LCD_HEIGHT fonts st c colour = some st' ∧
      st'.cursor_x = st.cursor_x + st.char_width + 1 ∧
      st'.cursor_x < 256 ∧
      st'.cursor_y = (if st'.cursor_x ≥ LCD_WIDTH then st.cursor_y + st.char_height + 1
                      else st.cursor_y) ∧
      st'.cursor_y < 256 := by
  have hg : ∃ g, (if st.font = Font.font_large then large_index c else some c) = some g := by
    by_cases hf : st.font = Font.font_large
    · rw [if_pos hf]
      apply large_index_isSome c
      rintro ⟨h1, h2, h3, h4⟩
      rcases hc hf with h | h | h | h
      · exact h1 h
      · exact h2 h
      · exact h3 h
      · exact h4 h
    · rw [if_neg hf]
      exact ⟨c, rfl⟩
  obtain ⟨g, hg⟩ := hg
  obtain ⟨buf', e, _⟩ :=
    lcd_write_char_accept LCD_WIDTH LCD_HEIGHT fonts st c colour g hW hH h8 hlen hgx hgy hg
  refine ⟨_, e, rfl, by simp only; omega, rfl, ?_⟩
  simp only
  split_ifs <;> omega

/-- Witness of C2: an `'A'` written in colour 1 at the origin of a blank
128x64 panel, every font byte being `0xAA`. -/
theorem lcd_write_char_glyph_witness :
    ∃ st', lcd_write_char 128 64 (fun _ _ => 0xAA) (State.initial (List.replicate 1024 0)) 65 1
        = some st' ∧
      pixel 128 st'.lcd_buffer 0 0 = 0 ∧ pixel 128 st'.lcd_buffer 4 7 = 1 ∧
      pixel 128 st'.lcd_buffer 5 3 = 0 := by
  obtain ⟨st', h, hglyph, hgap, _⟩ :=
    lcd_write_char_glyph 128 64 (fun _ _ => 0xAA) (State.initial (List.replicate 1024 0))
      65 1 65 (by decide) (by decide) (by decide) (List.length_replicate 1024 0)
      (Or.inr rfl) (by decide) (by decide) (Or.inl ⟨rfl, rfl⟩)
  exact ⟨st', h, hglyph 0 0 (by decide) (by decide), hglyph 4 7 (by decide) (by decide),
    hgap 3 (by decide)⟩

/-- Witness of C3: on a blank 128x64 panel in the power-on state, `'A'` moves
the cursor from column 0 to column 6. -/
theorem lcd_write_char_reject_witness :
    ∃ st', lcd_write_char 128 64 (fun _ _ => 0xAA) (State.initial (List.replicate 1024 0)) 65 1
        = some st' ∧ st'.cursor_x = 6 := by
  obtain ⟨st', h, hx, _⟩ :=
    (lcd_write_char_reject 128 64 (fun _ _ => 0xAA) (State.initial (List.replicate 1024 0))
      65 1 (by decide) (by decide) (by decide) (List.length_replicate 1024 0)).2 (by decide)
  exact ⟨st', h, hx⟩

/-- Witness of C4: with the cursor at column 122 of a 128x64 panel, a
character of the medium font moves the cursor to column 128 and down by 8
rows. -/
theorem lcd_write_char_cursor_witness :
    ∃ st', lcd_write_char 128 64 (fun _ _ => 0xAA)
        { State.initial (List.replicate 1024 0) with cursor_x := 122 } 65 1 = some st' ∧
      st'.cursor_x = 128 ∧ st'.cursor_y = 8 := by
  obtain ⟨st', h, hx, _, hy, _⟩ :=
    lcd_write_char_cursor 128 64 (fun _ _ => 0xAA)
      { State.initial (List.replicate 1024 0) with cursor_x := 122 } 65 1
      (by decide) (by decide) (by decide) (List.length_replicate 1024 0)
      (by decide) (by decide) (by decide)
  refine ⟨st', h, hx, ?_⟩
  rw [hy, hx]
  rfl

/-! ## Strings -/


theorem write_string_loop_eq (W H : Nat) (fonts : Font → Nat → Nat) (colour : Nat) :
    ∀ (s : List Nat) (st : State),
      lcd_write_string_loop (lcd_write_char W H fonts) colour s.length s st =
        write_chars W H fonts colour st s := by
  intro s
  induction s with
  | nil => intro st; rfl
  | cons c cs ih =>
    intro st
    simp only [List.length_cons, lcd_write_string_loop, write_chars, ih]

/-- For a string shorter than 256 characters `lcd_write_string` is the
sequence of `lcd_write_char` calls on its characters. -/
theorem lcd_write_string_short (W H : Nat) (fonts : Font → Nat → Nat) (st : State)
    (s : List Nat) (colour : Nat) (hs : s.length < 256) :
    lcd_write_string W H fonts st s colour = write_chars W H fonts colour st s := by
  unfold lcd_write_string
  rw [Nat.mod_eq_of_lt hs]
  exact write_string_loop_eq W H fonts colour s st

theorem lcd_write_char_accept_state (W H : Nat) (fonts : Font → Nat → Nat) (st : State)
    (c colour g : Nat)
    (hW : W ≤ 255) (hH : H ≤ 255) (h8 : 8 ∣ H) (hlen : st.lcd_buffer.length = W * H / 8)
    (hgx : st.cursor_x + st.char_width < W) (hgy : st.cursor_y + st.char_height < H)
    (hg : (if st.font = Font.font_large then large_index c else some c) = some g) :
    ∃ st', lcd_write_char W H fonts st c colour = some st' ∧
      st'.lcd_buffer.length = W * H / 8 ∧ st'.cursor_x = st.cursor_x + st.char_width + 1 := by
  obtain ⟨buf', e, l, _⟩ :=
    lcd_write_char_accept W H fonts st c colour g hW hH h8 hlen hgx hgy hg
  exact ⟨_, e, l.trans hlen, rfl⟩

/-- A sequence of `lcd_write_char` calls on a valid frame buffer has a result,
and never moves `cursor_x` backwards. -/
theorem write_chars_total (W H : Nat) (fonts : Font → Nat → Nat) (colour : Nat)
    (hW : W ≤ 255) (hH : H ≤ 255) (h8 : 8 ∣ H) :
    ∀ (s : List Nat) (st : State), st.lcd_buffer.length = W * H / 8 →
      ∃ st', write_chars W H fonts colour st s = some st' ∧ st.cursor_x ≤ st'.cursor_x := by
  intro s
  induction s with
  | nil => intro st _; exact ⟨st, rfl, le_refl _⟩
  | cons c cs ih =>
    intro st hlen
    by_cases hrej : st.cursor_y + st.char_height ≥ H ∨ st.cursor_x + st.char_width ≥ W ∨
        (st.font = Font.font_large ∧ ¬ (48 ≤ c ∧ c ≤ 57) ∧ c ≠ 32 ∧ c ≠ 45 ∧ c ≠ 43)
    · have e : lcd_write_char W H fonts st c colour = some st := by
        unfold lcd_write_char
        by_cases h1 : st.cursor_y + st.char_height ≥ H
        · rw [if_pos h1]
        · rw [if_neg h1]
          by_cases h2 : st.cursor_x + st.char_width ≥ W
          · rw [if_pos h2]
          · rw [if_neg h2]
            rcases hrej with h | h | ⟨hf, hu⟩
            · exact absurd h h1
            · exact absurd h h2
            · simp only [if_pos hf, large_index_of_unsupported c hu]
      obtain ⟨st', h, hle⟩ := ih st hlen
      exact ⟨st', by simp only [write_chars, e, Option.some_bind, h], hle⟩
    · have h1 : st.cursor_y + st.char_height < H := by omega
      have h2 : st.cursor_x + st.char_width < W := by omega
      have hg : ∃ g, (if st.font = Font.font_large then large_index c else some c) = some g := by
        by_cases hf : st.font = Font.font_large
        · rw [if_pos hf]
          exact large_index_isSome c (fun hu => hrej (Or.inr (Or.inr ⟨hf, hu⟩)))
        · rw [if_neg hf]
          exact ⟨c, rfl⟩
      obtain ⟨g, hg⟩ := hg
      obtain ⟨st1, e, l, hx⟩ :=
        lcd_write_char_accept_state W H fonts st c colour g hW hH h8 hlen h2 h1 hg
      obtain ⟨st', h, hle⟩ := ih st1 l
      refine ⟨st', by simp only [write_chars, e, Option.some_bind, h], ?_⟩
      omega

theorem lcd_write_string_256 (W H : Nat) (fonts : Font → Nat → Nat) (st : State)
    (s : List Nat) (colour : Nat) (hs : s.length = 256) :
    lcd_write_string W H fonts st s colour = some st := by
  unfold lcd_write_string
  rw [hs]
  rfl

theorem write_chars_moves (W H : Nat) (fonts : Font → Nat → Nat) (colour : Nat)
    (hW : W ≤ 255) (hH : H ≤ 255) (h8 : 8 ∣ H) (st : State) (c g : Nat) (cs : List Nat)
    (hlen : st.lcd_buffer.length = W * H / 8)
    (hgx : st.cursor_x + st.char_width < W) (hgy : st.cursor_y + st.char_height < H)
    (hg : (if st.font = Font.font_large then large_index c else some c) = some g) :
    ∃ st', write_chars W H fonts colour st (c :: cs) = some st' ∧
      st.cursor_x + st.char_width + 1 ≤ st'.cursor_x := by
  obtain ⟨st1, e, l, hx⟩ :=
    lcd_write_char_accept_state W H fonts st c colour g hW hH h8 hlen hgx hgy hg
  obtain ⟨st', h, hle⟩ := write_chars_total W H fonts colour hW hH h8 cs st1 l
  refine ⟨st', by simp only [write_chars, e, Option.some_bind, h], ?_⟩
  omega

/-- C5, at the failing input: on a blank 128x64 panel in the power-on state,
`lcd_write_string` of a string of 256 letters `'A'` takes `n = 256 % 256 = 0`
and returns the state unchanged, while 256 calls of `lcd_write_char` draw
glyphs and leave `cursor_x` at 6 or beyond. -/
theorem lcd_write_string_truncates (fonts : Font → Nat → Nat) :
    lcd_write_string 128 64 fonts (State.initial (List.replicate 1024 0))
        (List.replicate 256 65) 1 = some (State.initial (List.replicate 1024 0)) ∧
    ∃ st', write_chars 128 64 fonts 1 (State.initial (List.replicate 1024 0))
        (List.replicate 256 65) = some st' ∧ 6 ≤ st'.cursor_x ∧
      st' ≠ State.initial (List.replicate 1024 0) := by
  refine ⟨lcd_write_string_256 128 64 fonts _ _ 1 (List.length_replicate 256 65), ?_⟩
  obtain ⟨st', h, hle⟩ := write_chars_moves 128 64 fonts 1 (by decide) (by decide) (by decide)
    (State.initial (List.replicate 1024 0)) 65 65 (List.replicate 255 65)
    (List.length_replicate 1024 0) (by decide) (by decide) rfl
  have h6 : 6 ≤ st'.cursor_x := hle
  refine ⟨st', h, h6, ?_⟩
  intro hc
  have h0 : st'.cursor_x = 0 := by rw [hc]; rfl
  omega

/-! ## Integers -/

theorem int16_abs (val : Int) (a : Nat) (ha : a ≤ 32767) (hval : val = a ∨ val = -(a : Int)) :
    toInt16 (if val < 0 then -val else val) = (a : Int) := by
  unfold toInt16
  rcases hval with rfl | rfl <;> split_ifs <;> omega

theorem wi_tth (a : Nat) (ha : a ≤ 32767) : toUInt8 ((a : Int).tdiv 10000) = a / 10000 := by
  unfold toUInt8
  rw [Int.tdiv_eq_ediv (by omega) (by norm_num)]
  omega

theorem wi_u1 (a : Nat) :
    toInt16 ((a : Int) - ((a / 10000 : Nat) : Int) * 10000) = ((a % 10000 : Nat) : Int) := by
  unfold toInt16; omega

theorem wi_th (a : Nat) : toUInt8 (((a % 10000 : Nat) : Int).tdiv 1000) = a / 1000 % 10 := by
  unfold toUInt8
  rw [Int.tdiv_eq_ediv (by omega) (by norm_num)]
  omega

theorem wi_u2 (a : Nat) :
    toInt16 (((a % 10000 : Nat) : Int) - ((a / 1000 % 10 : Nat) : Int) * 1000)
      = ((a % 1000 : Nat) : Int) := by
  have d : a / 1000 / 10 = a / 10000 := Nat.div_div_eq_div_mul a 1000 10
  unfold toInt16; omega

theorem wi_h (a : Nat) : toUInt8 (((a % 1000 : Nat) : Int).tdiv 100) = a / 100 % 10 := by
  unfold toUInt8
  rw [Int.tdiv_eq_ediv (by omega) (by norm_num)]
  omega

theorem wi_u3 (a : Nat) :
    toInt16 (((a % 1000 : Nat) : Int) - ((a / 100 % 10 : Nat) : Int) * 100)
      = ((a % 100 : Nat) : Int) := by
  have d : a / 100 / 10 = a / 1000 := Nat.div_div_eq_div_mul a 100 10
  unfold toInt16; omega

theorem wi_t (a : Nat) : toUInt8 (((a % 100 : Nat) : Int).tdiv 10) = a / 10 % 10 := by
  unfold toUInt8
  rw [Int.tdiv_eq_ediv (by omega) (by norm_num)]
  omega

theorem wi_u4 (a : Nat) :
    toInt16 (((a % 100 : Nat) : Int) - ((a / 10 % 10 : Nat) : Int) * 10)
      = ((a % 10 : Nat) : Int) := by
  have d : a / 10 / 10 = a / 100 := Nat.div_div_eq_div_mul a 10 10
  unfold toInt16; omega

theorem wi_u (a : Nat) : toUInt8 (((a % 10 : Nat) : Int) + 48) = a % 10 + 48 := by
  unfold toUInt8; omega

theorem wi_c2 (a : Nat) : (a / 10000 > 0 ∨ a / 1000 % 10 > 0) ↔ a / 1000 > 0 := by omega

theorem wi_c3 (a : Nat) :
    (a / 10000 > 0 ∨ a / 1000 % 10 > 0 ∨ a / 100 % 10 > 0) ↔ a / 100 > 0 := by omega

theorem wi_c4 (a : Nat) :
    (a / 10000 > 0 ∨ a / 1000 % 10 > 0 ∨ a / 100 % 10 > 0 ∨ a / 10 % 10 > 0) ↔ a / 10 > 0 := by
  omega

theorem wi_c5 (a : Nat) (show_sign : Bool) :
    (a / 10000 > 0 ∨ a / 1000 % 10 > 0 ∨ a / 100 % 10 > 0 ∨ a / 10 % 10 > 0 ∨
      (!show_sign) = true) ↔ (a / 10 > 0 ∨ show_sign = false) := by
  have c4 := wi_c4 a
  constructor
  · rintro (h | h | h | h | h)
    · exact Or.inl (c4.1 (Or.inl h))
    · exact Or.inl (c4.1 (Or.inr (Or.inl h)))
    · exact Or.inl (c4.1 (Or.inr (Or.inr (Or.inl h))))
    · exact Or.inl (c4.1 (Or.inr (Or.inr (Or.inr h))))
    · exact Or.inr (by simpa using h)
  · rintro (h | h)
    · rcases c4.2 h with h | h | h | h
      · exact Or.inl h
      · exact Or.inr (Or.inl h)
      · exact Or.inr (Or.inr (Or.inl h))
      · exact Or.inr (Or.inr (Or.inr (Or.inl h)))
    · exact Or.inr (Or.inr (Or.inr (Or.inr (by simp [h]))))

theorem some_ite {α : Type} (c : Prop) [Decidable c] (A B : α) :
    (if c then some A else some B) = some (if c then A else B) := by
  split_ifs <;> rfl

theorem ite_append_self {α : Type} (c : Prop) [Decidable c] (A l : List α) :
    (if c then A ++ l else A) = A ++ (if c then l else []) := by
  split_ifs <;> simp

theorem ite_append_both {α : Type} (c : Prop) [Decidable c] (A l₁ l₂ : List α) :
    (if c then A ++ l₁ else A ++ l₂) = A ++ (if c then l₁ else l₂) := by
  split_ifs <;> rfl

theorem ite_ite_and {α : Type} (c₁ c₂ : Prop) [Decidable c₁] [Decidable c₂] (A B : α) :
    (if c₁ then (if c₂ then A else B) else B) = if c₁ ∧ c₂ then A else B := by
  split_ifs <;> simp_all

/-- The decimal decomposition of `lcd_write_int` when `|val| ≤ 32767`, the
range in which `u` holds `|val|`: the characters emitted, written with the
digits of `a = |val|`. -/
theorem lcd_write_int_chars_small (val : Int) (show_sign : Bool) (a : Nat)
    (ha : a ≤ 32767) (hval : val = a ∨ val = -(a : Int)) :
    lcd_write_int_chars val show_sign = some (
      (if val < 0 then [45] else []) ++
      (if show_sign = true ∧ val ≥ 0 then [43] else []) ++
      (if a / 10000 > 0 then [a / 10000 + 48] else []) ++
      (if a / 1000 > 0 then [a / 1000 % 10 + 48] else []) ++
      (if a / 100 > 0 then [a / 100 % 10 + 48] else if show_sign = false then [32] else []) ++
      (if a / 10 > 0 ∨ show_sign = false then [a / 10 % 10 + 48] else []) ++
      [a % 10 + 48]) := by
  have hmin : val ≠ -2147483648 := by rcases hval with rfl | rfl <;> omega
  have m1 : (a / 10000 + 48) % 256 = a / 10000 + 48 := by omega
  have m2 : (a / 1000 % 10 + 48) % 256 = a / 1000 % 10 + 48 := by omega
  have m3 : (a / 100 % 10 + 48) % 256 = a / 100 % 10 + 48 := by omega
  have m4 : (a / 10 % 10 + 48) % 256 = a / 10 % 10 + 48 := by omega
  unfold lcd_write_int_chars lcd_write_int_with
  rw [if_neg hmin]
  simp only [int16_abs val a ha hval, wi_tth a ha, wi_u1, wi_th, wi_u2, wi_h, wi_u3, wi_t,
    wi_u4, wi_u, m1, m2, m3, m4, wi_c2, wi_c3, wi_c5, log_char, some_ite, Option.some_bind,
    Bool.not_eq_true]
  simp only [ite_append_self, ite_append_both, ite_ite_and, List.nil_append]
  cases show_sign <;> rfl

theorem write_chars_append (W H : Nat) (fonts : Font → Nat → Nat) (colour : Nat) :
    ∀ (l₁ l₂ : List Nat) (st : State),
      write_chars W H fonts colour st (l₁ ++ l₂) =
        (write_chars W H fonts colour st l₁).bind fun st' =>
          write_chars W H fonts colour st' l₂ := by
  intro l₁
  induction l₁ with
  | nil => intro l₂ st; rfl
  | cons c cs ih =>
    intro l₂ st
    simp only [List.cons_append, write_chars]
    cases lcd_write_char W H fonts st c colour with
    | none => rfl
    | some st1 => simpa using ih l₂ st1

/-- One conditional call in `lcd_write_int`, on the driver state and on the
log of characters. -/
theorem write_int_step (W H : Nat) (fonts : Font → Nat → Nat) (colour : Nat) (st : State)
    (c : Prop) [Decidable c] (x : Nat)
    (k : State → Option State) (kl : List Nat → Option (List Nat))
    (hk : ∀ tr, (write_chars W H fonts colour st tr).bind k =
      (kl tr).bind (write_chars W H fonts colour st)) (tr : List Nat) :
    (write_chars W H fonts colour st tr).bind
        (fun s => (if c then lcd_write_char W H fonts s x colour else some s).bind k) =
      ((if c then log_char tr x 0 else some tr).bind kl).bind
        (write_chars W H fonts colour st) := by
  by_cases hc : c
  · simp only [if_pos hc, log_char, Option.some_bind]
    rw [← hk (tr ++ [x]), write_chars_append]
    cases write_chars W H fonts colour st tr with
    | none => rfl
    | some s =>
      simp only [Option.some_bind, write_chars]
      cases lcd_write_char W H fonts s x colour <;> rfl
  · simp only [if_neg hc, Option.some_bind]
    rw [← hk tr]

theorem write_int_last (W H : Nat) (fonts : Font → Nat → Nat) (colour : Nat) (st : State)
    (x : Nat) (tr : List Nat) :
    (write_chars W H fonts colour st tr).bind (fun s => lcd_write_char W H fonts s x colour) =
      (log_char tr x 0).bind (write_chars W H fonts colour st) := by
  simp only [log_char, Option.some_bind]
  rw [write_chars_append]
  cases write_chars W H fonts colour st tr with
  | none => rfl
  | some s =>
    simp only [Option.some_bind, write_chars]
    cases lcd_write_char W H fonts s x colour <;> rfl

theorem write_int_either (W H : Nat) (fonts : Font → Nat → Nat) (colour : Nat) (st : State)
    (c : Prop) [Decidable c] (x y : Nat)
    (k : State → Option State) (kl : List Nat → Option (List Nat))
    (hk : ∀ tr, (write_chars W H fonts colour st tr).bind k =
      (kl tr).bind (write_chars W H fonts colour st)) (tr : List Nat) :
    (write_chars W H fonts colour st tr).bind
        (fun s => (if c then lcd_write_char W H fonts s x colour
          else lcd_write_char W H fonts s y colour).bind k) =
      ((if c then log_char tr x 0 else log_char tr y 0).bind kl).bind
        (write_chars W H fonts colour st) := by
  by_cases hc : c
  · simp only [if_pos hc]
    have := write_int_step W H fonts colour st True x k kl hk tr
    simpa using this
  · simp only [if_neg hc]
    have := write_int_step W H fonts colour st True y k kl hk tr
    simpa using this

/-- The driver state after `lcd_write_int` is the one after `lcd_write_char`
on each of the logged characters in turn. -/
theorem lcd_write_int_eq_chars (W H : Nat) (fonts : Font → Nat → Nat) (st : State)
    (val : Int) (colour : Nat) (show_sign : Bool) :
    lcd_write_int W H fonts st val colour show_sign =
      (lcd_write_int_chars val show_sign).bind (write_chars W H fonts colour st) := by
  unfold lcd_write_int lcd_write_int_chars lcd_write_int_with
  by_cases hmin : val = -2147483648
  · rw [if_pos hmin, if_pos hmin]; rfl
  · rw [if_neg hmin, if_neg hmin]
    simp only []
    have start := fun k kl hk => write_int_step W H fonts colour st (val < 0) 45 k kl hk []
    simp only [write_chars, Option.some_bind] at start
    cases show_sign
    · simp only [Bool.false_eq_true, if_false, Bool.not_false, if_true, or_true,
        Option.some_bind]
      apply start
      intro tr
      apply write_int_step
      intro tr
      apply write_int_step
      intro tr
      apply write_int_either
      intro tr
      apply write_int_step W H fonts colour st True
      intro tr
      exact write_int_last W H fonts colour st _ tr
    · simp only [if_true, Bool.not_true, Bool.false_eq_true, if_false, or_false]
      apply start
      intro tr
      apply write_int_step
      intro tr
      apply write_int_step
      intro tr
      apply write_int_step
      intro tr
      apply write_int_step
      intro tr
      apply write_int_step
      intro tr
      exact write_int_last W H fonts colour st _ tr

/-- Inside the range of `u` (`|val| ≤ 32767`) the characters of
`lcd_write_int` are a sign (`'-'` iff `val < 0`, `'+'` iff `val ≥ 0` and
`show_sign`), at most one blank, and digit characters that read as `|val|` in
base 10, the last of them the units digit. -/
theorem lcd_write_int_decimal (val : Int) (show_sign : Bool)
    (hval : -32767 ≤ val ∧ val ≤ 32767) :
    ∃ sign blank digits : List Nat,
      lcd_write_int_chars val show_sign = some (sign ++ blank ++ digits) ∧
      sign = (if val < 0 then [45] else if show_sign = true then [43] else []) ∧
      (blank = [] ∨ blank = [32]) ∧
      (∀ d ∈ digits, 48 ≤ d ∧ d ≤ 57) ∧
      decimal_value digits = val.natAbs ∧
      digits.getLast? = some (48 + val.natAbs % 10) := by
  obtain ⟨a, ha⟩ : ∃ a : Nat, a = val.natAbs := ⟨_, rfl⟩
  have hle : a ≤ 32767 := by omega
  have hor : val = a ∨ val = -(a : Int) := by omega
  have d1 : a / 1000 / 10 = a / 10000 := Nat.div_div_eq_div_mul a 1000 10
  have d2 : a / 100 / 10 = a / 1000 := Nat.div_div_eq_div_mul a 100 10
  have d3 : a / 10 / 10 = a / 100 := Nat.div_div_eq_div_mul a 10 10
  rw [lcd_write_int_chars_small val show_sign a hle hor, ← ha]
  have hsign : ((if val < 0 then [45] else []) ++ if show_sign = true ∧ val ≥ 0 then [43] else [])
      = (if val < 0 then [45] else if show_sign = true then [43] else ([] : List Nat)) := by
    by_cases hv : val < 0
    · have : ¬ (show_sign = true ∧ val ≥ 0) := fun h => by omega
      rw [if_pos hv, if_pos hv, if_neg this]; rfl
    · have hge : val ≥ 0 := by omega
      rw [if_neg hv, if_neg hv]
      by_cases hs : show_sign = true
      · rw [if_pos ⟨hs, hge⟩, if_pos hs]; rfl
      · rw [if_neg (fun h => hs h.1), if_neg hs]; rfl
  rw [hsign]
  by_cases h100 : a / 100 > 0
  · have h10 : a / 10 > 0 := by omega
    refine ⟨_, [], (if a / 10000 > 0 then [a / 10000 + 48] else []) ++
      (if a / 1000 > 0 then [a / 1000 % 10 + 48] else []) ++
      [a / 100 % 10 + 48, a / 10 % 10 + 48, a % 10 + 48], ?_, rfl, Or.inl rfl, ?_, ?_, ?_⟩
    · rw [if_pos h100, if_pos (Or.inl h10)]
      simp only [List.append_assoc, List.nil_append, List.singleton_append, List.append_nil,
        List.cons_append]
    · intro d hd
      simp only [List.mem_append, List.mem_cons, List.mem_singleton, List.not_mem_nil,
        or_false] at hd
      rcases hd with (hd | hd) | hd
      · split_ifs at hd with hc
        · simp only [List.mem_singleton] at hd; omega
        · simp at hd
      · split_ifs at hd with hc
        · simp only [List.mem_singleton] at hd; omega
        · simp at hd
      · omega
    · unfold decimal_value
      by_cases hc1 : a / 10000 > 0
      · have hc2 : a / 1000 > 0 := by omega
        rw [if_pos hc1, if_pos hc2]
        simp only [List.singleton_append, List.cons_append, List.nil_append, List.foldl_cons,
          List.foldl_nil]
        omega
      · rw [if_neg hc1]
        by_cases hc2 : a / 1000 > 0
        · rw [if_pos hc2]
          simp only [List.nil_append, List.singleton_append, List.foldl_cons, List.foldl_nil]
          omega
        · rw [if_neg hc2]
          simp only [List.nil_append, List.foldl_cons, List.foldl_nil]
          omega
    · rw [List.getLast?_append_of_ne_nil _ (by simp)]
      simp [Nat.add_comm]
  · have z1 : ¬ a / 10000 > 0 := by omega
    have z2 : ¬ a / 1000 > 0 := by omega
    refine ⟨_, (if show_sign = false then [32] else []),
      (if a / 10 > 0 ∨ show_sign = false then [a / 10 % 10 + 48] else []) ++ [a % 10 + 48],
      ?_, rfl, ?_, ?_, ?_, ?_⟩
    · rw [if_neg z1, if_neg z2, if_neg h100]
      simp only [List.append_assoc, List.nil_append, List.append_nil]
    · by_cases hs : show_sign = false
      · rw [if_pos hs]; exact Or.inr rfl
      · rw [if_neg hs]; exact Or.inl rfl
    · intro d hd
      simp only [List.mem_append, List.mem_singleton] at hd
      rcases hd with hd | hd
      · split_ifs at hd with hc
        · simp only [List.mem_singleton] at hd; omega
        · simp at hd
      · omega
    · unfold decimal_value
      by_cases hc : a / 10 > 0 ∨ show_sign = false
      · rw [if_pos hc]
        simp only [List.singleton_append, List.foldl_cons, List.foldl_nil]
        omega
      · rw [if_neg hc]
        have : ¬ a / 10 > 0 := fun h => hc (Or.inl h)
        simp only [List.nil_append, List.foldl_cons, List.foldl_nil]
        omega
    · rw [List.getLast?_append_of_ne_nil _ (by simp)]
      simp [Nat.add_comm]

/-- Witness of `lcd_write_int_decimal`, at `val = 12345`. -/
theorem lcd_write_int_decimal_witness :
    ∃ sign blank digits : List Nat,
      lcd_write_int_chars 12345 false = some (sign ++ blank ++ digits) ∧
      sign = (if (12345 : Int) < 0 then [45] else if false = true then [43] else []) ∧
      (blank = [] ∨ blank = [32]) ∧
      (∀ d ∈ digits, 48 ≤ d ∧ d ≤ 57) ∧
      decimal_value digits = (12345 : Int).natAbs ∧
      digits.getLast? = some (48 + (12345 : Int).natAbs % 10) :=
  lcd_write_int_decimal 12345 false (by decide)

/-- C6, at a failing input: `lcd_write_int(40000, colour, false)`.  `u` is an
`int16_t`, so 40000 is stored as -25536, and the characters passed to
`lcd_write_char` are `.`, `'`, `g`, `1`, `2` and not `4`, `0`, `0`, `0`, `0`. -/
theorem lcd_write_int_overflow :
    lcd_write_int_chars 40000 false = some [46, 39, 103, 49, 50] ∧
    lcd_write_int_chars 40000 false ≠ some [52, 48, 48, 48, 48] ∧
    lcd_write_int_chars 12345 false = some [49, 50, 51, 52, 53] := by
  decide

/-- C7, with the cells the code emits. For `|val| < 100` and `show_sign = false`, `lcd_write_int`
emits, after a `'-'` when `val < 0`, exactly three characters: a blank, the
tens digit (also when it is 0) and the units digit. -/
theorem lcd_write_int_two_digits (val : Int) (hval : -100 < val ∧ val < 100) :
    lcd_write_int_chars val false =
      some ((if val < 0 then [45] else []) ++
        [32, 48 + val.natAbs / 10, 48 + val.natAbs % 10]) := by
  obtain ⟨a, ha⟩ : ∃ a : Nat, a = val.natAbs := ⟨_, rfl⟩
  have hor : val = a ∨ val = -(a : Int) := by omega
  rw [lcd_write_int_chars_small val false a (by omega) hor, ← ha]
  have z1 : ¬ a / 10000 > 0 := by omega
  have z2 : ¬ a / 1000 > 0 := by omega
  have z3 : ¬ a / 100 > 0 := by omega
  have e : a / 10 % 10 = a / 10 := by omega
  have hs : ¬ (false = true ∧ val ≥ 0) := fun h => Bool.false_ne_true h.1
  rw [if_neg hs, if_neg z1, if_neg z2, if_neg z3, if_pos rfl, if_pos (Or.inr rfl), e]
  simp [Nat.add_comm]

/-- Witness of C7: `lcd_write_int(-42, 1, false)` emits `'-'`,
`' '`, `'4'`, `'2'`. -/
theorem lcd_write_int_two_digits_witness :
    lcd_write_int_chars (-42) false = some [45, 32, 52, 50] :=
  lcd_write_int_two_digits (-42) (by decide)

/-- Counterexample to C7 as stated: `lcd_write_int(0, 1, false)` emits three
characters, `' '`, `'0'`, `'0'`, not the two `' '`, `'0'`. -/
theorem lcd_write_int_zero_counterexample :
    lcd_write_int_chars 0 false = some [32, 48, 48] ∧
    lcd_write_int_chars 0 false ≠ some [32, 48] := by
  decide

/-! ## Rounded rectangles -/


theorem or_and_left_self (a b : Nat) : (a ||| b) &&& a = a := by
  apply Nat.eq_of_testBit_eq
  intro i
  rw [Nat.testBit_and, Nat.testBit_or]
  cases a.testBit i <;> simp

theorem or_and_right_self (a b : Nat) : (a ||| b) &&& b = b := by
  apply Nat.eq_of_testBit_eq
  intro i
  rw [Nat.testBit_and, Nat.testBit_or]
  cases b.testBit i <;> simp

theorem pixel_on_blank (W n x y : Nat) : pixel_on W (List.replicate n 0) x y = false := by
  unfold pixel_on
  have h : (List.replicate n 0).getD (x + y / 8 * W) 0 = 0 := by
    rw [List.getD_eq_getElem?_getD, List.getElem?_replicate]
    split_ifs <;> rfl
  rw [h, Nat.zero_testBit]

/-- C11. With `flags = RECT_ROUNDED` alone, `lcd_draw_rect` on an in-panel
rectangle `x1 ≤ x2`, `y1 ≤ y2` gives the value `colour != 0` to the border
pixels of the box other than the four corners, and leaves the four corners,
the interior and everything outside the box as they were. -/
theorem lcd_draw_rect_rounded (LCD_WIDTH LCD_HEIGHT RECT_FILL RECT_ROUNDED : Nat) (st : State)
    (x1 y1 x2 y2 colour : Nat)
    (hW : LCD_WIDTH ≤ 255) (hH : LCD_HEIGHT ≤ 255) (h8 : 8 ∣ LCD_HEIGHT)
    (hlen : st.lcd_buffer.length = LCD_WIDTH * LCD_HEIGHT / 8)
    (hR : RECT_ROUNDED ≠ 0) (hFR : RECT_ROUNDED &&& RECT_FILL = 0)
    (hx : x1 ≤ x2) (hy : y1 ≤ y2) (hx2 : x2 < LCD_WIDTH) (hy2 : y2 < LCD_HEIGHT) :
    ∃ st', lcd_draw_rect LCD_WIDTH RECT_FILL RECT_ROUNDED st x1 y1 x2 y2 colour RECT_ROUNDED
        = some st' ∧
      (∀ x y, x1 ≤ x → x ≤ x2 → y1 ≤ y → y ≤ y2 →
        (x = x1 ∨ x = x2 ∨ y = y1 ∨ y = y2) →
        ¬ ((x = x1 ∧ y = y1) ∨ (x = x2 ∧ y = y1) ∨ (x = x1 ∧ y = y2) ∨ (x = x2 ∧ y = y2)) →
        (pixel_on LCD_WIDTH st'.lcd_buffer x y = true ↔ colour ≠ 0)) ∧
      (∀ x y, x < LCD_WIDTH → y < LCD_HEIGHT →
        ((x = x1 ∧ y = y1) ∨ (x = x2 ∧ y = y1) ∨ (x = x1 ∧ y = y2) ∨ (x = x2 ∧ y = y2)) →
        pixel_on LCD_WIDTH st'.lcd_buffer x y = pixel_on LCD_WIDTH st.lcd_buffer x y) ∧
      (∀ x y, x < LCD_WIDTH → y < LCD_HEIGHT →
        ¬ (x = x1 ∨ x = x2 ∨ y = y1 ∨ y = y2) →
        pixel_on LCD_WIDTH st'.lcd_buffer x y = pixel_on LCD_WIDTH st.lcd_buffer x y) ∧
      (∀ x y, x < LCD_WIDTH → y < LCD_HEIGHT → ¬ (x1 ≤ x ∧ x ≤ x2 ∧ y1 ≤ y ∧ y ≤ y2) →
        pixel_on LCD_WIDTH st'.lcd_buffer x y = pixel_on LCD_WIDTH st.lcd_buffer x y) := by
  obtain ⟨buf', e, _, hpix⟩ := lcd_draw_rect_effect LCD_WIDTH LCD_HEIGHT RECT_FILL RECT_ROUNDED
    st x1 y1 x2 y2 colour RECT_ROUNDED hW hH h8 hlen hx hy hx2 hy2
  have hRR : RECT_ROUNDED &&& RECT_ROUNDED ≠ 0 := by rwa [Nat.and_self]
  have hRF : ¬ (RECT_ROUNDED &&& RECT_FILL ≠ 0) := fun h => h hFR
  refine ⟨_, e, ?_, ?_, ?_, ?_⟩
  · intro x y h1 h2 h3 h4 hb hc
    have hp := hpix x y (by omega) (by omega)
    rw [if_pos] at hp
    · simp [hp]
    · refine ⟨⟨h1, h2, h3, h4⟩, ?_, fun _ => hc⟩
      rcases hb with hb | hb | hb | hb
      · exact Or.inr (Or.inr (Or.inr (Or.inl hb)))
      · exact Or.inr (Or.inr (Or.inr (Or.inr hb)))
      · exact Or.inr (Or.inl hb)
      · exact Or.inr (Or.inr (Or.inl hb))
  · intro x y hxW hyH hc
    have hp := hpix x y hxW hyH
    rw [if_neg] at hp
    · exact hp
    · rintro ⟨_, _, hnc⟩
      exact hnc hRR hc
  · intro x y hxW hyH hnb
    have hp := hpix x y hxW hyH
    rw [if_neg] at hp
    · exact hp
    · rintro ⟨_, hb, _⟩
      apply hnb
      rcases hb with hb | hb | hb | hb | hb
      · exact absurd hb hRF
      · exact Or.inr (Or.inr (Or.inl hb))
      · exact Or.inr (Or.inr (Or.inr hb))
      · exact Or.inl hb
      · exact Or.inr (Or.inl hb)
  · intro x y hxW hyH hout
    have hp := hpix x y hxW hyH
    rw [if_neg (fun h => hout h.1)] at hp
    exact hp

/-- Witness of C11: the rounded outline of `(2,2,10,10)` on a blank 128x64
panel sets the edge pixel `(3, 2)` and leaves the corner `(2, 2)` off. -/
theorem lcd_draw_rect_rounded_witness :
    ∃ st', lcd_draw_rect 128 2 1 (State.initial (List.replicate 1024 0)) 2 2 10 10 1 1
        = some st' ∧
      pixel_on 128 st'.lcd_buffer 3 2 = true ∧
      pixel_on 128 st'.lcd_buffer 2 2 = false := by
  obtain ⟨st', h, hedge, hcorner, _, _⟩ :=
    lcd_draw_rect_rounded 128 64 2 1 (State.initial (List.replicate 1024 0)) 2 2 10 10 1
      (by decide) (by decide) (by decide) (List.length_replicate 1024 0) (by decide)
      (by decide) (by decide) (by decide) (by decide) (by decide)
  refine ⟨st', h, ?_, ?_⟩
  · exact (hedge 3 2 (by decide) (by decide) (by decide) (by decide) (by decide)
      (by decide)).2 (by decide)
  · rw [hcorner 2 2 (by decide) (by decide) (by decide)]
    exact pixel_on_blank 128 1024 _ _

/-- C12, as the code has it. With `flags = RECT_FILL | RECT_ROUNDED`,
`lcd_draw_rect` on an in-panel rectangle `x1 ≤ x2`, `y1 ≤ y2` gives the value
`colour != 0` to every pixel of the box except the four corners, which it
leaves as they were, like everything outside the box. -/
theorem lcd_draw_rect_fill_rounded (LCD_WIDTH LCD_HEIGHT RECT_FILL RECT_ROUNDED : Nat)
    (st : State) (x1 y1 x2 y2 colour : Nat)
    (hW : LCD_WIDTH ≤ 255) (hH : LCD_HEIGHT ≤ 255) (h8 : 8 ∣ LCD_HEIGHT)
    (hlen : st.lcd_buffer.length = LCD_WIDTH * LCD_HEIGHT / 8)
    (hF : RECT_FILL ≠ 0) (hR : RECT_ROUNDED ≠ 0)
    (hx : x1 ≤ x2) (hy : y1 ≤ y2) (hx2 : x2 < LCD_WIDTH) (hy2 : y2 < LCD_HEIGHT) :
    ∃ st', lcd_draw_rect LCD_WIDTH RECT_FILL RECT_ROUNDED st x1 y1 x2 y2 colour
        (RECT_FILL ||| RECT_ROUNDED) = some st' ∧
      (∀ x y, x1 ≤ x → x ≤ x2 → y1 ≤ y → y ≤ y2 →
        ¬ ((x = x1 ∧ y = y1) ∨ (x = x2 ∧ y = y1) ∨ (x = x1 ∧ y = y2) ∨ (x = x2 ∧ y = y2)) →
        (pixel_on LCD_WIDTH st'.lcd_buffer x y = true ↔ colour ≠ 0)) ∧
      (∀ x y, x < LCD_WIDTH → y < LCD_HEIGHT →
        ((x = x1 ∧ y = y1) ∨ (x = x2 ∧ y = y1) ∨ (x = x1 ∧ y = y2) ∨ (x = x2 ∧ y = y2)) →
        pixel_on LCD_WIDTH st'.lcd_buffer x y = pixel_on LCD_WIDTH st.lcd_buffer x y) ∧
      (∀ x y, x < LCD_WIDTH → y < LCD_HEIGHT → ¬ (x1 ≤ x ∧ x ≤ x2 ∧ y1 ≤ y ∧ y ≤ y2) →
        pixel_on LCD_WIDTH st'.lcd_buffer x y = pixel_on LCD_WIDTH st.lcd_buffer x y) := by
  obtain ⟨buf', e, _, hpix⟩ := lcd_draw_rect_effect LCD_WIDTH LCD_HEIGHT RECT_FILL RECT_ROUNDED
    st x1 y1 x2 y2 colour (RECT_FILL ||| RECT_ROUNDED) hW hH h8 hlen hx hy hx2 hy2
  have hFF : (RECT_FILL ||| RECT_ROUNDED) &&& RECT_FILL ≠ 0 := by
    rwa [or_and_left_self]
  have hRR : (RECT_FILL ||| RECT_ROUNDED) &&& RECT_ROUNDED ≠ 0 := by
    rwa [or_and_right_self]
  refine ⟨_, e, ?_, ?_, ?_⟩
  · intro x y h1 h2 h3 h4 hc
    have hp := hpix x y (by omega) (by omega)
    rw [if_pos ⟨⟨h1, h2, h3, h4⟩, Or.inl hFF, fun _ => hc⟩] at hp
    simp [hp]
  · intro x y hxW hyH hc
    have hp := hpix x y hxW hyH
    rw [if_neg] at hp
    · exact hp
    · rintro ⟨_, _, hnc⟩
      exact hnc hRR hc
  · intro x y hxW hyH hout
    have hp := hpix x y hxW hyH
    rw [if_neg (fun h => hout h.1)] at hp
    exact hp

/-- Witness of C12: `(2,2,10,10)` filled and rounded on a blank 128x64 panel
sets the inner pixel `(5, 5)` and leaves the corner `(10, 10)` off. -/
theorem lcd_draw_rect_fill_rounded_witness :
    ∃ st', lcd_draw_rect 128 2 1 (State.initial (List.replicate 1024 0)) 2 2 10 10 1 (2 ||| 1)
        = some st' ∧
      pixel_on 128 st'.lcd_buffer 5 5 = true ∧
      pixel_on 128 st'.lcd_buffer 10 10 = false := by
  obtain ⟨st', h, hin, hcorner, _⟩ :=
    lcd_draw_rect_fill_rounded 128 64 2 1 (State.initial (List.replicate 1024 0)) 2 2 10 10 1
      (by decide) (by decide) (by decide) (List.length_replicate 1024 0) (by decide)
      (by decide) (by decide) (by decide) (by decide) (by decide)
  refine ⟨st', h, ?_, ?_⟩
  · exact (hin 5 5 (by decide) (by decide) (by decide) (by decide) (by decide)).2 (by decide)
  · rw [hcorner 10 10 (by decide) (by decide) (by decide)]
    exact pixel_on_blank 128 1024 _ _

/-- Counterexample to C12 as stated: on a blank 128x64 panel
`lcd_draw_rect(2,2,10,10,1,FILL|ROUNDED)` leaves the corner `(2, 2)` off, where
`lcd_draw_rect(2,2,10,10,1,FILL)` sets it; the two frame buffers differ. -/
theorem lcd_draw_rect_fill_rounded_counterexample :
    ∃ st₁ st₂,
      lcd_draw_rect 128 2 1 (State.initial (List.replicate 1024 0)) 2 2 10 10 1 (2 ||| 1)
        = some st₁ ∧
      lcd_draw_rect 128 2 1 (State.initial (List.replicate 1024 0)) 2 2 10 10 1 2
        = some st₂ ∧
      pixel_on 128 st₁.lcd_buffer 2 2 = false ∧
      pixel_on 128 st₂.lcd_buffer 2 2 = true ∧
      st₁.lcd_buffer ≠ st₂.lcd_buffer := by
  obtain ⟨buf₁, e₁, _, h₁⟩ := lcd_draw_rect_effect 128 64 2 1
    (State.initial (List.replicate 1024 0)) 2 2 10 10 1 (2 ||| 1)
    (by decide) (by decide) (by decide) (List.length_replicate 1024 0)
    (by decide) (by decide) (by decide) (by decide)
  obtain ⟨buf₂, e₂, _, h₂⟩ := lcd_draw_rect_effect 128 64 2 1
    (State.initial (List.replicate 1024 0)) 2 2 10 10 1 2
    (by decide) (by decide) (by decide) (List.length_replicate 1024 0)
    (by decide) (by decide) (by decide) (by decide)
  have p₁ : pixel_on 128 buf₁ 2 2 = false := by
    rw [h₁ 2 2 (by decide) (by decide), if_neg (by decide)]
    exact pixel_on_blank 128 1024 _ _
  have p₂ : pixel_on 128 buf₂ 2 2 = true := by
    rw [h₂ 2 2 (by decide) (by decide), if_pos (by decide)]
    rfl
  refine ⟨_, _, e₁, e₂, p₁, p₂, ?_⟩
  intro h
  simp only at h
  rw [h, p₂] at p₁
  exact Bool.noConfusion p₁

/-! ## Lines -/


theorem div_step (k i : Nat) :
    (k + 1) / i = k / i + (if k + 1 > 0 ∧ i > 0 ∧ (k + 1) % i = 0 then 1 else 0) := by
  rw [Nat.succ_div]
  by_cases hi : i > 0
  · by_cases hd : i ∣ k + 1
    · rw [if_pos hd, if_pos ⟨Nat.succ_pos k, hi, Nat.mod_eq_zero_of_dvd hd⟩]
    · rw [if_neg hd, if_neg (fun h => hd (Nat.dvd_of_mod_eq_zero h.2.2))]
  · have h0 : i = 0 := by omega
    subst h0
    have hd : ¬ (0 ∣ k + 1) := by simp
    rw [if_neg hd, if_neg (fun h => hi h.2.1)]

theorem line_advance (a step i : Nat) (h : a + step / i < 256) :
    (if step > 0 ∧ i > 0 ∧ step % i = 0 then (a + (step - 1) / i + 1) % 256
      else a + (step - 1) / i) = a + step / i := by
  cases step with
  | zero => simp
  | succ k =>
    have hd := div_step k i
    simp only [Nat.add_sub_cancel]
    split_ifs with hc
    · rw [if_pos hc] at hd
      rw [Nat.mod_eq_of_lt (by omega)]
      omega
    · rw [if_neg hc] at hd
      omega

theorem draw_line_loop_eq {σ : Type} (sp : SetPixel σ) (m ix iy colour x1 y1 : Nat)
    (hm : m < 255) (hx : x1 + m < 256) (hy : y1 + m < 256) :
    ∀ (n fuel step : Nat) (s : σ), step + n = m + 1 → n < fuel →
      lcd_draw_line_loop sp m ix iy colour fuel step
          (x1 + (step - 1) / ix) (y1 + (step - 1) / iy) s =
        plotAll sp s ((List.range' step n).map fun k => (x1 + k / ix, y1 + k / iy, colour)) := by
  intro n
  induction n with
  | zero =>
    intro fuel step s hs hf
    obtain ⟨f, rfl⟩ : ∃ f, fuel = f + 1 := ⟨fuel - 1, by omega⟩
    have : ¬ step ≤ m := by omega
    simp [lcd_draw_line_loop, this, plotAll]
  | succ n ih =>
    intro fuel step s hs hf
    obtain ⟨f, rfl⟩ : ∃ f, fuel = f + 1 := ⟨fuel - 1, by omega⟩
    have hle : step ≤ m := by omega
    have hmod : (step + 1) % 256 = step + 1 := Nat.mod_eq_of_lt (by omega)
    have hxa := line_advance x1 step ix
      (lt_of_le_of_lt (Nat.add_le_add_left ((Nat.div_le_self _ _).trans hle) _) hx)
    have hya := line_advance y1 step iy
      (lt_of_le_of_lt (Nat.add_le_add_left ((Nat.div_le_self _ _).trans hle) _) hy)
    rw [List.range'_succ, List.map_cons, plotAll_cons]
    simp only [lcd_draw_line_loop, if_pos hle, hmod, hxa, hya]
    have ih' := fun a => ih f (step + 1) a (by omega) (by omega)
    simp only [Nat.add_sub_cancel] at ih'
    simp only [ih']

/-- The calls of `lcd_draw_line` in closed form, over any pixel-setting
routine, when neither extent is zero: one call for each step `0 .. max_steps`. -/
theorem lcd_draw_line_with_eq {σ : Type} (sp : SetPixel σ) (s : σ)
    (x1 y1 x2 y2 colour m ix iy : Nat)
    (hx : x1 < x2) (hy : y1 < y2)
    (hm : m = max (x2 - x1) (y2 - y1)) (hix : ix = m / (x2 - x1)) (hiy : iy = m / (y2 - y1))
    (hm255 : m < 255) (hxm : x1 + m < 256) (hym : y1 + m < 256) :
    lcd_draw_line_with sp s x1 y1 x2 y2 colour =
      plotAll sp s ((List.range (m + 1)).map fun k =>
        (x1 + (if ix > 0 then k / ix else 0), y1 + (if iy > 0 then k / iy else 0), colour)) := by
  have hg : ¬ (x1 > x2 ∨ y1 > y2) := by omega
  have hmax : (if x2 - x1 > y2 - y1 then x2 - x1 else y2 - y1) = m := by
    rw [hm]; split_ifs <;> omega
  have hfun : (fun k => (x1 + (if ix > 0 then k / ix else 0),
      y1 + (if iy > 0 then k / iy else 0), colour)) =
      fun k => (x1 + k / ix, y1 + k / iy, colour) := by
    funext k
    have e1 : (if ix > 0 then k / ix else 0) = k / ix := by
      split_ifs with h
      · rfl
      · have : ix = 0 := by omega
        rw [this, Nat.div_zero]
    have e2 : (if iy > 0 then k / iy else 0) = k / iy := by
      split_ifs with h
      · rfl
      · have : iy = 0 := by omega
        rw [this, Nat.div_zero]
    rw [e1, e2]
  unfold lcd_draw_line_with
  rw [if_neg hg, hfun, List.range_eq_range']
  simp only [hmax, ← hix, ← hiy]
  rw [if_neg (by omega), if_neg (by omega)]
  have := draw_line_loop_eq sp m ix iy colour x1 y1 hm255 hxm hym (m + 1) 257 0 s
    (by omega) (by omega)
  simpa using this

/-- A line with a zero extent: `lcd_draw_line` divides by zero, whatever the
pixel-setting routine. -/
theorem lcd_draw_line_with_zero {σ : Type} (sp : SetPixel σ) (s : σ)
    (x1 y1 x2 y2 colour : Nat) (hx : x1 ≤ x2) (hy : y1 ≤ y2) (h0 : x1 = x2 ∨ y1 = y2) :
    lcd_draw_line_with sp s x1 y1 x2 y2 colour = none := by
  have hg : ¬ (x1 > x2 ∨ y1 > y2) := by omega
  unfold lcd_draw_line_with
  rw [if_neg hg]
  simp only
  by_cases hdx : x2 - x1 = 0
  · rw [if_pos hdx]
  · rw [if_neg hdx, if_pos (by omega)]

/-- The steps of a line whose two extents are positive.  For in-panel end
points with `x1 < x2` and `y1 < y2`, with `m = max(dx, dy)`, `ix = m / dx` and
`iy = m / dy`, `lcd_draw_line` makes exactly `m + 1` calls of `lcd_set_pixel`,
and the call of step `s` is at `(x1 + s / ix, y1 + s / iy)`. -/
theorem lcd_draw_line_steps (LCD_WIDTH LCD_HEIGHT x1 y1 x2 y2 colour m ix iy : Nat)
    (hWH : LCD_WIDTH + LCD_HEIGHT ≤ 256)
    (hx : x1 < x2) (hy : y1 < y2) (hx2 : x2 < LCD_WIDTH) (hy2 : y2 < LCD_HEIGHT)
    (hm : m = max (x2 - x1) (y2 - y1)) (hix : ix = m / (x2 - x1)) (hiy : iy = m / (y2 - y1)) :
    ∃ calls, lcd_draw_line_calls x1 y1 x2 y2 colour = some calls ∧
      calls.length = m + 1 ∧
      ∀ s, s ≤ m → calls[s]? =
        some (x1 + (if ix > 0 then s / ix else 0), y1 + (if iy > 0 then s / iy else 0),
          colour) := by
  have hm255 : m < 255 := by omega
  refine ⟨(List.range (m + 1)).map fun k =>
    (x1 + (if ix > 0 then k / ix else 0), y1 + (if iy > 0 then k / iy else 0), colour),
    ?_, ?_, ?_⟩
  · unfold lcd_draw_line_calls
    rw [lcd_draw_line_with_eq log_pixel [] x1 y1 x2 y2 colour m ix iy hx hy hm hix hiy hm255
      (by omega) (by omega), plotAll_log, List.nil_append]
  · simp
  · intro s hs
    simp [List.getElem?_map, List.getElem?_range (show s < m + 1 by omega)]

/-- An instance of the steps of a line: `lcd_draw_line(0, 0, 5, 2, 1)` has
`m = 5`, `ix = 1`, `iy = 2` and makes six calls, the fourth at `(3, 1)`. -/
theorem lcd_draw_line_steps_instance :
    ∃ calls, lcd_draw_line_calls 0 0 5 2 1 = some calls ∧ calls.length = 6 ∧
      calls[3]? = some (3, 1, 1) := by
  obtain ⟨calls, h, hl, hs⟩ := lcd_draw_line_steps 128 64 0 0 5 2 1 5 1 2
    (by decide) (by decide) (by decide) (by decide) (by decide) (by decide) (by decide)
    (by decide)
  exact ⟨calls, h, hl, hs 3 (by decide)⟩

/-- C19, at failing inputs. For a line with `x1 = x2` or `y1 = y2`
`lcd_draw_line` computes `max_steps / 0`, which is undefined: the horizontal
line `lcd_draw_line(0, 0, 5, 0, 1)`, the vertical line
`lcd_draw_line(3, 1, 3, 7, 1)` and the single point `lcd_draw_line(4, 4, 4, 4, 1)`
make no defined sequence of `lcd_set_pixel` calls, where the six, seven and one
calls of the step formula are expected, and the call on any driver state of a
128-column panel has no result. -/
theorem lcd_draw_line_divides_by_zero :
    lcd_draw_line_calls 0 0 5 0 1 = none ∧
    lcd_draw_line_calls 3 1 3 7 1 = none ∧
    lcd_draw_line_calls 4 4 4 4 1 = none ∧
    (∀ st, lcd_draw_line 128 st 0 0 5 0 1 = none) ∧
    (∀ st, lcd_draw_line 128 st 3 1 3 7 1 = none) := by
  refine ⟨?_, ?_, ?_, ?_, ?_⟩
  · exact lcd_draw_line_with_zero log_pixel [] 0 0 5 0 1 (by decide) (by decide) (by decide)
  · exact lcd_draw_line_with_zero log_pixel [] 3 1 3 7 1 (by decide) (by decide) (by decide)
  · exact lcd_draw_line_with_zero log_pixel [] 4 4 4 4 1 (by decide) (by decide) (by decide)
  · intro st
    unfold lcd_draw_line
    rw [lcd_draw_line_with_zero _ _ 0 0 5 0 1 (by decide) (by decide) (by decide)]
    rfl
  · intro st
    unfold lcd_draw_line
    rw [lcd_draw_line_with_zero _ _ 3 1 3 7 1 (by decide) (by decide) (by decide)]
    rfl

set_option maxRecDepth 100000 in
/-- C13, at failing inputs. `lcd_draw_line(0, 0, 2, 3, 1)` calls `lcd_set_pixel`
at `(0,0)`, `(1,1)`, `(2,2)`, `(3,3)`: the last pixel is not `(2, 3)` and lies
outside the box of the two end points.  On a 128x64 panel
`lcd_draw_line(125, 60, 127, 63, 1)` ends at `(128, 63)`, whose byte is one
past the end of the frame buffer, so the call has no defined result. -/
theorem lcd_draw_line_overshoots :
    lcd_draw_line_calls 0 0 2 3 1 = some [(0, 0, 1), (1, 1, 1), (2, 2, 1), (3, 3, 1)] ∧
    lcd_draw_line_calls 125 60 127 63 1
      = some [(125, 60, 1), (126, 61, 1), (127, 62, 1), (128, 63, 1)] ∧
    128 + (63 / 8) * 128 = 128 * 64 / 8 ∧
    lcd_draw_line 128 (State.initial (List.replicate 1024 0)) 125 60 127 63 1 = none := by
  refine ⟨by decide, by decide, by decide, ?_⟩
  decide

/-! ## Safety of glyph rendering -/

/-- C20. When `lcd_write_char` passes its bounds guard, whatever the font,
every `lcd_set_pixel` call it makes is at `(cursor_x + x, cursor_y + y)` with
`x ≤ char_width` and `y ≤ char_height`, computed without 8-bit wrap-around,
has `x < LCD_WIDTH` and `y < LCD_HEIGHT`, and addresses a byte inside the frame
buffer; the call has a result, the frame buffer after these writes. -/
theorem lcd_write_char_safe (LCD_WIDTH LCD_HEIGHT : Nat) (fonts : Font → Nat → Nat)
    (st : State) (c colour : Nat)
    (hW : LCD_WIDTH ≤ 255) (hH : LCD_HEIGHT ≤ 255) (h8 : 8 ∣ LCD_HEIGHT)
    (hlen : st.lcd_buffer.length = LCD_WIDTH * LCD_HEIGHT / 8)
    (hgx : st.cursor_x + st.char_width < LCD_WIDTH)
    (hgy : st.cursor_y + st.char_height < LCD_HEIGHT) :
    ∃ calls st', lcd_write_char_calls LCD_WIDTH LCD_HEIGHT fonts st c colour = some calls ∧
      (∀ p ∈ calls,
        (∃ x y, x ≤ st.char_width ∧ y ≤ st.char_height ∧
          p.1 = st.cursor_x + x ∧ p.2.1 = st.cursor_y + y) ∧
        p.1 < LCD_WIDTH ∧ p.2.1 < LCD_HEIGHT ∧
        p.1 + (p.2.1 / 8) * LCD_WIDTH < LCD_WIDTH * LCD_HEIGHT / 8) ∧
      lcd_write_char LCD_WIDTH LCD_HEIGHT fonts st c colour = some st' ∧
      plotAll (lcd_set_pixel LCD_WIDTH) st.lcd_buffer calls = some st'.lcd_buffer := by
  have mx : ∀ x, x ≤ st.char_width → (st.cursor_x + x) % 256 = st.cursor_x + x :=
    fun x hx => Nat.mod_eq_of_lt (by omega)
  have my : ∀ y, y ≤ st.char_height → (st.cursor_y + y) % 256 = st.cursor_y + y :=
    fun y hy => Nat.mod_eq_of_lt (by omega)
  cases hg : (if st.font = Font.font_large then large_index c else some c) with
  | none =>
    refine ⟨[], st, ?_, ?_, ?_, rfl⟩
    · unfold lcd_write_char_calls
      rw [if_neg (by omega), if_neg (by omega)]
      simp only [hg]
    · intro p hp
      simp at hp
    · unfold lcd_write_char
      rw [if_neg (by omega), if_neg (by omega)]
      simp only [hg]
  | some g =>
    have hcoord : ∀ p ∈ glyph_scan (fonts st.font) st g colour ++ gap_scan st colour,
        ∃ x y, x ≤ st.char_width ∧ y ≤ st.char_height ∧
          p.1 = st.cursor_x + x ∧ p.2.1 = st.cursor_y + y := by
      intro p hp
      rcases List.mem_append.1 hp with h | h
      · obtain ⟨x, y, hx, hy, rfl⟩ := (mem_glyph_scan ..).1 h
        exact ⟨x, y, by omega, hy, mx x (by omega), my y hy⟩
      · obtain ⟨y, hy, rfl⟩ := (mem_gap_scan ..).1 h
        exact ⟨st.char_width, y, le_refl _, hy, mx _ (le_refl _), my y hy⟩
    obtain ⟨buf', e, l, _⟩ :=
      lcd_write_char_accept LCD_WIDTH LCD_HEIGHT fonts st c colour g hW hH h8 hlen hgx hgy hg
    have hin : ∀ p ∈ glyph_scan (fonts st.font) st g colour ++ gap_scan st colour,
        p.1 < LCD_WIDTH ∧ p.2.1 < LCD_HEIGHT := by
      intro p hp
      obtain ⟨x, y, hx, hy, e1, e2⟩ := hcoord p hp
      omega
    refine ⟨glyph_scan (fonts st.font) st g colour ++ gap_scan st colour, _, ?_, ?_, e, ?_⟩
    · unfold lcd_write_char_calls
      rw [if_neg (by omega), if_neg (by omega)]
      simp only [hg]
      rw [lcd_write_char_pixels_eq _ fonts st g colour _ (by omega) (by omega), plotAll_log,
        List.nil_append]
    · intro p hp
      obtain ⟨h1, h2⟩ := hin p hp
      exact ⟨hcoord p hp, h1, h2, index_lt LCD_WIDTH LCD_HEIGHT p.1 p.2.1 h8 h1 h2⟩
    · have e2 := e
      unfold lcd_write_char at e2
      rw [if_neg (by omega), if_neg (by omega)] at e2
      simp only [hg] at e2
      rw [lcd_write_char_pixels_eq _ fonts st g colour _ (by omega) (by omega)] at e2
      cases hp : plotAll (lcd_set_pixel LCD_WIDTH) st.lcd_buffer
          (glyph_scan (fonts st.font) st g colour ++ gap_scan st colour) with
      | none => rw [hp] at e2; simp at e2
      | some b =>
        rw [hp] at e2
        simp only [Option.some_bind, Option.some.injEq] at e2
        have := congrArg State.lcd_buffer e2
        simp only at this
        rw [this]

/-- Witness of C20: an `'8'` of the large font at the origin of a blank 128x64
panel makes 12 * 16 calls, all inside the panel. -/
theorem lcd_write_char_safe_witness :
    ∃ calls st', lcd_write_char_calls 128 64 (fun _ _ => 0xAA)
        (lcd_set_char_size (State.initial (List.replicate 1024 0))
          LCD_CHAR_SIZE.LCD_CHAR_SIZE_MEDIUM) 56 1 = some calls ∧
      (∀ p ∈ calls, p.1 < 128 ∧ p.2.1 < 64) ∧
      lcd_write_char 128 64 (fun _ _ => 0xAA)
        (lcd_set_char_size (State.initial (List.replicate 1024 0))
          LCD_CHAR_SIZE.LCD_CHAR_SIZE_MEDIUM) 56 1 = some st' := by
  obtain ⟨calls, st', h, hp, hw, _⟩ := lcd_write_char_safe 128 64 (fun _ _ => 0xAA)
    (lcd_set_char_size (State.initial (List.replicate 1024 0))
      LCD_CHAR_SIZE.LCD_CHAR_SIZE_MEDIUM) 56 1
    (by decide) (by decide) (by decide) (List.length_replicate 1024 0) (by decide) (by decide)
  exact ⟨calls, st', h, fun p hpm => ⟨(hp p hpm).2.1, (hp p hpm).2.2.1⟩, hw⟩

/-! ## Display bus -/

theorem testBit_low_of_lt (b i : Nat) (hb : b < 256) (hi : 8 ≤ i) : b.testBit i = false := by
  apply Nat.testBit_lt_two_pow
  calc b < 2 ^ 8 := hb
    _ ≤ 2 ^ i := Nat.pow_le_pow_right (by norm_num) hi

theorem mod_65536_testBit (v i : Nat) (hi : i < 16) : (v % 65536).testBit i = v.testBit i := by
  rw [show (65536 : Nat) = 2 ^ 16 by norm_num, Nat.testBit_mod_two_pow]
  simp [hi]

/-- The second write of a strobe: E high, CS1 low, the byte on D0-D7. -/
theorem strobe_high (g b : Nat) (hb : b < 256) (hg : ∀ i, i < 8 → g.testBit i = false) :
    let w := (((g ||| b) &&& (0xFFFF ^^^ LCD_CS1)) ||| LCD_RD) % 65536
    w.testBit 8 = true ∧ w.testBit 12 = false ∧ w.testBit 10 = g.testBit 10 ∧ w % 256 = b := by
  intro w
  have h8 : w.testBit 8 = true := by
    simp only [w, mod_65536_testBit _ 8 (by norm_num), Nat.testBit_or, Nat.testBit_and]
    have : LCD_RD.testBit 8 = true := by decide
    simp [this]
  have h12 : w.testBit 12 = false := by
    simp only [w, mod_65536_testBit _ 12 (by norm_num), Nat.testBit_or, Nat.testBit_and]
    have h1 : LCD_RD.testBit 12 = false := by decide
    have h2 : (0xFFFF ^^^ LCD_CS1).testBit 12 = false := by decide
    simp [h1, h2]
  have h10 : w.testBit 10 = g.testBit 10 := by
    simp only [w, mod_65536_testBit _ 10 (by norm_num), Nat.testBit_or, Nat.testBit_and]
    have h1 : LCD_RD.testBit 10 = false := by decide
    have h2 : (0xFFFF ^^^ LCD_CS1).testBit 10 = true := by decide
    simp [h1, h2, testBit_low_of_lt b 10 hb (by norm_num)]
  refine ⟨h8, h12, h10, ?_⟩
  apply Nat.eq_of_testBit_eq
  intro i
  rw [show (256 : Nat) = 2 ^ 8 by norm_num, Nat.testBit_mod_two_pow]
  by_cases hi : i < 8
  · have h1 : LCD_RD.testBit i = false := by
      interval_cases i <;> decide
    have h2 : (0xFFFF ^^^ LCD_CS1).testBit i = true := by
      interval_cases i <;> decide
    simp only [w, mod_65536_testBit _ i (by omega), Nat.testBit_or, Nat.testBit_and, h1, h2,
      hg i hi, hi]
    simp
  · simp [hi, testBit_low_of_lt b i hb (by omega)]

/-- The three writes of one strobe carry exactly one byte to the controller. -/
theorem strobe_bytes (g b : Nat) (hb : b < 256) (hg : ∀ i, i < 8 → g.testBit i = false)
    (h8 : g.testBit 8 = false) :
    bus_bytes [(g ||| b) % 65536,
      (((g ||| b) &&& (0xFFFF ^^^ LCD_CS1)) ||| LCD_RD) % 65536,
      (((((g ||| b) &&& (0xFFFF ^^^ LCD_CS1)) ||| LCD_RD) ||| LCD_CS1) &&&
        (0xFFFF ^^^ LCD_RD)) % 65536] = [(g.testBit 10, b)] := by
  obtain ⟨s8, s12, s10, sb⟩ := strobe_high g b hb hg
  have w1 : ((g ||| b) % 65536).testBit 8 = false := by
    rw [mod_65536_testBit _ 8 (by norm_num), Nat.testBit_or, h8,
      testBit_low_of_lt b 8 hb (le_refl _)]
    rfl
  have w3 : ((((((g ||| b) &&& (0xFFFF ^^^ LCD_CS1)) ||| LCD_RD) ||| LCD_CS1) &&&
      (0xFFFF ^^^ LCD_RD)) % 65536).testBit 8 = false := by
    rw [mod_65536_testBit _ 8 (by norm_num), Nat.testBit_and]
    have : (0xFFFF ^^^ LCD_RD).testBit 8 = false := by decide
    rw [this, Bool.and_false]
  simp only [bus_bytes, List.filterMap_cons, List.filterMap_nil, w1, w3, s8, s12, s10, sb]
  simp

/-- After a strobe the E line is low again and A0 is as before. -/
theorem strobe_idle (g b : Nat) (hb : b < 256) :
    ((((((g ||| b) &&& (0xFFFF ^^^ LCD_CS1)) ||| LCD_RD) ||| LCD_CS1) &&&
        (0xFFFF ^^^ LCD_RD))).testBit 8 = false ∧
    ((((((g ||| b) &&& (0xFFFF ^^^ LCD_CS1)) ||| LCD_RD) ||| LCD_CS1) &&&
        (0xFFFF ^^^ LCD_RD))).testBit 10 = g.testBit 10 := by
  constructor
  · rw [Nat.testBit_and]
    have : (0xFFFF ^^^ LCD_RD).testBit 8 = false := by decide
    rw [this, Bool.and_false]
  · have h1 : (0xFFFF ^^^ LCD_RD).testBit 10 = true := by decide
    have h2 : LCD_CS1.testBit 10 = false := by decide
    have h3 : LCD_RD.testBit 10 = false := by decide
    have h4 : (0xFFFF ^^^ LCD_CS1).testBit 10 = true := by decide
    simp only [Nat.testBit_and, Nat.testBit_or, h1, h2, h3, h4,
      testBit_low_of_lt b 10 hb (by norm_num)]
    simp

/-- `lcd_send_command(cmd)` on an idle port (E low) passes the one byte `cmd`
to the controller, as a command, and leaves the port idle. -/
theorem lcd_send_command_bytes (p : Port) (cmd : Nat) (hcmd : cmd < 256)
    (hidle : p.odr.testBit 8 = false) :
    bus_bytes (lcd_send_command p cmd).writes = bus_bytes p.writes ++ [(false, cmd)] ∧
    (lcd_send_command p cmd).odr.testBit 8 = false := by
  have hmask : ∀ i, i < 8 →
      (p.odr &&& (0xFFFF ^^^ (LCD_WR ||| LCD_DATA ||| LCD_A0))).testBit i = false := by
    intro i hi
    have : (0xFFFF ^^^ (LCD_WR ||| LCD_DATA ||| LCD_A0)).testBit i = false := by
      interval_cases i <;> decide
    rw [Nat.testBit_and, this, Bool.and_false]
  have h8 : (p.odr &&& (0xFFFF ^^^ (LCD_WR ||| LCD_DATA ||| LCD_A0))).testBit 8 = false := by
    rw [Nat.testBit_and, hidle, Bool.false_and]
  have h10 : (p.odr &&& (0xFFFF ^^^ (LCD_WR ||| LCD_DATA ||| LCD_A0))).testBit 10 = false := by
    have : (0xFFFF ^^^ (LCD_WR ||| LCD_DATA ||| LCD_A0)).testBit 10 = false := by decide
    rw [Nat.testBit_and, this, Bool.and_false]
  have hb := strobe_bytes _ cmd hcmd hmask h8
  rw [h10] at hb
  constructor
  · simp only [lcd_send_command, GPIO_Write, GPIO_ReadOutputData, List.append_assoc,
      List.singleton_append, List.cons_append, List.nil_append]
    unfold bus_bytes at hb ⊢
    rw [List.filterMap_append, hb]
  · simp only [lcd_send_command, GPIO_Write, GPIO_ReadOutputData]
    rw [mod_65536_testBit _ 8 (by norm_num)]
    exact (strobe_idle _ cmd hcmd).1

theorem send_data_loop_bytes (mem : List Nat) (data len : Nat) (hlen : len < 65536)
    (hmem : data + len ≤ mem.length) (hbytes : ∀ b ∈ mem, b < 256) :
    ∀ (n fuel i gpio : Nat) (p : Port), i + n = len → n < fuel →
      gpio.testBit 8 = false → gpio.testBit 10 = true → p.odr.testBit 8 = false →
      ∃ p', lcd_send_data_loop mem data len fuel i gpio p = some p' ∧
        bus_bytes p'.writes = bus_bytes p.writes ++
          (List.range' i n).map (fun k => (true, mem.getD (data + (len - 1) - k) 0)) ∧
        p'.odr.testBit 8 = false := by
  intro n
  induction n with
  | zero =>
    intro fuel i gpio p hi hf _ _ hidle
    obtain ⟨f, rfl⟩ : ∃ f, fuel = f + 1 := ⟨fuel - 1, by omega⟩
    have : ¬ i < len := by omega
    exact ⟨p, by simp [lcd_send_data_loop, this], by simp, hidle⟩
  | succ n ih =>
    intro fuel i gpio p hi hf hg8 hg10 hidle
    obtain ⟨f, rfl⟩ : ∃ f, fuel = f + 1 := ⟨fuel - 1, by omega⟩
    have hlt : i < len := by omega
    have hidx : data + (len - 1) - i < mem.length := by omega
    have hget : mem[data + (len - 1) - i]? = some (mem.getD (data + (len - 1) - i) 0) := by
      rw [List.getD_eq_getElem?_getD, List.getElem?_eq_getElem hidx]
      rfl
    have hb : mem.getD (data + (len - 1) - i) 0 < 256 := by
      apply hbytes
      rw [List.getD_eq_getElem?_getD, List.getElem?_eq_getElem hidx]
      exact List.getElem_mem _
    have hmod : (i + 1) % 65536 = i + 1 := Nat.mod_eq_of_lt (by omega)
    have hmask : ∀ j, j < 8 → (gpio &&& (0xFFFF ^^^ LCD_DATA)).testBit j = false := by
      intro j hj
      have : (0xFFFF ^^^ LCD_DATA).testBit j = false := by
        interval_cases j <;> decide
      rw [Nat.testBit_and, this, Bool.and_false]
    have h8 : (gpio &&& (0xFFFF ^^^ LCD_DATA)).testBit 8 = false := by
      rw [Nat.testBit_and, hg8, Bool.false_and]
    have h10 : (gpio &&& (0xFFFF ^^^ LCD_DATA)).testBit 10 = true := by
      have : (0xFFFF ^^^ LCD_DATA).testBit 10 = true := by decide
      rw [Nat.testBit_and, hg10, this]
      rfl
    have hsb := strobe_bytes _ _ hb hmask h8
    rw [h10] at hsb
    obtain ⟨i8, i10⟩ := strobe_idle (gpio &&& (0xFFFF ^^^ LCD_DATA)) _ hb
    rw [h10] at i10
    simp only [lcd_send_data_loop, if_pos hlt, hget, hmod]
    obtain ⟨p', e, hbytes', hidle'⟩ := ih f (i + 1) _
      (GPIO_Write (GPIO_Write (GPIO_Write p _) _) _) (by omega) (by omega) i8 i10
      (by simp only [GPIO_Write]; rw [mod_65536_testBit _ 8 (by norm_num)]; exact i8)
    refine ⟨p', e, ?_, hidle'⟩
    rw [hbytes', List.range'_succ, List.map_cons]
    simp only [GPIO_Write, List.append_assoc, List.singleton_append, List.cons_append,
      List.nil_append]
    unfold bus_bytes at hsb ⊢
    rw [List.filterMap_append, hsb]
    simp

theorem slice_reverse (mem : List Nat) (data n : Nat) (hmem : data + n ≤ mem.length) :
    (List.range' 0 n).map (fun k => mem.getD (data + (n - 1) - k) 0) =
      ((mem.drop data).take n).reverse := by
  apply List.ext_getElem
  · simp
    omega
  · intro k h1 h2
    simp only [List.length_map, List.length_range'] at h1
    rw [List.getElem_map, List.getElem_range', List.getElem_reverse, List.getElem_take,
      List.getElem_drop, List.getD_eq_getElem?_getD]
    have hl : ((mem.drop data).take n).length = n := by simp; omega
    have hidx : data + (n - 1) - (0 + 1 * k) < mem.length := by omega
    rw [List.getElem?_eq_getElem hidx]
    simp only [Option.getD_some]
    congr 1
    rw [hl]
    omega

/-- `lcd_send_data(data, len)` on an idle port passes the `len` bytes at `data`
to the controller as display data, the last one first. -/
theorem lcd_send_data_bytes (mem : List Nat) (data len : Nat) (p : Port) (hlen : len < 65536)
    (hmem : data + len ≤ mem.length) (hbytes : ∀ b ∈ mem, b < 256)
    (hidle : p.odr.testBit 8 = false) :
    ∃ p', lcd_send_data mem data len p = some p' ∧
      bus_bytes p'.writes = bus_bytes p.writes ++
        ((mem.drop data).take len).reverse.map (fun b => (true, b)) ∧
      p'.odr.testBit 8 = false := by
  have h8 : ((p.odr &&& (0xFFFF ^^^ (LCD_WR ||| LCD_DATA))) ||| LCD_A0).testBit 8 = false := by
    have : LCD_A0.testBit 8 = false := by decide
    rw [Nat.testBit_or, Nat.testBit_and, hidle, this]
    rfl
  have h10 : ((p.odr &&& (0xFFFF ^^^ (LCD_WR ||| LCD_DATA))) ||| LCD_A0).testBit 10 = true := by
    have : LCD_A0.testBit 10 = true := by decide
    rw [Nat.testBit_or, this, Bool.or_true]
  obtain ⟨p', e, hb, hi⟩ := send_data_loop_bytes mem data len hlen hmem hbytes len 65537 0 _ p
    (by omega) (by omega) h8 h10 hidle
  refine ⟨p', e, ?_, hi⟩
  rw [hb, ← slice_reverse mem data len hmem, List.map_map]
  rfl

/-- The bytes that `lcd_update` passes to the controller for the page `pg`:
page address, the two column address commands, and the bytes of the page from
the last to the first. -/
theorem update_rows_bytes (W H : Nat) (st : State) (hW : W < 65536) (hH : H ≤ 255)
    (hlen : st.lcd_buffer.length = W * H / 8) (hbytes : ∀ b ∈ st.lcd_buffer, b < 256) :
    ∀ (n fuel row : Nat) (p : Port), row + n = H / 8 → n < fuel →
      p.odr.testBit 8 = false →
      ∃ p', lcd_update_rows W H st fuel row p = some p' ∧
        bus_bytes p'.writes = bus_bytes p.writes ++
          (List.range' row n).flatMap (fun pg =>
            [(false, 0xB0 ||| pg), (false, 0x04), (false, 0x10)] ++
              ((st.lcd_buffer.drop (W * pg)).take W).reverse.map (fun b => (true, b))) := by
  intro n
  induction n with
  | zero =>
    intro fuel row p hr hf _
    obtain ⟨f, rfl⟩ : ∃ f, fuel = f + 1 := ⟨fuel - 1, by omega⟩
    have : ¬ row < H / 8 := by omega
    exact ⟨p, by simp [lcd_update_rows, this], by simp⟩
  | succ n ih =>
    intro fuel row p hr hf hidle
    obtain ⟨f, rfl⟩ : ∃ f, fuel = f + 1 := ⟨fuel - 1, by omega⟩
    have hlt : row < H / 8 := by omega
    have hrow : row < 32 := by omega
    have hpage : (KS0713_SET_PAGE_ADDR ||| row) % 256 = 0xB0 ||| row := by
      apply Nat.mod_eq_of_lt
      exact Nat.or_lt_two_pow (n := 8) (by decide) (by omega)
    have hpage_lt : 0xB0 ||| row < 256 :=
      Nat.or_lt_two_pow (n := 8) (by decide) (by omega)
    have hWmod : W % 65536 = W := Nat.mod_eq_of_lt hW
    obtain ⟨b1, i1⟩ := lcd_send_command_bytes p (0xB0 ||| row) hpage_lt hidle
    obtain ⟨b2, i2⟩ := lcd_send_command_bytes (lcd_send_command p (0xB0 ||| row))
      (KS0713_SET_COL_ADDR_LSB ||| 0x04) (by decide) i1
    obtain ⟨b3, i3⟩ := lcd_send_command_bytes
      (lcd_send_command (lcd_send_command p (0xB0 ||| row)) (KS0713_SET_COL_ADDR_LSB ||| 0x04))
      (KS0713_SET_COL_ADDR_MSB ||| 0x00) (by decide) i2
    have hfit : W * row + W ≤ st.lcd_buffer.length := by
      rw [hlen]
      have h1 : W * (row + 1) ≤ W * (H / 8) := Nat.mul_le_mul_left W hlt
      have h2 : W * (H / 8) ≤ W * H / 8 := by
        rw [Nat.le_div_iff_mul_le (by norm_num)]
        calc W * (H / 8) * 8 = W * (H / 8 * 8) := by ring
          _ ≤ W * H := Nat.mul_le_mul_left W (Nat.div_mul_le_self H 8)
      calc W * row + W = W * (row + 1) := by ring
        _ ≤ W * H / 8 := h1.trans h2
    obtain ⟨p4, e4, b4, i4⟩ := lcd_send_data_bytes st.lcd_buffer (W * row) W _ hW hfit hbytes i3
    obtain ⟨p', e, hb⟩ := ih f (row + 1) p4 (by omega) (by omega) i4
    refine ⟨p', ?_, ?_⟩
    · simp only [lcd_update_rows, if_pos hlt, hpage, hWmod, e4, Option.some_bind, e]
    · rw [hb, b4, b3, b2, b1, List.range'_succ, List.flatMap_cons]
      have c1 : KS0713_SET_COL_ADDR_LSB ||| 0x04 = 0x04 := by decide
      have c2 : KS0713_SET_COL_ADDR_MSB ||| 0x00 = 0x10 := by decide
      rw [c1, c2]
      simp only [List.append_assoc, List.singleton_append, List.cons_append, List.nil_append]

theorem pages_cover (W : Nat) (buf : List Nat) :
    ∀ n, (List.range n).flatMap (fun pg => (buf.drop (W * pg)).take W) = buf.take (W * n) := by
  intro n
  induction n with
  | zero => simp
  | succ n ih =>
    rw [List.range_succ, List.flatMap_append, ih, List.flatMap_singleton, Nat.mul_succ,
      List.take_add]

theorem filter_data_flatMap (f : Nat → List (Bool × Nat)) (k : Nat) (l : List Nat)
    (h : ∀ a ∈ l, ((f a).filter fun e => e.1).length = k) :
    ((l.flatMap f).filter fun e => e.1).length = l.length * k := by
  induction l with
  | nil => simp
  | cons a l ih =>
    rw [List.flatMap_cons, List.filter_append, List.length_append,
      h a (List.mem_cons_self _ _), ih (fun b hb => h b (List.mem_cons_of_mem _ hb)),
      List.length_cons]
    ring

/-- C18. On an idle port `lcd_update` passes to the controller, for each page
`0 .. LCD_HEIGHT/8 - 1` in ascending order, the page address command
`0xB0 | page`, the two column address commands `0x04` and `0x10`, and then as
display data the `LCD_WIDTH` bytes of that page of the frame buffer, from the
last to the first.  The pages together are the whole frame buffer, each byte
once, `LCD_WIDTH * LCD_HEIGHT / 8` data bytes in all, and the driver state is
returned as it was. -/
theorem lcd_update_trace (LCD_WIDTH LCD_HEIGHT : Nat) (st : State) (p : Port)
    (hW : LCD_WIDTH ≤ 255) (hH : LCD_HEIGHT ≤ 255) (h8 : 8 ∣ LCD_HEIGHT)
    (hlen : st.lcd_buffer.length = LCD_WIDTH * LCD_HEIGHT / 8)
    (hbytes : ∀ b ∈ st.lcd_buffer, b < 256) (hidle : p.odr.testBit 8 = false) :
    ∃ p' sent, lcd_update LCD_WIDTH LCD_HEIGHT st p = some (st, p') ∧
      bus_bytes p'.writes = bus_bytes p.writes ++ sent ∧
      sent = (List.range (LCD_HEIGHT / 8)).flatMap (fun pg =>
        [(false, 0xB0 ||| pg), (false, 0x04), (false, 0x10)] ++
          ((st.lcd_buffer.drop (LCD_WIDTH * pg)).take LCD_WIDTH).reverse.map
            (fun b => (true, b))) ∧
      (∀ pg, pg < LCD_HEIGHT / 8 →
        ((st.lcd_buffer.drop (LCD_WIDTH * pg)).take LCD_WIDTH).length = LCD_WIDTH) ∧
      (List.range (LCD_HEIGHT / 8)).flatMap
        (fun pg => (st.lcd_buffer.drop (LCD_WIDTH * pg)).take LCD_WIDTH) = st.lcd_buffer ∧
      (sent.filter fun e => e.1).length = LCD_WIDTH * LCD_HEIGHT / 8 := by
  obtain ⟨k, rfl⟩ := h8
  have hk : 8 * k / 8 = k := Nat.mul_div_cancel_left k (by norm_num)
  have hbuf : st.lcd_buffer.length = LCD_WIDTH * k := by
    rw [hlen, show LCD_WIDTH * (8 * k) = 8 * (LCD_WIDTH * k) by ring]
    exact Nat.mul_div_cancel_left _ (by norm_num)
  have hpage : ∀ pg, pg < k →
      ((st.lcd_buffer.drop (LCD_WIDTH * pg)).take LCD_WIDTH).length = LCD_WIDTH := by
    intro pg hpg
    rw [List.length_take, List.length_drop, hbuf]
    have : LCD_WIDTH * (pg + 1) ≤ LCD_WIDTH * k := Nat.mul_le_mul_left _ hpg
    have e : LCD_WIDTH * (pg + 1) = LCD_WIDTH * pg + LCD_WIDTH := by ring
    omega
  obtain ⟨p', e, hb⟩ := update_rows_bytes LCD_WIDTH (8 * k) st (by omega) hH hlen hbytes
    (8 * k / 8) (8 * k / 8 + 1) 0 p (by omega) (by omega) hidle
  refine ⟨p', _, ?_, ?_, rfl, ?_, ?_, ?_⟩
  · unfold lcd_update
    rw [e]
    rfl
  · rw [hb, List.range_eq_range']
  · rw [hk]
    exact hpage
  · rw [hk, pages_cover, ← hbuf, List.take_length]
  · rw [hk, filter_data_flatMap _ LCD_WIDTH, List.length_range, ← hlen, hbuf, Nat.mul_comm]
    intro pg hpg
    rw [List.mem_range] at hpg
    rw [List.filter_append]
    have h1 : ([(false, 0xB0 ||| pg), (false, 0x04), (false, 0x10)].filter
        fun e : Bool × Nat => e.1) = [] := by simp
    have h2 : (((st.lcd_buffer.drop (LCD_WIDTH * pg)).take LCD_WIDTH).reverse.map
        (fun b => (true, b))).filter (fun e : Bool × Nat => e.1) =
        ((st.lcd_buffer.drop (LCD_WIDTH * pg)).take LCD_WIDTH).reverse.map
          (fun b => (true, b)) := by
      rw [List.filter_eq_self]
      intro e he
      rw [List.mem_map] at he
      obtain ⟨b, _, rfl⟩ := he
      rfl
    rw [h1, h2, List.nil_append, List.length_map, List.length_reverse, hpage pg hpg]

/-- Witness of C18: a 4x16 panel with frame buffer `1, 2, .., 8`, on an idle
port: page 0 then page 1, each with its four bytes from the last to the
first. -/
theorem lcd_update_trace_witness :
    ∃ p', lcd_update 4 16 (State.initial [1, 2, 3, 4, 5, 6, 7, 8]) ⟨0x1CFF, []⟩
        = some (State.initial [1, 2, 3, 4, 5, 6, 7, 8], p') ∧
      bus_bytes p'.writes =
        [(false, 0xB0), (false, 0x04), (false, 0x10), (true, 4), (true, 3), (true, 2), (true, 1),
         (false, 0xB1), (false, 0x04), (false, 0x10), (true, 8), (true, 7), (true, 6),
         (true, 5)] := by
  obtain ⟨p', sent, h, hb, hs, _⟩ := lcd_update_trace 4 16 (State.initial [1, 2, 3, 4, 5, 6, 7, 8])
    ⟨0x1CFF, []⟩ (by decide) (by decide) (by decide) (by decide) (by decide) (by decide)
  refine ⟨p', h, ?_⟩
  rw [hb, hs]
  decide

/-- The byte that `lcd_adj_contrast` sends after the reference voltage command
is the contrast it has stored. -/
theorem lcd_adj_contrast_bytes (st : State) (val : Int) (p : Port)
    (hidle : p.odr.testBit 8 = false) :
    bus_bytes (lcd_adj_contrast st val p).2.writes =
      bus_bytes p.writes ++ [(false, 0x81), (false, (lcd_adj_contrast st val p).1.contrast)] ∧
    (lcd_adj_contrast st val p).1.contrast < 256 := by
  have hnew : (lcd_adj_contrast st val p).1.contrast < 256 := by
    simp only [lcd_adj_contrast]
    split_ifs
    · norm_num
    · norm_num
    · unfold toUInt8; omega
  refine ⟨?_, hnew⟩
  obtain ⟨b1, i1⟩ := lcd_send_command_bytes p KS0713_SET_REF_VOLTAGE (by decide) hidle
  obtain ⟨b2, _⟩ := lcd_send_command_bytes (lcd_send_command p KS0713_SET_REF_VOLTAGE)
    (lcd_adj_contrast st val p).1.contrast hnew i1
  have e : (lcd_adj_contrast st val p).2 =
      lcd_send_command (lcd_send_command p KS0713_SET_REF_VOLTAGE)
        (lcd_adj_contrast st val p).1.contrast := rfl
  rw [e, b2, b1, List.append_assoc]
  rfl

/-- C17, at the failing inputs. With the stored contrast at 250,
`lcd_adj_contrast(+20)` stores and sends 14 (270 modulo 256), not 255; with
the stored contrast at 5, `lcd_adj_contrast(-20)` stores and sends 241, not
0: `contrast += val` wraps before the two tests, which then look at
`contrast + val` a second time.  So with the stored contrast at 200,
`lcd_adj_contrast(+30)` stores 255, though 200 + 30 = 230 needs no clamp. -/
theorem lcd_adj_contrast_wraps (st : State) (p : Port) :
    (lcd_adj_contrast { st with contrast := 250 } 20 p).1.contrast = 14 ∧
    (lcd_adj_contrast { st with contrast := 5 } (-20) p).1.contrast = 241 ∧
    (lcd_adj_contrast { st with contrast := 200 } 30 p).1.contrast = 255 := by
  refine ⟨?_, ?_, ?_⟩ <;> simp only [lcd_adj_contrast] <;> decide

/-! ## Messages: line breaking and centring -/

theorem strchr_some (c : Nat) : ∀ (s : List Nat) (k : Nat),
    strchr s c = some k → k < s.length ∧ s[k]? = some c := by
  intro s
  induction s with
  | nil => intro k h; simp [strchr] at h
  | cons a s ih =>
    intro k h
    unfold strchr at h
    split_ifs at h with ha
    · cases h
      exact ⟨by simp, by simp [ha]⟩
    · cases hs : strchr s c with
      | none => rw [hs] at h; simp at h
      | some j =>
        rw [hs] at h
        simp only [Option.map_some', Option.some.injEq] at h
        subst h
        obtain ⟨h1, h2⟩ := ih j hs
        exact ⟨by simp; omega, by simpa using h2⟩

/-- Where the scan of a line can end: where it started, at the end of the
message when the rest fits, or just after a space that is nearer than
`width` to the start of the line. -/
theorem scan_spec (msg : List Nat) (width : Int) (ptr : Nat) :
    ∀ (fuel needle1 n1 : Nat), needle1 ≤ msg.length →
      lcd_draw_message_scan msg width ptr fuel needle1 = some n1 →
      needle1 ≤ n1 ∧ n1 ≤ msg.length ∧
      (n1 = needle1 ∨ ((msg.length : Int) - ptr < width ∧ n1 = msg.length) ∨
        (1 ≤ n1 ∧ msg[n1 - 1]? = some 32 ∧ ((n1 - 1 : Nat) : Int) - ptr < width)) := by
  intro fuel
  induction fuel with
  | zero => intro needle1 n1 _ h; simp [lcd_draw_message_scan] at h
  | succ f ih =>
    intro needle1 n1 hle h
    unfold lcd_draw_message_scan at h
    cases hs : strchr (msg.drop needle1) 32 with
    | none =>
      rw [hs] at h
      simp only [Option.map_none'] at h
      split_ifs at h with hfit
      · cases h
        exact ⟨hle, le_refl _, Or.inr (Or.inl ⟨hfit, rfl⟩)⟩
      · cases h
        exact ⟨le_refl _, hle, Or.inl rfl⟩
    | some k =>
      rw [hs] at h
      simp only [Option.map_some'] at h
      obtain ⟨hk, hget⟩ := strchr_some 32 _ k hs
      rw [List.length_drop] at hk
      rw [List.getElem?_drop] at hget
      split_ifs at h with hfit
      · obtain ⟨h1, h2, h3⟩ := ih (needle1 + k + 1) n1 (by omega) h
        refine ⟨by omega, h2, ?_⟩
        rcases h3 with h3 | h3 | h3
        · refine Or.inr (Or.inr ⟨by omega, ?_, ?_⟩)
          · rw [h3]
            simpa using hget
          · rw [h3]
            simpa using hfit
        · exact Or.inr (Or.inl h3)
        · exact Or.inr (Or.inr h3)
      · cases h
        exact ⟨le_refl _, hle, Or.inl rfl⟩

/-- The scan of a line has a result. -/
theorem scan_total (msg : List Nat) (width : Int) (ptr : Nat) :
    ∀ (fuel needle1 : Nat), needle1 ≤ msg.length → msg.length - needle1 < fuel →
      ∃ n1, lcd_draw_message_scan msg width ptr fuel needle1 = some n1 := by
  intro fuel
  induction fuel with
  | zero => intro needle1 _ h; omega
  | succ f ih =>
    intro needle1 hle hf
    unfold lcd_draw_message_scan
    cases hs : strchr (msg.drop needle1) 32 with
    | none =>
      simp only [Option.map_none']
      split_ifs
      · exact ⟨_, rfl⟩
      · exact ⟨_, rfl⟩
    | some k =>
      simp only [Option.map_some']
      obtain ⟨hk, _⟩ := strchr_some 32 _ k hs
      rw [List.length_drop] at hk
      split_ifs
      · exact ih (needle1 + k + 1) (by omega) (by omega)
      · exact ⟨_, rfl⟩

/-- A line that takes at least one character: it ends at the end of the
message or just after a space, and its length, the space left out, is at least
0 and less than `width`. -/
theorem line_break_spec (msg : List Nat) (width : Int) (ptr needle1 : Nat)
    (hptr : ptr ≤ msg.length)
    (hscan : lcd_draw_message_scan msg width ptr (msg.length + 1) ptr = some needle1)
    (hadv : ptr < needle1) :
    needle1 ≤ msg.length ∧
    (needle1 = msg.length ∨ msg[needle1 - 1]? = some 32) ∧
    ∃ n : Nat, lcd_draw_message_nchars msg ptr needle1 = some (n : Int) ∧ (n : Int) < width ∧
      ptr + n ≤ needle1 ∧ needle1 ≤ ptr + n + 1 ∧
      (needle1 = ptr + n + 1 → msg[needle1 - 1]? = some 32) := by
  obtain ⟨h1, h2, h3⟩ := scan_spec msg width ptr _ ptr needle1 hptr hscan
  have hidx : needle1 - 1 < msg.length := by omega
  have hne : needle1 ≠ 0 := by omega
  refine ⟨h2, ?_, ?_⟩
  · rcases h3 with h3 | h3 | h3
    · omega
    · exact Or.inl h3.2
    · exact Or.inr h3.2.1
  · unfold lcd_draw_message_nchars
    rw [if_neg hne, List.getElem?_eq_getElem hidx]
    simp only
    by_cases hc : msg[needle1 - 1] = 32
    · rw [if_pos hc]
      refine ⟨needle1 - ptr - 1, by congr 1; omega, ?_, by omega, by omega, ?_⟩
      · rcases h3 with h3 | h3 | h3
        · omega
        · omega
        · omega
      · intro _
        rw [hc]
    · rw [if_neg hc]
      refine ⟨needle1 - ptr, by congr 1; omega, ?_, by omega, by omega, ?_⟩
      · rcases h3 with h3 | h3 | h3
        · omega
        · omega
        · rw [List.getElem?_eq_getElem hidx] at h3
          exact absurd (Option.some.inj h3.2.1) hc
      · intro h
        omega

/-- The two outcomes of `lcd_write_char` on a valid frame buffer: the state
unchanged, or the glyph drawn and the cursor moved. -/
theorem lcd_write_char_cases (W H : Nat) (fonts : Font → Nat → Nat) (st : State)
    (c colour : Nat) (hW : W ≤ 255) (hH : H ≤ 255) (h8 : 8 ∣ H)
    (hlen : st.lcd_buffer.length = W * H / 8) :
    lcd_write_char W H fonts st c colour = some st ∨
    (st.cursor_x + st.char_width < W ∧
      ∃ st', lcd_write_char W H fonts st c colour = some st' ∧
        st'.lcd_buffer.length = st.lcd_buffer.length ∧
        st'.cursor_x = st.cursor_x + st.char_width + 1 ∧
        st'.cursor_y = (if st.cursor_x + st.char_width + 1 ≥ W
                        then st.cursor_y + st.char_height + 1 else st.cursor_y) ∧
        st'.char_width = st.char_width ∧ st'.char_height = st.char_height ∧
        st'.font = st.font ∧ st'.font_width = st.font_width ∧
        st'.contrast = st.contrast) := by
  by_cases h1 : st.cursor_y + st.char_height ≥ H
  · left
    unfold lcd_write_char
    rw [if_pos h1]
  · by_cases h2 : st.cursor_x + st.char_width ≥ W
    · left
      unfold lcd_write_char
      rw [if_neg h1, if_pos h2]
    · cases hg : (if st.font = Font.font_large then large_index c else some c) with
      | none =>
        left
        unfold lcd_write_char
        rw [if_neg h1, if_neg h2]
        simp only [hg]
      | some g =>
        right
        obtain ⟨buf', e, l, _⟩ :=
          lcd_write_char_accept W H fonts st c colour g hW hH h8 hlen (by omega) (by omega) hg
        exact ⟨by omega, _, e, l, rfl, rfl, rfl, rfl, rfl, rfl, rfl⟩

/-- A string that fits between the cursor and the right edge is written without
a change of `cursor_y`. -/
theorem write_chars_same_row (W H : Nat) (fonts : Font → Nat → Nat) (colour : Nat)
    (hW : W ≤ 255) (hH : H ≤ 255) (h8 : 8 ∣ H) :
    ∀ (s : List Nat) (st : State), st.lcd_buffer.length = W * H / 8 →
      st.cursor_x + s.length * (st.char_width + 1) < W →
      ∃ st', write_chars W H fonts colour st s = some st' ∧
        st'.cursor_y = st.cursor_y ∧ st'.char_width = st.char_width ∧
        st'.char_height = st.char_height ∧ st'.font = st.font ∧
        st'.font_width = st.font_width ∧ st'.contrast = st.contrast ∧
        st'.lcd_buffer.length = st.lcd_buffer.length ∧
        st.cursor_x ≤ st'.cursor_x ∧
        st'.cursor_x ≤ st.cursor_x + s.length * (st.char_width + 1) := by
  intro s
  induction s with
  | nil =>
    intro st _ _
    exact ⟨st, rfl, rfl, rfl, rfl, rfl, rfl, rfl, rfl, le_refl _, by simp⟩
  | cons c cs ih =>
    intro st hlen hfit
    have hmul : (c :: cs).length * (st.char_width + 1) =
        cs.length * (st.char_width + 1) + (st.char_width + 1) := by
      rw [List.length_cons, Nat.succ_mul]
    rw [hmul] at hfit ⊢
    rcases lcd_write_char_cases W H fonts st c colour hW hH h8 hlen with
      e | ⟨_, st1, e, l, q1, q2, q3, q4, q5, q6, q7⟩
    · obtain ⟨st', h, r⟩ := ih st hlen (by omega)
      refine ⟨st', by simp only [write_chars, e, Option.some_bind, h], ?_⟩
      obtain ⟨r1, r2, r3, r4, r5, r6, r7, r8, r9⟩ := r
      exact ⟨r1, r2, r3, r4, r5, r6, r7, r8, by omega⟩
    · have hrow : ¬ st.cursor_x + st.char_width + 1 ≥ W := by omega
      rw [if_neg hrow] at q2
      obtain ⟨st', h, r⟩ := ih st1 (l.trans hlen) (by rw [q1, q3]; omega)
      refine ⟨st', by simp only [write_chars, e, Option.some_bind, h], ?_⟩
      obtain ⟨r1, r2, r3, r4, r5, r6, r7, r8, r9⟩ := r
      rw [q3, q1] at r9
      exact ⟨r1.trans q2, r2.trans q3, r3.trans q4, r4.trans q5, r5.trans q6, r6.trans q7,
        r7.trans l, by omega, by omega⟩

theorem budget_le (W x D B : Nat) (h1 : 1 ≤ B)
    (hB : ((W : Int) - 2 * (x : Int)).tdiv (D : Int) = (B : Int)) : 2 * x + B * D ≤ W := by
  have hnn : (0 : Int) ≤ (W : Int) - 2 * (x : Int) := by
    by_contra hneg
    have hpos : (0 : Int) ≤ -((W : Int) - 2 * (x : Int)) := by omega
    have h2 := Int.tdiv_nonneg hpos (Int.ofNat_nonneg D)
    rw [Int.neg_tdiv] at h2
    omega
  have hle : 2 * x ≤ W := by omega
  have hcast : (W : Int) - 2 * (x : Int) = ((W - 2 * x : Nat) : Int) := by omega
  rw [hcast, Int.tdiv_eq_ediv (Int.ofNat_nonneg _) (Int.ofNat_nonneg _)] at hB
  have hB' : (W - 2 * x) / D = B := by exact_mod_cast hB
  have := Nat.div_mul_le_self (W - 2 * x) D
  rw [hB'] at this
  omega

theorem centred_start (x q : Nat) (h : x + q / 2 < 256) :
    toUInt8 ((x : Int) + ((q : Int)).tdiv 2) = x + q / 2 := by
  unfold toUInt8
  rw [Int.tdiv_eq_ediv (Int.ofNat_nonneg _) (by norm_num)]
  omega

/-- What a turn of the loop of `lcd_draw_message` does when it takes at least
one character. -/
theorem draw_message_line_effect (LCD_WIDTH LCD_HEIGHT : Nat) (fonts : Font → Nat → Nat)
    (msg : List Nat) (colour : Nat) (st : State) (x ptr needle1 B n : Nat)
    (hW : LCD_WIDTH ≤ 255) (hH : LCD_HEIGHT ≤ 255) (h8 : 8 ∣ LCD_HEIGHT)
    (hlen : st.lcd_buffer.length = LCD_WIDTH * LCD_HEIGHT / 8)
    (hcw : 5 ≤ st.char_width)
    (hB : ((LCD_WIDTH : Int) - 2 * (x : Int)).tdiv ((st.char_width : Int) + 1) = (B : Int))
    (hptr : ptr ≤ msg.length)
    (hscan : lcd_draw_message_scan msg B ptr (msg.length + 1) ptr = some needle1)
    (hadv : ptr < needle1)
    (hn : lcd_draw_message_nchars msg ptr needle1 = some (n : Int)) :
    ∃ st₁,
      n < B ∧
      x + (B - n) * (st.char_width + 1) / 2 < 256 ∧
      lcd_write_string LCD_WIDTH LCD_HEIGHT fonts
        { st with cursor_x := x + (B - n) * (st.char_width + 1) / 2 }
        ((msg.drop ptr).take n) colour = some st₁ ∧
      st₁.cursor_y = st.cursor_y ∧
      lcd_draw_message_line LCD_WIDTH LCD_HEIGHT fonts msg colour B x ptr st =
        some (needle1, { st₁ with cursor_y := (st.cursor_y + (st.char_height + 1)) % 256 }) ∧
      x + B * (st.char_width + 1) ≤ LCD_WIDTH ∧
      (B - n) * (st.char_width + 1) / 2 ≤
        B * (st.char_width + 1) - ((B - n) * (st.char_width + 1) / 2 + n * (st.char_width + 1)) ∧
      B * (st.char_width + 1) - ((B - n) * (st.char_width + 1) / 2 + n * (st.char_width + 1)) ≤
        (B - n) * (st.char_width + 1) / 2 + 1 := by
  obtain ⟨hn1, _, n', hn', hlt, hpn, _, _⟩ := line_break_spec msg B ptr needle1 hptr hscan hadv
  have hnn : n' = n := by
    rw [hn] at hn'
    exact_mod_cast (Option.some.inj hn').symm
  subst hnn
  have hnB : n' < B := by exact_mod_cast hlt
  have hbud := budget_le LCD_WIDTH x (st.char_width + 1) B (by omega)
    (by exact_mod_cast hB)
  -- the products, as atoms
  have hsub : (B - n') * (st.char_width + 1) =
      B * (st.char_width + 1) - n' * (st.char_width + 1) := Nat.sub_mul _ _ _
  have hstep : n' * (st.char_width + 1) + (st.char_width + 1) ≤ B * (st.char_width + 1) := by
    have := Nat.mul_le_mul_right (st.char_width + 1) (show n' + 1 ≤ B from hnB)
    rwa [Nat.succ_mul] at this
  have hB6 : B * 6 ≤ B * (st.char_width + 1) := Nat.mul_le_mul_left B (by omega)
  generalize hq : (B - n') * (st.char_width + 1) = q at *
  generalize ha : n' * (st.char_width + 1) = a at *
  generalize hb : B * (st.char_width + 1) = b at *
  have hstart : x + q / 2 < 256 := by omega
  have hline : ((msg.drop ptr).take n').length = n' := by
    rw [List.length_take, List.length_drop]
    omega
  obtain ⟨st₁, hw, r1, r2, r3, _⟩ := write_chars_same_row LCD_WIDTH LCD_HEIGHT fonts colour
    hW hH h8 ((msg.drop ptr).take n') { st with cursor_x := x + q / 2 } hlen
    (by rw [hline]; simp only; rw [ha]; omega)
  have hws : lcd_write_string LCD_WIDTH LCD_HEIGHT fonts { st with cursor_x := x + q / 2 }
      ((msg.drop ptr).take n') colour = some st₁ := by
    rw [lcd_write_string_short _ _ _ _ _ _ (by rw [hline]; omega)]
    exact hw
  refine ⟨st₁, hnB, hstart, hws, r1, ?_, by omega, by omega, by omega⟩
  have hcur : toUInt8 ((x : Int) + ((((B : Int) - (n' : Int)) * ((st.char_width : Int) + 1))).tdiv 2)
      = x + q / 2 := by
    have : ((B : Int) - (n' : Int)) * ((st.char_width : Int) + 1) = (q : Int) := by
      rw [← hq]
      push_cast [Nat.cast_sub (le_of_lt hnB)]
      ring
    rw [this]
    exact centred_start x q hstart
  have hbuf : ¬ ((n' : Int) ≥ ((LCD_WIDTH / 6 : Nat) : Int)) := by
    have : n' < LCD_WIDTH / 6 := by
      have : B ≤ LCD_WIDTH / 6 := by
        rw [Nat.le_div_iff_mul_le (by norm_num)]
        omega
      omega
    omega
  unfold lcd_draw_message_line
  rw [hscan, Option.some_bind, hn, Option.some_bind, if_neg (by omega), if_neg hbuf]
  simp only [Int.toNat_ofNat, hcur, hws, Option.some_bind, r1, r3]

/-- A turn of the loop whose scan ends where it started returns the same scan
pointer, when it returns at all. -/
theorem draw_message_line_same_ptr (W H : Nat) (fonts : Font → Nat → Nat) (msg : List Nat)
    (colour : Nat) (width : Int) (x ptr : Nat) (st : State) (r : Nat × State)
    (hscan : lcd_draw_message_scan msg width ptr (msg.length + 1) ptr = some ptr)
    (h : lcd_draw_message_line W H fonts msg colour width x ptr st = some r) : r.1 = ptr := by
  unfold lcd_draw_message_line at h
  rw [hscan, Option.some_bind] at h
  cases hn : lcd_draw_message_nchars msg ptr ptr with
  | none => rw [hn] at h; simp at h
  | some nchars =>
    rw [hn, Option.some_bind] at h
    split_ifs at h
    simp only at h
    cases hw : lcd_write_string W H fonts
        { st with cursor_x := toUInt8 ((x : Int) +
          ((width - nchars) * ((st.char_width : Int) + 1)).tdiv 2) }
        ((msg.drop ptr).take nchars.toNat) colour with
    | none => rw [hw] at h; simp at h
    | some st' =>
      rw [hw, Option.some_bind] at h
      cases h
      rfl

/-- When the scan of the line at `ptr` ends at `ptr`, the loop of
`lcd_draw_message` has no result from there, however many turns it is given:
the scan pointer never moves. -/
theorem draw_message_loop_stuck (W H : Nat) (fonts : Font → Nat → Nat) (msg : List Nat)
    (colour : Nat) (width : Int) (x ptr : Nat) (hptr : ptr < msg.length)
    (hscan : lcd_draw_message_scan msg width ptr (msg.length + 1) ptr = some ptr) :
    ∀ (fuel : Nat) (st : State),
      lcd_draw_message_loop W H fonts msg colour width x fuel ptr st = none := by
  intro fuel
  induction fuel with
  | zero => intro st; rfl
  | succ f ih =>
    intro st
    unfold lcd_draw_message_loop
    rw [if_pos hptr]
    cases hl : lcd_draw_message_line W H fonts msg colour width x ptr st with
    | none => rfl
    | some r =>
      rw [Option.some_bind,
        draw_message_line_same_ptr W H fonts msg colour width x ptr st r hscan hl]
      exact ih r.2

theorem lcd_draw_message_unfold (W H : Nat) (fonts : Font → Nat → Nat) (st : State)
    (msg : List Nat) (colour : Nat) (width : Int) (x : Nat) (hx : st.cursor_x = x)
    (hw : ((W : Int) - 2 * (x : Int)).tdiv ((st.char_width : Int) + 1) = width) :
    lcd_draw_message W H fonts st msg colour =
      lcd_draw_message_loop W H fonts msg colour width x (msg.length + 1) 0 st := by
  subst hx
  subst hw
  rfl

theorem draw_message_loop_step (W H : Nat) (fonts : Font → Nat → Nat) (msg : List Nat)
    (colour : Nat) (width : Int) (x fuel ptr : Nat) (st : State) (hptr : ptr < msg.length) :
    lcd_draw_message_loop W H fonts msg colour width x (fuel + 1) ptr st =
      (lcd_draw_message_line W H fonts msg colour width x ptr st).bind fun r =>
        lcd_draw_message_loop W H fonts msg colour width x fuel r.1 r.2 := by
  rw [lcd_draw_message_loop, if_pos hptr]

/-- C14, at a failing input: a message of 25 letters `'A'` in the power-on
state of a 128x64 panel, where the budget is 21 characters.  The scan of the
first line ends where it started, so the scan pointer stays at 0, before the
end of the message, for any number of turns of the loop, and
`lcd_draw_message` has no result. -/
theorem lcd_draw_message_stuck (fonts : Font → Nat → Nat) :
    ((128 : Int) - 2 * 0).tdiv (5 + 1) = 21 ∧
    lcd_draw_message_scan (List.replicate 25 65) 21 0 26 0 = some 0 ∧
    (∀ fuel st, lcd_draw_message_loop 128 64 fonts (List.replicate 25 65) 1 21 0 fuel 0 st
      = none) ∧
    lcd_draw_message 128 64 fonts (State.initial (List.replicate 1024 0))
      (List.replicate 25 65) 1 = none := by
  have hscan : lcd_draw_message_scan (List.replicate 25 65) 21 0
      ((List.replicate 25 65).length + 1) 0 = some 0 := by decide
  have hstuck := draw_message_loop_stuck 128 64 fonts (List.replicate 25 65) 1 21 0 0
    (by decide) hscan
  refine ⟨by decide, by decide, hstuck, ?_⟩
  rw [lcd_draw_message_unfold 128 64 fonts _ _ 1 21 0 rfl (by decide)]
  exact hstuck _ _

/-- C15, at a failing input: the message `"hi "` followed by 25 letters `'A'`
in the power-on state of a 128x64 panel (budget 21).  The first line is
`"hi"` and leaves the scan pointer at 3; the scan of the second line ends
where it started, just after the space, so its length `nchars` is -1; that
turn has no result, and neither has `lcd_draw_message`. -/
theorem lcd_draw_message_negative_line (fonts : Font → Nat → Nat) :
    lcd_draw_message_scan ([104, 105, 32] ++ List.replicate 25 65) 21 0 29 0 = some 3 ∧
    lcd_draw_message_scan ([104, 105, 32] ++ List.replicate 25 65) 21 3 29 3 = some 3 ∧
    lcd_draw_message_nchars ([104, 105, 32] ++ List.replicate 25 65) 3 3 = some (-1) ∧
    (∀ st, lcd_draw_message_line 128 64 fonts ([104, 105, 32] ++ List.replicate 25 65)
      1 21 0 3 st = none) ∧
    lcd_draw_message 128 64 fonts (State.initial (List.replicate 1024 0))
      ([104, 105, 32] ++ List.replicate 25 65) 1 = none := by
  have hscan0 : lcd_draw_message_scan ([104, 105, 32] ++ List.replicate 25 65) 21 0
      (([104, 105, 32] ++ List.replicate 25 65).length + 1) 0 = some 3 := by decide
  have hscan3 : lcd_draw_message_scan ([104, 105, 32] ++ List.replicate 25 65) 21 3
      (([104, 105, 32] ++ List.replicate 25 65).length + 1) 3 = some 3 := by decide
  have hn3 : lcd_draw_message_nchars ([104, 105, 32] ++ List.replicate 25 65) 3 3
      = some (-1) := by decide
  have hline3 : ∀ st, lcd_draw_message_line 128 64 fonts
      ([104, 105, 32] ++ List.replicate 25 65) 1 21 0 3 st = none := by
    intro st
    unfold lcd_draw_message_line
    rw [hscan3, Option.some_bind, hn3, Option.some_bind, if_pos (by decide)]
  obtain ⟨st₁, _, _, _, _, hline0, _⟩ := draw_message_line_effect 128 64 fonts
    ([104, 105, 32] ++ List.replicate 25 65) 1 (State.initial (List.replicate 1024 0))
    0 0 3 21 2 (by decide) (by decide) (by decide) (List.length_replicate 1024 0)
    (by decide) (by decide) (by decide) hscan0 (by decide) (by decide)
  refine ⟨hscan0, hscan3, hn3, hline3, ?_⟩
  have hstuck := draw_message_loop_stuck 128 64 fonts ([104, 105, 32] ++ List.replicate 25 65)
    1 21 0 3 (by decide) hscan3
  rw [Nat.cast_ofNat] at hline0
  rw [lcd_draw_message_unfold 128 64 fonts _ _ 1 21 0 rfl (by decide),
    draw_message_loop_step _ _ _ _ _ _ _ _ _ _ (by decide), hline0, Option.some_bind]
  exact hstuck _ _

/-! ## Messages: a line that is drawn -/

/-- The plotted colour of a glyph pixel depends on the state through
`char_width` and `font_width` only. -/
theorem glyph_state_fields (table : Nat → Nat) (st st' : State) (g colour x y : Nat)
    (h1 : st'.char_width = st.char_width) (h2 : st'.font_width = st.font_width) :
    glyph_state table st' g colour x y = glyph_state table st g colour x y := by
  unfold glyph_state
  rw [h1, h2]

/-- An accepted `lcd_write_char` that does not reach the right edge: the glyph
cell is drawn at the cursor, `cursor_x` moves one cell to the right and the
rest of the state stays. -/
theorem lcd_write_char_accept_row (W H : Nat) (fonts : Font → Nat → Nat) (st : State)
    (c colour g : Nat)
    (hW : W ≤ 255) (hH : H ≤ 255) (h8 : 8 ∣ H) (hlen : st.lcd_buffer.length = W * H / 8)
    (hgx : st.cursor_x + st.char_width + 1 < W) (hgy : st.cursor_y + st.char_height < H)
    (hg : (if st.font = Font.font_large then large_index c else some c) = some g) :
    ∃ st', lcd_write_char W H fonts st c colour = some st' ∧
      st'.cursor_x = st.cursor_x + st.char_width + 1 ∧ st'.cursor_y = st.cursor_y ∧
      st'.char_width = st.char_width ∧ st'.char_height = st.char_height ∧
      st'.font = st.font ∧ st'.font_width = st.font_width ∧ st'.contrast = st.contrast ∧
      st'.lcd_buffer.length = st.lcd_buffer.length ∧
      (∀ x y, x < st.char_width → y ≤ st.char_height →
        pixel_on W st'.lcd_buffer (st.cursor_x + x) (st.cursor_y + y) =
          decide (glyph_state (fonts st.font) st g colour x y ≠ 0)) ∧
      (∀ y, y ≤ st.char_height →
        pixel_on W st'.lcd_buffer (st.cursor_x + st.char_width) (st.cursor_y + y) =
          decide ((256 + 1 - colour) % 256 ≠ 0)) ∧
      (∀ x y, x < W → y < H →
        ¬ (st.cursor_x ≤ x ∧ x ≤ st.cursor_x + st.char_width ∧
           st.cursor_y ≤ y ∧ y ≤ st.cursor_y + st.char_height) →
        pixel_on W st'.lcd_buffer x y = pixel_on W st.lcd_buffer x y) := by
  obtain ⟨buf', e, l, h1, h2, h3⟩ :=
    lcd_write_char_accept W H fonts st c colour g hW hH h8 hlen (by omega) hgy hg
  exact ⟨_, e, rfl, if_neg (by omega), rfl, rfl, rfl, rfl, rfl, l, h1, h2, h3⟩

/-- A line of characters that `lcd_write_char` accepts, written on a row of the
panel that has room for it: each character takes one cell of `char_width + 1`
columns, in order from the cursor, `cursor_x` ends just after the last cell,
and nothing outside the cells is touched. -/
theorem write_chars_line (W H : Nat) (fonts : Font → Nat → Nat) (colour : Nat)
    (hW : W ≤ 255) (hH : H ≤ 255) (h8 : 8 ∣ H) :
    ∀ (s : List Nat) (st : State), st.lcd_buffer.length = W * H / 8 →
      st.cursor_x + s.length * (st.char_width + 1) < W →
      st.cursor_y + st.char_height < H →
      (st.font = Font.font_large → ∀ c ∈ s, (large_index c).isSome = true) →
      ∃ st', write_chars W H fonts colour st s = some st' ∧
        st'.cursor_x = st.cursor_x + s.length * (st.char_width + 1) ∧
        st'.cursor_y = st.cursor_y ∧ st'.char_width = st.char_width ∧
        st'.char_height = st.char_height ∧ st'.font = st.font ∧
        st'.font_width = st.font_width ∧ st'.contrast = st.contrast ∧
        st'.lcd_buffer.length = st.lcd_buffer.length ∧
        (∀ k c g x y, s[k]? = some c →
          (if st.font = Font.font_large then large_index c else some c) = some g →
          x < st.char_width → y ≤ st.char_height →
          pixel_on W st'.lcd_buffer (st.cursor_x + k * (st.char_width + 1) + x)
              (st.cursor_y + y) =
            decide (glyph_state (fonts st.font) st g colour x y ≠ 0)) ∧
        (∀ k y, k < s.length → y ≤ st.char_height →
          pixel_on W st'.lcd_buffer (st.cursor_x + k * (st.char_width + 1) + st.char_width)
              (st.cursor_y + y) =
            decide ((256 + 1 - colour) % 256 ≠ 0)) ∧
        (∀ x y, x < W → y < H →
          ¬ (st.cursor_x ≤ x ∧ x < st.cursor_x + s.length * (st.char_width + 1) ∧
             st.cursor_y ≤ y ∧ y ≤ st.cursor_y + st.char_height) →
          pixel_on W st'.lcd_buffer x y = pixel_on W st.lcd_buffer x y) := by
  intro s
  induction s with
  | nil =>
    intro st _ _ _ _
    refine ⟨st, rfl, by simp, rfl, rfl, rfl, rfl, rfl, rfl, rfl, ?_, ?_, ?_⟩
    · intro k c g x y hk
      simp at hk
    · intro k y hk
      simp at hk
    · intro x y _ _ _
      rfl
  | cons c cs ih =>
    intro st hlen hfit hrow hacc
    have hmul : (c :: cs).length * (st.char_width + 1) =
        cs.length * (st.char_width + 1) + (st.char_width + 1) := by
      rw [List.length_cons, Nat.succ_mul]
    rw [hmul] at hfit ⊢
    have hg : ∃ g, (if st.font = Font.font_large then large_index c else some c) = some g := by
      by_cases hf : st.font = Font.font_large
      · obtain ⟨g, hg⟩ := Option.isSome_iff_exists.1 (hacc hf c (List.mem_cons_self _ _))
        exact ⟨g, by rw [if_pos hf]; exact hg⟩
      · exact ⟨c, by rw [if_neg hf]⟩
    obtain ⟨g, hg⟩ := hg
    obtain ⟨st1, e, q1, q2, q3, q4, q5, q6, q7, l, p1, p2, p3⟩ :=
      lcd_write_char_accept_row W H fonts st c colour g hW hH h8 hlen (by omega) hrow hg
    obtain ⟨st', h, r1, r2, r3, r4, r5, r6, r7, r8, a1, a2, a3⟩ :=
      ih st1 (l.trans hlen) (by rw [q1, q3]; omega) (by rw [q2, q4]; exact hrow)
        (fun hf c' hc' => hacc (q5 ▸ hf) c' (List.mem_cons_of_mem _ hc'))
    rw [q1, q2, q3, q4, q5] at a1
    rw [q1, q2, q3, q4] at a2
    rw [q1, q2, q3, q4] at a3
    rw [q1, q3] at r1
    refine ⟨st', by simp only [write_chars, e, Option.some_bind, h], by rw [r1]; omega,
      r2.trans q2, r3.trans q3, r4.trans q4, r5.trans q5, r6.trans q6, r7.trans q7,
      r8.trans l, ?_, ?_, ?_⟩
    · intro k c' g' x y hk hg' hx hy
      cases k with
      | zero =>
        simp only [List.getElem?_cons_zero, Option.some.injEq] at hk
        subst hk
        rw [hg] at hg'
        cases hg'
        rw [Nat.zero_mul, Nat.add_zero,
          a3 (st.cursor_x + x) (st.cursor_y + y) (by omega) (by omega) (by omega)]
        exact p1 x y hx hy
      | succ k' =>
        simp only [List.getElem?_cons_succ] at hk
        have hk' : k' < cs.length := by
          rcases Nat.lt_or_ge k' cs.length with h' | h'
          · exact h'
          · rw [List.getElem?_eq_none h'] at hk
            cases hk
        have := a1 k' c' g' x y hk hg' hx hy
        rw [glyph_state_fields _ st st1 g' colour x y q3 q6] at this
        rw [← this]
        congr 1
        ring
    · intro k y hk hy
      cases k with
      | zero =>
        rw [Nat.zero_mul, Nat.add_zero,
          a3 (st.cursor_x + st.char_width) (st.cursor_y + y) (by omega) (by omega) (by omega)]
        exact p2 y hy
      | succ k' =>
        have hk' : k' < cs.length := by
          rw [List.length_cons] at hk
          omega
        have := a2 k' y hk' hy
        rw [← this]
        congr 1
        ring
    · intro x y hx hy hout
      rw [a3 x y hx hy (by omega)]
      exact p3 x y hx hy (by omega)




/-- A turn of the loop of `lcd_draw_message`, once the scan and the length of
the line are known: the line is copied, the cursor is put at its start, the
line is written and `cursor_y` advances. -/
theorem draw_message_line_unfold (W H : Nat) (fonts : Font → Nat → Nat) (msg : List Nat)
    (colour : Nat) (width : Int) (x ptr needle1 n start : Nat) (st : State)
    (hscan : lcd_draw_message_scan msg width ptr (msg.length + 1) ptr = some needle1)
    (hn : lcd_draw_message_nchars msg ptr needle1 = some (n : Int))
    (hbuf : n < W / 6)
    (hstart : toUInt8 ((x : Int) + ((width - (n : Int)) * ((st.char_width : Int) + 1)).tdiv 2)
      = start) :
    lcd_draw_message_line W H fonts msg colour width x ptr st =
      (lcd_write_string W H fonts { st with cursor_x := start } ((msg.drop ptr).take n)
        colour).bind fun st₁ =>
          some (needle1, { st₁ with cursor_y := (st₁.cursor_y + (st₁.char_height + 1)) % 256 }) := by
  have hb : ¬ ((n : Int) ≥ ((W / 6 : Nat) : Int)) := by omega
  unfold lcd_draw_message_line
  rw [hscan, Option.some_bind, hn, Option.some_bind, if_neg (by omega), if_neg hb]
  simp only [Int.toNat_ofNat, hstart]

/-- The loop of `lcd_draw_message` ends when the scan pointer is at the end of
the message. -/
theorem draw_message_loop_done (W H : Nat) (fonts : Font → Nat → Nat) (msg : List Nat)
    (colour : Nat) (width : Int) (x fuel ptr : Nat) (st : State) (hf : 0 < fuel)
    (hptr : ¬ ptr < msg.length) :
    lcd_draw_message_loop W H fonts msg colour width x fuel ptr st = some (ptr, st) := by
  obtain ⟨f, rfl⟩ : ∃ f, fuel = f + 1 := ⟨fuel - 1, by omega⟩
  rw [lcd_draw_message_loop, if_neg hptr]

/-- A message that the first turn of the loop takes whole: `lcd_draw_message`
is that one line. -/
theorem lcd_draw_message_single_line (W H : Nat) (fonts : Font → Nat → Nat) (st : State)
    (msg : List Nat) (colour : Nat) (B n start : Nat) (st₁ : State)
    (hB : ((W : Int) - 2 * (st.cursor_x : Int)).tdiv ((st.char_width : Int) + 1) = (B : Int))
    (hpos : 0 < msg.length)
    (hscan : lcd_draw_message_scan msg B 0 (msg.length + 1) 0 = some msg.length)
    (hn : lcd_draw_message_nchars msg 0 msg.length = some (n : Int))
    (hbuf : n < W / 6)
    (hstart : toUInt8 ((st.cursor_x : Int) +
      (((B : Int) - (n : Int)) * ((st.char_width : Int) + 1)).tdiv 2) = start)
    (hw : lcd_write_string W H fonts { st with cursor_x := start } ((msg.drop 0).take n) colour
      = some st₁) :
    lcd_draw_message W H fonts st msg colour =
      some (msg.length,
        { st₁ with cursor_y := (st₁.cursor_y + (st₁.char_height + 1)) % 256 }) := by
  rw [lcd_draw_message_unfold W H fonts st msg colour B st.cursor_x rfl hB,
    draw_message_loop_step _ _ _ _ _ _ _ _ _ _ hpos,
    draw_message_line_unfold W H fonts msg colour B st.cursor_x 0 msg.length n start st
      hscan hn hbuf hstart, hw, Option.some_bind, Option.some_bind]
  exact draw_message_loop_done _ _ _ _ _ _ _ _ _ _ hpos (lt_irrefl _)

/-- A character outside the large font: `lcd_write_char` returns at once. -/
theorem lcd_write_char_unsupported (W H : Nat) (fonts : Font → Nat → Nat) (st : State)
    (c colour : Nat) (hf : st.font = Font.font_large) (hc : large_index c = none) :
    lcd_write_char W H fonts st c colour = some st := by
  unfold lcd_write_char
  split_ifs
  · rfl
  · rfl
  · simp only [hc]

theorem write_chars_skip (W H : Nat) (fonts : Font → Nat → Nat) (colour : Nat) (st : State)
    (c : Nat) (cs : List Nat) (h : lcd_write_char W H fonts st c colour = some st) :
    write_chars W H fonts colour st (c :: cs) = write_chars W H fonts colour st cs := by
  rw [write_chars, h, Option.some_bind]

/-- C16, for a line on a row inside the panel. A turn of the loop of
`lcd_draw_message` that takes at least one character, with margin `x` and
budget `B = (LCD_WIDTH - 2*x) / (char_width+1)`, in a state with
`char_width ≥ 5` and `cursor_y + char_height < LCD_HEIGHT`, renders a line of
`n < B` characters: `lcd_write_string` is called on them with `cursor_x` at
`start = x + (B - n)*(char_width+1)/2`, a value below 256, and afterwards
`cursor_y` has advanced by exactly `char_height + 1`.  The `n` cells of
`char_width + 1` columns from `start` lie in the budget region
`[x, x + B*(char_width+1))`, itself in the panel, and the blank to their right
is the blank to their left or one pixel more.  When `lcd_write_char` accepts
every character of the line, these cells are what is drawn: each character has
its glyph and its spacing column in its cell, nothing outside the cells is
touched, and `cursor_x` ends at `start + n*(char_width+1)`. -/
theorem lcd_draw_message_line_centred (LCD_WIDTH LCD_HEIGHT : Nat) (fonts : Font → Nat → Nat)
    (msg : List Nat) (colour : Nat) (st : State) (x ptr needle1 B n start : Nat)
    (hW : LCD_WIDTH ≤ 255) (hH : LCD_HEIGHT ≤ 255) (h8 : 8 ∣ LCD_HEIGHT)
    (hlen : st.lcd_buffer.length = LCD_WIDTH * LCD_HEIGHT / 8)
    (hcw : 5 ≤ st.char_width)
    (hB : ((LCD_WIDTH : Int) - 2 * (x : Int)).tdiv ((st.char_width : Int) + 1) = (B : Int))
    (hptr : ptr ≤ msg.length)
    (hscan : lcd_draw_message_scan msg B ptr (msg.length + 1) ptr = some needle1)
    (hadv : ptr < needle1)
    (hn : lcd_draw_message_nchars msg ptr needle1 = some (n : Int))
    (hrow : st.cursor_y + st.char_height < LCD_HEIGHT)
    (hstart : start = x + (B - n) * (st.char_width + 1) / 2) :
    ∃ st₁,
      n < B ∧ x + B * (st.char_width + 1) ≤ LCD_WIDTH ∧ start < 256 ∧
      lcd_write_string LCD_WIDTH LCD_HEIGHT fonts { st with cursor_x := start }
        ((msg.drop ptr).take n) colour = some st₁ ∧
      lcd_draw_message_line LCD_WIDTH LCD_HEIGHT fonts msg colour B x ptr st =
        some (needle1, { st₁ with cursor_y := st.cursor_y + st.char_height + 1 }) ∧
      x ≤ start ∧ start + n * (st.char_width + 1) ≤ x + B * (st.char_width + 1) ∧
      start - x ≤ x + B * (st.char_width + 1) - (start + n * (st.char_width + 1)) ∧
      x + B * (st.char_width + 1) - (start + n * (st.char_width + 1)) ≤ start - x + 1 ∧
      ((st.font = Font.font_large →
          ∀ c ∈ (msg.drop ptr).take n, (large_index c).isSome = true) →
        st₁.cursor_x = start + n * (st.char_width + 1) ∧
        (∀ k c g i j, ((msg.drop ptr).take n)[k]? = some c →
          (if st.font = Font.font_large then large_index c else some c) = some g →
          i < st.char_width → j ≤ st.char_height →
          pixel_on LCD_WIDTH st₁.lcd_buffer (start + k * (st.char_width + 1) + i)
              (st.cursor_y + j) =
            decide (glyph_state (fonts st.font) st g colour i j ≠ 0)) ∧
        (∀ k j, k < n → j ≤ st.char_height →
          pixel_on LCD_WIDTH st₁.lcd_buffer (start + k * (st.char_width + 1) + st.char_width)
              (st.cursor_y + j) =
            decide ((256 + 1 - colour) % 256 ≠ 0)) ∧
        (∀ x' y', x' < LCD_WIDTH → y' < LCD_HEIGHT →
          ¬ (start ≤ x' ∧ x' < start + n * (st.char_width + 1) ∧
             st.cursor_y ≤ y' ∧ y' ≤ st.cursor_y + st.char_height) →
          pixel_on LCD_WIDTH st₁.lcd_buffer x' y' =
            pixel_on LCD_WIDTH st.lcd_buffer x' y')) := by
  obtain ⟨st₁, hnB, hs256, hws, _, hline, hreg, hL, hR⟩ :=
    draw_message_line_effect LCD_WIDTH LCD_HEIGHT fonts msg colour st x ptr needle1 B n
      hW hH h8 hlen hcw hB hptr hscan hadv hn
  obtain ⟨hn1, _, n', hn', _, hpn, _, _⟩ := line_break_spec msg B ptr needle1 hptr hscan hadv
  have hnn : n' = n := by
    rw [hn] at hn'
    exact_mod_cast (Option.some.inj hn').symm
  subst hnn
  have hsub : (B - n') * (st.char_width + 1) =
      B * (st.char_width + 1) - n' * (st.char_width + 1) := Nat.sub_mul _ _ _
  have hstep : n' * (st.char_width + 1) + (st.char_width + 1) ≤ B * (st.char_width + 1) := by
    have := Nat.mul_le_mul_right (st.char_width + 1) (show n' + 1 ≤ B from hnB)
    rwa [Nat.succ_mul] at this
  have hline_len : ((msg.drop ptr).take n').length = n' := by
    rw [List.length_take, List.length_drop]
    omega
  have hmod : (st.cursor_y + (st.char_height + 1)) % 256 = st.cursor_y + st.char_height + 1 :=
    Nat.mod_eq_of_lt (by omega)
  rw [← hstart] at hs256 hws
  rw [hmod] at hline
  have hfit : start + n' * (st.char_width + 1) < LCD_WIDTH := by
    generalize (B - n') * (st.char_width + 1) = q at *
    generalize n' * (st.char_width + 1) = a at *
    generalize B * (st.char_width + 1) = b at *
    omega
  have hn256 : n' < 256 := by
    have := Nat.le_mul_of_pos_right n' (show 0 < st.char_width + 1 by omega)
    omega
  refine ⟨st₁, hnB, hreg, hs256, hws, hline, ?_, ?_, ?_, ?_, ?_⟩
  · omega
  · generalize (B - n') * (st.char_width + 1) = q at *
    generalize n' * (st.char_width + 1) = a at *
    generalize B * (st.char_width + 1) = b at *
    omega
  · generalize (B - n') * (st.char_width + 1) = q at *
    generalize n' * (st.char_width + 1) = a at *
    generalize B * (st.char_width + 1) = b at *
    omega
  · generalize (B - n') * (st.char_width + 1) = q at *
    generalize n' * (st.char_width + 1) = a at *
    generalize B * (st.char_width + 1) = b at *
    omega
  · intro hacc
    obtain ⟨st₂, hw, r1, _, _, _, _, _, _, _, a1, a2, a3⟩ :=
      write_chars_line LCD_WIDTH LCD_HEIGHT fonts colour hW hH h8 ((msg.drop ptr).take n')
        { st with cursor_x := start } hlen (by rw [hline_len]; exact hfit) hrow hacc
    rw [lcd_write_string_short _ _ _ _ _ _ (by rw [hline_len]; exact hn256), hw] at hws
    have hst : st₂ = st₁ := Option.some.inj hws
    subst hst
    rw [hline_len] at r1 a2 a3
    exact ⟨r1, a1, a2, a3⟩

/-- Witness of C16: `"hi there"` at the origin of a blank 128x64 panel, small
font, is one line of 8 characters in a budget of 21; it starts at column 39,
ends at column 87 of the 126 of the budget region, and `cursor_y` goes from 0
to 8. -/
theorem lcd_draw_message_line_centred_witness :
    ∃ st₁ : State, lcd_draw_message_line 128 64 (fun _ _ => 0xAA)
        [104, 105, 32, 116, 104, 101, 114, 101] 1 21 0 0
        (State.initial (List.replicate 1024 0)) = some (8, { st₁ with cursor_y := 8 }) ∧
      st₁.cursor_x = 87 ∧ 39 - 0 = 0 + 21 * 6 - 87 := by
  obtain ⟨st₁, _, _, _, _, hline, _, _, _, _, hin⟩ :=
    lcd_draw_message_line_centred 128 64 (fun _ _ => 0xAA)
      [104, 105, 32, 116, 104, 101, 114, 101] 1 (State.initial (List.replicate 1024 0))
      0 0 8 21 8 39 (by decide) (by decide) (by decide) (List.length_replicate 1024 0)
      (by decide) (by decide) (by decide) (by decide) (by decide) (by decide) (by decide)
      (by decide)
  exact ⟨st₁, hline, (hin (fun hf => absurd hf (by decide))).1, rfl⟩

/-- Counterexample to C16 as stated: with the large font (cells of 12 columns,
budget 10, region `[0, 120)`) on a blank 128x64 panel, the message `"ab12"` is
one line of `nchars = 4` that starts at `0 + (10 - 4)*12/2 = 36`.
`lcd_write_char` returns at the two letters without moving the cursor, so only
`1` and `2` are drawn, in the cells `[36, 48)` and `[48, 60)`: with a font
table of full glyphs the ink is in columns 36 to 58 and the cursor ends at 60.
The blank to the left of the line is 36 columns and the blank to its right, up
to column 119, is 61 columns. -/
theorem lcd_draw_message_off_centre_counterexample :
    ((128 : Int) - 2 * 0).tdiv (11 + 1) = 10 ∧
    lcd_draw_message_scan [97, 98, 49, 50] 10 0 5 0 = some 4 ∧
    lcd_draw_message_nchars [97, 98, 49, 50] 0 4 = some 4 ∧
    0 + (10 - 4) * (11 + 1) / 2 = 36 ∧
    ∃ st', lcd_draw_message 128 64 (fun _ _ => 0xFF)
        (lcd_set_char_size (State.initial (List.replicate 1024 0))
          LCD_CHAR_SIZE.LCD_CHAR_SIZE_MEDIUM)
        [97, 98, 49, 50] 1 = some (4, st') ∧
      st'.cursor_x = 60 ∧ st'.cursor_y = 16 ∧
      pixel_on 128 st'.lcd_buffer 36 0 = true ∧
      pixel_on 128 st'.lcd_buffer 58 0 = true ∧
      (∀ x y, x < 128 → y < 64 → (x < 36 ∨ 59 ≤ x) →
        pixel_on 128 st'.lcd_buffer x y = false) := by
  obtain ⟨st₁, hw, r1, r2, _, r4, _, _, _, _, a1, a2, a3⟩ :=
    write_chars_line 128 64 (fun _ _ => 0xFF) 1 (by decide) (by decide) (by decide) [49, 50]
      { lcd_set_char_size (State.initial (List.replicate 1024 0))
          LCD_CHAR_SIZE.LCD_CHAR_SIZE_MEDIUM with cursor_x := 36 }
      (List.length_replicate 1024 0) (by decide) (by decide)
      (fun _ c hc => by
        rcases List.mem_cons.1 hc with rfl | hc
        · decide
        · rcases List.mem_cons.1 hc with rfl | hc
          · decide
          · cases hc)
  have hws : lcd_write_string 128 64 (fun _ _ => 0xFF)
      { lcd_set_char_size (State.initial (List.replicate 1024 0))
          LCD_CHAR_SIZE.LCD_CHAR_SIZE_MEDIUM with cursor_x := 36 }
      (([97, 98, 49, 50].drop 0).take 4) 1 = some st₁ := by
    rw [lcd_write_string_short _ _ _ _ _ _ (by decide)]
    show write_chars 128 64 (fun _ _ => 0xFF) 1 _ [97, 98, 49, 50] = some st₁
    rw [write_chars_skip _ _ _ _ _ 97 _
        (lcd_write_char_unsupported _ _ _ _ 97 1 rfl (by decide)),
      write_chars_skip _ _ _ _ _ 98 _
        (lcd_write_char_unsupported _ _ _ _ 98 1 rfl (by decide)), hw]
  have hm := lcd_draw_message_single_line 128 64 (fun _ _ => 0xFF)
    (lcd_set_char_size (State.initial (List.replicate 1024 0))
      LCD_CHAR_SIZE.LCD_CHAR_SIZE_MEDIUM) [97, 98, 49, 50] 1 10 4 36 st₁
    (by decide) (by decide) (by decide) (by decide) (by decide) (by decide) hws
  simp only [lcd_set_char_size, State.initial, List.length_cons, List.length_nil]
    at r1 r2 r4 a1 a2 a3
  refine ⟨by decide, by decide, by decide, by decide, _, hm, ?_, ?_, ?_, ?_, ?_⟩
  · show st₁.cursor_x = 60
    rw [r1]
  · show (st₁.cursor_y + (st₁.char_height + 1)) % 256 = 16
    rw [r2, r4]
  · show pixel_on 128 st₁.lcd_buffer 36 0 = true
    exact (a1 0 49 1 0 0 rfl (by decide) (by decide) (by decide)).trans (by decide)
  · show pixel_on 128 st₁.lcd_buffer 58 0 = true
    exact (a1 1 50 2 10 0 rfl (by decide) (by decide) (by decide)).trans (by decide)
  · intro x y hx hy hxx
    show pixel_on 128 st₁.lcd_buffer x y = false
    by_cases hgap : x = 59 ∧ y ≤ 15
    · obtain ⟨rfl, hy'⟩ := hgap
      have h59 := a2 1 y (by decide) hy'
      rw [Nat.zero_add] at h59
      exact h59.trans (by decide)
    · rw [a3 x y hx hy (by omega)]
      exact pixel_on_blank 128 1024 _ _

end Lcd
